import Mathlib

/-!
# fastCORDIC: a verification development

Shallow embedding of `src/cordic.cpp` and `src/cordic.h` (fastCORDIC 1.0.0, an Arduino
library).  The target is the 8-bit AVR: `int` is 16 bits, `long` is 32 bits,
`unsigned char` is 8 bits and `unsigned int` is 16 bits, all two's complement.

* Signed registers are modelled as `Int`; every store goes through `wrap16` / `wrap32`.
* Unsigned registers are modelled as `Nat`; every store goes through `toU8` / `toU16`.
* An object of class `cordic8` / `cordic10` is a record of its data members and the member
  function `atan2sqrt` is a function from the object before the call to the object after it.
-/

namespace FastCordic

/-! ## Machine integers -/

/-- Conversion to a 16-bit signed `int`. -/
def wrap16 (v : Int) : Int := (v + 32768) % 65536 - 32768

/-- Conversion to a 32-bit signed `long`. -/
def wrap32 (v : Int) : Int := (v + 2147483648) % 4294967296 - 2147483648

/-- Conversion to an 8-bit `unsigned char`. -/
def toU8 (v : Int) : Nat := (v % 256).toNat

/-- Conversion to a 16-bit `unsigned int`. -/
def toU16 (v : Int) : Nat := (v % 65536).toNat

/-! ## Look-up tables (`cordic.h`) -/

/-- Table `sin_lut[7]` of `cordic.h`. -/
def sin_lut : List Int := [12540, 6393, 3212, 1608, 804, 402, 201]

/-- Table `cos_lut[7]` of `cordic.h`. -/
def cos_lut : List Int := [30274, 32138, 32610, 32729, 32758, 32766, 32767]

/-- Table `tan_lut[6]` of `cordic.h` (not used by the solvers). -/
def tan_lut : List Int := [32768, 13573, 6518, 3227, 1610, 804]

/-! ## `cordic8` -/

/-- Data members of class `cordic8`. -/
structure cordic8 where
  angle : Nat
  radius : Nat
  x0 : Int
  y0 : Int
  tmp : Int
  x1 : Int
  y1 : Int
  phi : Nat
  currentAngle : Nat
  k : Nat
  sign : Bool
  deriving DecidableEq, Repr

namespace cordic8

/-- Line 75 of `cordic.cpp`: `x0 = _x; y0 = _y; angle = 0; sign = false;`. -/
def load (s : cordic8) (_x _y : Int) : cordic8 :=
  { s with x0 := wrap16 _x, y0 := wrap16 _y, angle := 0, sign := false }

/-- Lines 76-80 of `cordic.cpp`: `if (y0 < 0) { ... }`, "rotate 128 cw". -/
def rot128 (s : cordic8) : cordic8 :=
  if s.y0 < 0 then
    { s with x0 := wrap16 (-s.x0), y0 := wrap16 (-s.y0), angle := 128 }
  else s

/-- Lines 81-86 of `cordic.cpp`: `if (x0 < 0) { ... }`, "rotate 64 cw". -/
def rot64 (s : cordic8) : cordic8 :=
  if s.x0 < 0 then
    { s with tmp := s.x0, x0 := s.y0, y0 := wrap16 (-s.x0),
             angle := toU8 ((s.angle : Int) + 64) }
  else s

/-- Lines 87-93 of `cordic.cpp`: `if (y0 > x0) { ... }`, the reflection in the 45 degree
line. -/
def reflect (s : cordic8) : cordic8 :=
  if s.y0 > s.x0 then
    { s with sign := true, angle := toU8 ((s.angle : Int) + 64), tmp := s.x0, x0 := s.y0,
             y0 := s.x0 }
  else s

/-- Lines 75-93 of `cordic.cpp`: load the arguments and fold the vector into the first
octant. -/
def fold (s : cordic8) (_x _y : Int) : cordic8 :=
  reflect (rot64 (rot128 (load s _x _y)))

/-- Value of `x1` after lines 96-97. -/
def candX (s : cordic8) : Int :=
  wrap32 (wrap32 (cos_lut.getD s.k 0 * s.x0) + wrap32 (sin_lut.getD s.k 0 * s.y0))

/-- Value of `y1` after lines 98-99. -/
def candY (s : cordic8) : Int :=
  wrap32 (wrap32 (wrap32 (-(sin_lut.getD s.k 0)) * s.x0) + wrap32 (cos_lut.getD s.k 0 * s.y0))

/-- Lines 96-106 of `cordic.cpp`: one pass through the body of the `while` loop. -/
def body (s : cordic8) : cordic8 :=
  let s := { s with x1 := candX s, y1 := candY s }
  let s := if s.y1 ≥ 0 then
      { s with x0 := wrap16 (s.x1 >>> (15 : Nat)), y0 := wrap16 (s.y1 >>> (15 : Nat)),
               phi := toU8 ((s.phi : Int) + (s.currentAngle : Int)) }
    else s
  { s with currentAngle := toU8 ((s.currentAngle : Int) >>> (1 : Nat)),
           k := toU8 ((s.k : Int) + 1) }

/-- Lines 95-107 of `cordic.cpp`: `while (k <= 4) { ... }`, with a bound on the number of
passes. -/
def loop : Nat → cordic8 → cordic8
  | 0, s => s
  | fuel + 1, s => if s.k ≤ 4 then loop fuel (body s) else s

/-- Line 94 of `cordic.cpp`: `currentAngle = 16; phi = 0; k = 0;`. -/
def init (s : cordic8) : cordic8 :=
  { s with currentAngle := 16, phi := 0, k := 0 }

/-- Lines 108-109 of `cordic.cpp`: `radius = x0; angle += ((sign) ? -phi : +phi);`.  The
operands of the conditional are promoted to `int`; the sum is converted back to
`unsigned char`. -/
def finish (s : cordic8) : cordic8 :=
  let s := { s with radius := toU16 s.x0 }
  { s with angle := toU8 ((s.angle : Int) + (if s.sign then -(s.phi : Int) else (s.phi : Int))) }

/-- Member function `cordic8::atan2sqrt` (lines 74-111 of `cordic.cpp`): the object after
the call, from the object before the call and the two arguments. -/
def atan2sqrt (s : cordic8) (_x _y : Int) : cordic8 :=
  finish (loop 5 (init (fold s _x _y)))

end cordic8

/-! ## `cordic10` -/

/-- Data members of class `cordic10`. -/
structure cordic10 where
  angle : Nat
  radius : Nat
  x0 : Int
  y0 : Int
  tmp : Int
  x1 : Int
  y1 : Int
  k : Nat
  phi : Nat
  currentAngle : Nat
  sign : Bool
  deriving DecidableEq, Repr

namespace cordic10

/-- Line 123 of `cordic.cpp`: `x0 = _x; y0 = _y; angle = 0; sign = 0;`. -/
def load (s : cordic10) (_x _y : Int) : cordic10 :=
  { s with x0 := wrap16 _x, y0 := wrap16 _y, angle := 0, sign := false }

/-- Lines 124-128 of `cordic.cpp`: `if (y0 < 0) { ... }`. -/
def rot512 (s : cordic10) : cordic10 :=
  if s.y0 < 0 then
    { s with x0 := wrap16 (-s.x0), y0 := wrap16 (-s.y0), angle := 512 }
  else s

/-- Lines 129-134 of `cordic.cpp`: `if (x0 < 0) { ... }`. -/
def rot256 (s : cordic10) : cordic10 :=
  if s.x0 < 0 then
    { s with tmp := s.x0, x0 := s.y0, y0 := wrap16 (-s.x0),
             angle := toU16 ((s.angle : Int) + 256) }
  else s

/-- Lines 135-141 of `cordic.cpp`: `if (y0 > x0) { ... }`, the reflection in the 45 degree
line. -/
def reflect (s : cordic10) : cordic10 :=
  if s.y0 > s.x0 then
    { s with sign := true, angle := toU16 ((s.angle : Int) + 256), tmp := s.x0, x0 := s.y0,
             y0 := s.x0 }
  else s

/-- Lines 123-141 of `cordic.cpp`: load the arguments and fold the vector into the first
octant. -/
def fold (s : cordic10) (_x _y : Int) : cordic10 :=
  reflect (rot256 (rot512 (load s _x _y)))

/-- Value of `x1` after lines 144-145. -/
def candX (s : cordic10) : Int :=
  wrap32 (wrap32 (cos_lut.getD s.k 0 * s.x0) + wrap32 (sin_lut.getD s.k 0 * s.y0))

/-- Value of `y1` after lines 146-147. -/
def candY (s : cordic10) : Int :=
  wrap32 (wrap32 (cos_lut.getD s.k 0 * s.y0) - wrap32 (sin_lut.getD s.k 0 * s.x0))

/-- Lines 144-154 of `cordic.cpp`: one pass through the body of the `while` loop. -/
def body (s : cordic10) : cordic10 :=
  let s := { s with x1 := candX s, y1 := candY s }
  let s := if s.y1 ≥ 0 then
      { s with x0 := wrap16 (s.x1 >>> (15 : Nat)), y0 := wrap16 (s.y1 >>> (15 : Nat)),
               phi := toU16 ((s.phi : Int) + (s.currentAngle : Int)) }
    else s
  { s with currentAngle := toU16 ((s.currentAngle : Int) >>> (1 : Nat)),
           k := toU8 ((s.k : Int) + 1) }

/-- Lines 143-155 of `cordic.cpp`: `while (k <= 6) { ... }`, with a bound on the number of
passes. -/
def loop : Nat → cordic10 → cordic10
  | 0, s => s
  | fuel + 1, s => if s.k ≤ 6 then loop fuel (body s) else s

/-- Line 142 of `cordic.cpp`: `currentAngle = 64; phi = 0; k = 0;`. -/
def init (s : cordic10) : cordic10 :=
  { s with currentAngle := 64, phi := 0, k := 0 }

/-- Lines 156-159 of `cordic.cpp`: `radius = x0; angle += ((sign) ? -phi : +phi);
angle = angle << 6;`, all in 16-bit `unsigned int` arithmetic. -/
def finish (s : cordic10) : cordic10 :=
  let s := { s with radius := toU16 s.x0 }
  let v : Nat := if s.sign then toU16 (-(s.phi : Int)) else s.phi
  let s := { s with angle := toU16 ((s.angle : Int) + (v : Int)) }
  { s with angle := toU16 ((s.angle : Int) * 64) }

/-- Member function `cordic10::atan2sqrt` (lines 122-161 of `cordic.cpp`): the object after
the call, from the object before the call and the two arguments. -/
def atan2sqrt (s : cordic10) (_x _y : Int) : cordic10 :=
  finish (loop 7 (init (fold s _x _y)))

end cordic10

/-! ## `cordic16` -/

/-- Modelled from the spec: the declaration of class `cordic16` is not part of `cordic.h`;
its data members are the variables used by `cordic16::sincos`, all of type `int`. -/
structure cordic16 where
  x : Int
  y : Int
  z : Int
  n : Int
  k : Int
  d : Int
  tx : Int
  ty : Int
  tz : Int
  cos : Int
  sin : Int
  deriving DecidableEq, Repr

namespace cordic16

/-- Lines 183-187 of `cordic.cpp`: one pass through the body of the `for` loop.  The table
`cordic_ctab` is a parameter; reading it outside its bounds gives `none`. -/
def body (cordic_ctab : List Int) (s : cordic16) : Option cordic16 :=
  match cordic_ctab.get? s.k.toNat with
  | none => none
  | some c =>
    let s := { s with d := wrap16 (s.z >>> (15 : Nat)) }
    let s := { s with tx := wrap16 (s.x - (Int.xor (s.y >>> s.k.toNat) s.d - s.d)) }
    let s := { s with ty := wrap16 (s.y + (Int.xor (s.x >>> s.k.toNat) s.d - s.d)) }
    let s := { s with tz := wrap16 (s.z - (Int.xor c s.d - s.d)) }
    some { s with x := s.tx, y := s.ty, z := s.tz }

/-- Lines 182-188 of `cordic.cpp`: `for (k = 0; k < n; ++k) { ... }` entered with `k`
already set, with a bound on the number of passes; `none` when the bound is used up before
the loop condition fails. -/
def loop (cordic_ctab : List Int) : Nat → cordic16 → Option cordic16
  | 0, s => if s.k < s.n then none else some s
  | fuel + 1, s =>
    if s.k < s.n then
      match body cordic_ctab s with
      | none => none
      | some s => loop cordic_ctab fuel { s with k := wrap16 (s.k + 1) }
    else some s

/-- Member function `cordic16::sincos` (lines 176-190 of `cordic.cpp`).  The macros
`CORDIC_1K`, `CORDIC_NTAB` and the table `cordic_ctab`, which the sources do not define,
are parameters. -/
def sincos (CORDIC_1K CORDIC_NTAB : Int) (cordic_ctab : List Int) (s : cordic16)
    (_theta _n : Int) : Option cordic16 :=
  let s := { s with x := wrap16 CORDIC_1K }
  let s := { s with y := 0 }
  let s := { s with z := wrap16 _theta }
  let s := { s with n := wrap16 (if wrap16 _n > CORDIC_NTAB then CORDIC_NTAB else wrap16 _n) }
  let s := { s with k := 0 }
  match loop cordic_ctab s.n.toNat s with
  | none => none
  | some s => some { s with cos := s.x, sin := s.y }

end cordic16

/-- Modelled from the spec: `CORDIC_1K`, the gain compensation `1/k = 0.6072529...` on the
scale `1.0 = 16384` (`0.6072529 * 16384 = 9949.2`). -/
def CORDIC_1K : Int := 9949

/-- Modelled from the spec: `CORDIC_NTAB`, the number of table entries (a 16-term solver). -/
def CORDIC_NTAB : Int := 16

/-- Modelled from the spec: `cordic_ctab`, the 16 step angles `atan(2^-k)` on the scale
`1.0 = 16384`, truncated to integers. -/
def cordic_ctab : List Int :=
  [12867, 7596, 4013, 2037, 1022, 511, 255, 127, 63, 31, 15, 7, 3, 1, 0, 0]


/-! ## `cordic8` with unbounded integers and a range check at every store

The same statements as `cordic8::atan2sqrt`, computed on unbounded integers; every store
into `x0`, `y0`, `tmp`, `x1` or `y1` checks that the value is representable, and the run
stops with `none` at the first value that is not.  From the end of the folding on, the
stores into `x0` and `y0` check the range `[0, 32767]`. -/

/-- A value stored into a 16-bit signed `int`. -/
def store16 (v : Int) : Option Int :=
  if -32768 ≤ v ∧ v ≤ 32767 then some v else none

/-- A value stored into a 32-bit signed `long`. -/
def store32 (v : Int) : Option Int :=
  if -2147483648 ≤ v ∧ v ≤ 2147483647 then some v else none

/-- A value stored into `x0` or `y0` from the end of the folding on. -/
def storePos (v : Int) : Option Int :=
  if 0 ≤ v ∧ v ≤ 32767 then some v else none

namespace cordic8

/-- Line 75 of `cordic.cpp` with checked stores. -/
def loadChecked (s : cordic8) (_x _y : Int) : Option cordic8 := do
  let x0 ← store16 _x
  let y0 ← store16 _y
  pure { s with x0 := x0, y0 := y0, angle := 0, sign := false }

/-- Lines 76-80 of `cordic.cpp` with checked stores. -/
def rot128Checked (s : cordic8) : Option cordic8 :=
  if s.y0 < 0 then do
    let x0 ← store16 (-s.x0)
    let y0 ← store16 (-s.y0)
    pure { s with x0 := x0, y0 := y0, angle := 128 }
  else pure s

/-- Lines 81-86 of `cordic.cpp` with checked stores. -/
def rot64Checked (s : cordic8) : Option cordic8 :=
  if s.x0 < 0 then do
    let tmp ← store16 s.x0
    let x0 ← store16 s.y0
    let y0 ← store16 (-tmp)
    pure { s with tmp := tmp, x0 := x0, y0 := y0, angle := toU8 ((s.angle : Int) + 64) }
  else pure s

/-- Lines 87-93 of `cordic.cpp` with checked stores. -/
def reflectChecked (s : cordic8) : Option cordic8 :=
  if s.y0 > s.x0 then do
    let tmp ← store16 s.x0
    let x0 ← store16 s.y0
    let y0 ← store16 tmp
    pure { s with sign := true, angle := toU8 ((s.angle : Int) + 64), tmp := tmp, x0 := x0,
                  y0 := y0 }
  else pure s

/-- The end of the folding: `x0` and `y0` are checked to lie in `[0, 32767]`. -/
def foldedChecked (s : cordic8) : Option cordic8 := do
  let x0 ← storePos s.x0
  let y0 ← storePos s.y0
  pure { s with x0 := x0, y0 := y0 }

/-- Lines 75-93 of `cordic.cpp` with checked stores. -/
def foldChecked (s : cordic8) (_x _y : Int) : Option cordic8 := do
  let s ← loadChecked s _x _y
  let s ← rot128Checked s
  let s ← rot64Checked s
  let s ← reflectChecked s
  foldedChecked s

/-- Lines 101-103 of `cordic.cpp` with checked stores. -/
def commitChecked (s : cordic8) : Option cordic8 := do
  let x0 ← storePos (s.x1 >>> (15 : Nat))
  let y0 ← storePos (s.y1 >>> (15 : Nat))
  pure { s with x0 := x0, y0 := y0, phi := toU8 ((s.phi : Int) + (s.currentAngle : Int)) }

/-- Lines 96-106 of `cordic.cpp` with checked stores: every value of `x1` and `y1` is
checked. -/
def bodyChecked (s : cordic8) : Option cordic8 := do
  let x1 ← store32 (cos_lut.getD s.k 0 * s.x0)
  let x1 ← store32 (x1 + sin_lut.getD s.k 0 * s.y0)
  let y1 ← store32 (-(sin_lut.getD s.k 0) * s.x0)
  let y1 ← store32 (y1 + cos_lut.getD s.k 0 * s.y0)
  let s := { s with x1 := x1, y1 := y1 }
  let s ← if s.y1 ≥ (0 : Int) then commitChecked s else pure s
  pure { s with currentAngle := toU8 ((s.currentAngle : Int) >>> (1 : Nat)),
                k := toU8 ((s.k : Int) + 1) }

/-- Lines 95-107 of `cordic.cpp` with checked stores. -/
def loopChecked : Nat → cordic8 → Option cordic8
  | 0, s => some s
  | fuel + 1, s => if s.k ≤ 4 then (bodyChecked s).bind (loopChecked fuel) else some s

/-- Member function `cordic8::atan2sqrt` with checked stores. -/
def atan2sqrtChecked (s : cordic8) (_x _y : Int) : Option cordic8 := do
  let s ← foldChecked s _x _y
  let s ← loopChecked 5 (init s)
  pure (finish s)

end cordic8

/-! ## The final sign combination, as a statement of its own and in branch form -/

namespace cordic8

/-- Line 109 of `cordic.cpp`, the statement `angle += ((sign) ? -phi : +phi);` alone: the
operands are promoted to `int` and the sum is converted back to `unsigned char`. -/
def combine (s : cordic8) : cordic8 :=
  { s with angle := toU8 ((s.angle : Int) + (if s.sign then -(s.phi : Int) else (s.phi : Int))) }

/-- The explicit branch named in the comment of line 109 and in the spec:
`if(sign) {angle-=phi;} else {angle+=phi;}`. -/
def combineBranch (s : cordic8) : cordic8 :=
  if s.sign then { s with angle := toU8 ((s.angle : Int) - (s.phi : Int)) }
  else { s with angle := toU8 ((s.angle : Int) + (s.phi : Int)) }

end cordic8

namespace cordic10

/-- Line 157 of `cordic.cpp`, the statement `angle += ((sign) ? -phi : +phi);` alone, in
16-bit `unsigned int` arithmetic: `-phi` is the unsigned negation. -/
def combine (s : cordic10) : cordic10 :=
  let v : Nat := if s.sign then toU16 (-(s.phi : Int)) else s.phi
  { s with angle := toU16 ((s.angle : Int) + (v : Int)) }

/-- The explicit branch named in the comment of line 157 and in the spec:
`if(sign) {angle-=phi;} else {angle+=phi;}`. -/
def combineBranch (s : cordic10) : cordic10 :=
  if s.sign then { s with angle := toU16 ((s.angle : Int) - (s.phi : Int)) }
  else { s with angle := toU16 ((s.angle : Int) + (s.phi : Int)) }

end cordic10

/-! ## The loop body of `sincos` in if/else form -/

namespace cordic16

/-- The loop body of `sincos` written with an if/else on the sign of `z`, as the spec
describes what the XOR-and-subtract idiom stands for: `x -= y >> k; y += x >> k;
z -= cordic_ctab[k]` for `z >= 0`, the opposite signs for `z < 0` (with the old `x` in the
update of `y`); `d` is the sign mask. -/
def bodyBranch (cordic_ctab : List Int) (s : cordic16) : Option cordic16 :=
  match cordic_ctab.get? s.k.toNat with
  | none => none
  | some c =>
    if s.z ≥ 0 then
      some { s with d := 0,
                    tx := wrap16 (s.x - (s.y >>> s.k.toNat)),
                    ty := wrap16 (s.y + (s.x >>> s.k.toNat)),
                    tz := wrap16 (s.z - c),
                    x := wrap16 (s.x - (s.y >>> s.k.toNat)),
                    y := wrap16 (s.y + (s.x >>> s.k.toNat)),
                    z := wrap16 (s.z - c) }
    else
      some { s with d := -1,
                    tx := wrap16 (s.x + (s.y >>> s.k.toNat)),
                    ty := wrap16 (s.y - (s.x >>> s.k.toNat)),
                    tz := wrap16 (s.z + c),
                    x := wrap16 (s.x + (s.y >>> s.k.toNat)),
                    y := wrap16 (s.y - (s.x >>> s.k.toNat)),
                    z := wrap16 (s.z + c) }

end cordic16

/-! ## Accuracy of `sincos` at `theta = 0` -/

namespace cordic8

/-- Squared length of the working vector. -/
def normSq (s : cordic8) : Int := s.x0 ^ 2 + s.y0 ^ 2

/-- Numerators, over `2^60`, of the bound on the growth of the squared length before pass
`k`: entries 0 and 3 of the tables have `cos^2 + sin^2` above `2^30`. -/
def gainBound : Nat → Int
  | 0 => 2 ^ 60
  | 1 => 1073766676 * 2 ^ 30
  | 2 => 1073766676 * 2 ^ 30
  | 3 => 1073766676 * 2 ^ 30
  | _ => 1073766676 * 1073773105

/-- Loop invariant: the working vector is in the first quadrant and its squared length has
grown by at most `gainBound k / 2^60` from `Q0`. -/
structure Inv (Q0 : Int) (s : cordic8) : Prop where
  x0_nonneg : 0 ≤ s.x0
  y0_nonneg : 0 ≤ s.y0
  bound : normSq s * 2 ^ 60 ≤ Q0 * gainBound s.k

end cordic8

namespace cordic8

/-- The registers read by the loop agree in two objects. -/
def Agree (s t : cordic8) : Prop :=
  s.x0 = t.x0 ∧ s.y0 = t.y0 ∧ s.phi = t.phi ∧ s.currentAngle = t.currentAngle ∧ s.k = t.k

end cordic8

/-- An object of class `cordic8` with every data member zero. -/
def cordic8.zero : cordic8 := ⟨0, 0, 0, 0, 0, 0, 0, 0, 0, 0, false⟩

/-- An object of class `cordic10` with every data member zero. -/
def cordic10.zero : cordic10 := ⟨0, 0, 0, 0, 0, 0, 0, 0, 0, 0, false⟩

namespace cordic10

/-- The registers read by the loop agree in two objects. -/
def Agree (s t : cordic10) : Prop :=
  s.x0 = t.x0 ∧ s.y0 = t.y0 ∧ s.phi = t.phi ∧ s.currentAngle = t.currentAngle ∧ s.k = t.k

end cordic10

/-- An object of class `cordic16` with every data member zero. -/
def cordic16.zero : cordic16 := ⟨0, 0, 0, 0, 0, 0, 0, 0, 0, 0, 0⟩

namespace cordic16

/-- The registers read by the loop agree in two objects. -/
def Agree (s t : cordic16) : Prop :=
  s.x = t.x ∧ s.y = t.y ∧ s.z = t.z ∧ s.n = t.n ∧ s.k = t.k

/-- Two outcomes are both faults, or both objects that agree. -/
def OptAgree : Option cordic16 → Option cordic16 → Prop
  | some a, some b => Agree a b
  | none, none => True
  | _, _ => False

/-- The results `(sin, cos)` of a call, when it returns. -/
def results (r : Option cordic16) : Option (Int × Int) :=
  r.map fun s => (s.sin, s.cos)

end cordic16

namespace cordic16

/-- Some choice of rotation directions in `fuel` passes of the loop of `sincos`, the first
with index `k`, takes the vector `(x, y)` to `(tx, ty)`. -/
def reach (tx ty : Int) : Nat → Nat → Int → Int → Bool
  | 0, _, x, y => x == tx && y == ty
  | fuel + 1, k, x, y =>
    reach tx ty fuel (k + 1) (wrap16 (x - (y >>> k))) (wrap16 (y + (x >>> k))) ||
    reach tx ty fuel (k + 1) (wrap16 (x + (y >>> k))) (wrap16 (y - (x >>> k)))

/-- The vectors after one more pass with index `k`, for both directions. -/
def expand (k : Nat) : List (Int × Int) → List (Int × Int)
  | [] => []
  | p :: ps =>
    (wrap16 (p.1 - (p.2 >>> k)), wrap16 (p.2 + (p.1 >>> k))) ::
    (wrap16 (p.1 + (p.2 >>> k)), wrap16 (p.2 - (p.1 >>> k))) :: expand k ps

end cordic16


/-! ## Bounds for the accuracy of `cordic8::atan2sqrt` -/

namespace cordic8

/-- Coefficient of `y0` in the bound on the residual angle before pass `k`: the cosine of
the step of pass `k - 1` (before pass 0 the bound is `y0 <= x0`). -/
def preA : Nat → Int
  | 0 => 1
  | k + 1 => cos_lut.getD k 0

/-- Coefficient of `x0` in the bound on the residual angle before pass `k`: the sine of the
step of pass `k - 1`. -/
def preB : Nat → Int
  | 0 => 1
  | k + 1 => sin_lut.getD k 0

/-- Allowance for the truncations of the earlier passes in the bound on the residual angle
before pass `k`. -/
def preE : Nat → Int
  | 0 => 0
  | 1 => 12539
  | 2 => 18931
  | 3 => 22142
  | 4 => 23750
  | _ => 39467

/-- Before pass `k` the working vector makes at most the step angle of pass `k - 1` with the
x-axis, up to the truncations: `cos * y0 - sin * x0 <= preE k`. -/
def Pre (k : Nat) (s : cordic8) : Prop := preA k * s.y0 - preB k * s.x0 ≤ preE k

/-- Coefficients of a lower bound on the squared length of the working vector:
`gain * Q0 <= scale * (x0^2 + y0^2) + lin * x0 + const`. -/
structure NormLoss where
  gain : Int
  scale : Int
  lin : Int
  const : Int

/-- The coefficients after `k` passes, for the passes committed so far: bit `i` of `m`,
counted from the top of `k` bits, tells whether pass `i` committed.  A committed pass `i`
with table entries `c`, `s` multiplies the squared length by `(c^2 + s^2) / 2^30` and then
truncates both coordinates, which loses less than `2 * x0 + 2 * y0 + 2`, where
`c * y0 <= s * x0 + preE (i + 1)`. -/
def normLoss : Nat → Nat → NormLoss
  | 0, _ => ⟨1, 1, 0, 0⟩
  | k + 1, m =>
    if m % 2 = 1 then
      ⟨cos_lut.getD k 0 * (cos_lut.getD k 0 ^ 2 + sin_lut.getD k 0 ^ 2) * (normLoss k (m / 2)).gain,
        2 ^ 30 * cos_lut.getD k 0 * (normLoss k (m / 2)).scale,
        cos_lut.getD k 0 * (cos_lut.getD k 0 ^ 2 + sin_lut.getD k 0 ^ 2) * (normLoss k (m / 2)).lin
          + 2 ^ 30 * (normLoss k (m / 2)).scale * (2 * cos_lut.getD k 0 + 2 * sin_lut.getD k 0),
        cos_lut.getD k 0 * (cos_lut.getD k 0 ^ 2 + sin_lut.getD k 0 ^ 2) * (normLoss k (m / 2)).const
          + 2 ^ 30 * (normLoss k (m / 2)).scale * (2 * preE (k + 1) + 2 * cos_lut.getD k 0)⟩
    else normLoss k (m / 2)

/-- The lower bound on the squared length after `k` passes with the committed passes `m`,
for a vector that entered the loop with squared length `Q0`. -/
def NormInv (Q0 : Int) (k m : Nat) (s : cordic8) : Prop :=
  (normLoss k m).gain * Q0 ≤
    (normLoss k m).scale * normSq s + (normLoss k m).lin * s.x0 + (normLoss k m).const

end cordic8

/-! ## The true angle, exactly -/

/-- Binary digits of the true angle of a first-octant vector: for `0 <= y < x`,
`angleDigits j x y` is the integer part of the angle of `(x, y)` in units of
`(pi / 4) / 2^j`.  Squaring `x + i*y` doubles the angle, exactly, in integers; the square
is at or above 45 degrees when its imaginary part reaches its real part, which gives the
next digit, and the multiplication by `1 - i` then turns it back by 45 degrees. -/
def angleDigits : Nat → Int → Int → Nat
  | 0, _, _ => 0
  | j + 1, x, y =>
    if x * x - y * y ≤ 2 * x * y then
      2 ^ j + angleDigits j (x * x - y * y + 2 * x * y) (2 * x * y - (x * x - y * y))
    else angleDigits j (x * x - y * y) (2 * x * y)

/-- Integer part of the true angle of a first-octant vector `0 <= y <= x`, `x > 0`, in
units of 1/256 of a turn: 32 on the diagonal, five binary digits below it. -/
def trueOctant (x y : Int) : Nat := if x ≤ y then 32 else angleDigits 5 x y

/-- Integer part of the true angle, in units of 1/256 of a turn, of a vector `X > 0`,
`Y >= 0` in the first quadrant: above the diagonal the angle is a quarter turn less the
angle of the mirrored vector, which is not a whole number of units. -/
def trueQuadrant (X Y : Int) : Nat :=
  if Y ≤ X then trueOctant X Y else 63 - angleDigits 5 Y X

/-- Integer part of the true angle `256 * atan2(y, x) / (2 * pi)` modulo 256 of a vector
other than `(0, 0)`: the quarter turns that bring the vector into the quadrant `X > 0`,
`Y >= 0`, and the angle in that quadrant. -/
def trueAngle256 (x y : Int) : Nat :=
  if 0 < x ∧ 0 ≤ y then trueQuadrant x y
  else if x ≤ 0 ∧ 0 < y then 64 + trueQuadrant y (-x)
  else if x < 0 ∧ y ≤ 0 then 128 + trueQuadrant (-x) (-y)
  else 192 + trueQuadrant (-y) x

namespace cordic8

/-- The least `x0` on entry to the loop for which the directions `loDir` and `hiDir` bound
the vector. -/
def minX0 : Int := 207

/-- A direction `(a, b)` not above any vector `(x0, y0)`, `x0 >= minX0`, for which the last
`j` passes commit the passes in `q` (pass `4 - i` for bit `i` of `q`):
`a * y0 - b * x0 >= 0`.  After the last pass this is `y0 >= 0`; a committed pass turns the
direction by its step angle and takes off the allowance for the truncation of `x1 >> 15`. -/
def loDir : Nat → Nat → Int × Int
  | 0, _ => (1, 0)
  | j + 1, q =>
    if 2 ^ j ≤ q then
      ((loDir j (q - 2 ^ j)).1 * cos_lut.getD (4 - j) 0
          - (loDir j (q - 2 ^ j)).2 * sin_lut.getD (4 - j) 0,
        (loDir j (q - 2 ^ j)).1 * sin_lut.getD (4 - j) 0
          + (loDir j (q - 2 ^ j)).2 * cos_lut.getD (4 - j) 0
          - (32767 * (loDir j (q - 2 ^ j)).2 + (minX0 - 1)) / minX0)
    else loDir j q

/-- A direction `(a, b)` not below any vector `(x0, y0)`, `x0 >= minX0`, for which the last
`j` passes commit the passes in `q`: `a * y0 - b * x0 <= 0`.  After the last pass this is
the bound `Pre 5` on the residual angle; a committed pass turns the direction by its step
angle and adds the allowance for the truncation of `y1 >> 15`. -/
def hiDir : Nat → Nat → Int × Int
  | 0, _ => (preA 5, preB 5 + (preE 5 + (minX0 - 1)) / minX0)
  | j + 1, q =>
    if 2 ^ j ≤ q then
      ((hiDir j (q - 2 ^ j)).1 * cos_lut.getD (4 - j) 0
          - (hiDir j (q - 2 ^ j)).2 * sin_lut.getD (4 - j) 0,
        (hiDir j (q - 2 ^ j)).1 * sin_lut.getD (4 - j) 0
          + (hiDir j (q - 2 ^ j)).2 * cos_lut.getD (4 - j) 0
          + (32767 * (hiDir j (q - 2 ^ j)).1 + (minX0 - 1)) / minX0)
    else hiDir j q

end cordic8

/-- The digits `angleDigits` computed on natural numbers, for `y <= x`, where every
subtraction is exact. -/
def angleDigitsN : Nat → Nat → Nat → Nat
  | 0, _, _ => 0
  | j + 1, x, y =>
    bif Nat.ble (x * x - y * y) (2 * x * y) then
      2 ^ j + angleDigitsN j (x * x - y * y + 2 * x * y) (2 * x * y - (x * x - y * y))
    else angleDigitsN j (x * x - y * y) (2 * x * y)

/-- The value `trueOctant` computed on natural numbers, for `y <= x`. -/
def trueOctantN (x y : Nat) : Nat := bif Nat.ble x y then 32 else angleDigitsN 5 x y

namespace cordic8

/-- One pass of the loop on `(x0, y0, phi)` as natural numbers, for a first-quadrant vector
in the safe range, where no conversion changes a value: the pass commits when
`sin_lut[k] * x0 <= cos_lut[k] * y0`. -/
def octStep (k : Nat) (st : Nat × Nat × Nat) : Nat × Nat × Nat :=
  if (sin_lut.getD k 0).toNat * st.1 ≤ (cos_lut.getD k 0).toNat * st.2.1 then
    (((cos_lut.getD k 0).toNat * st.1 + (sin_lut.getD k 0).toNat * st.2.1) / 32768,
      ((cos_lut.getD k 0).toNat * st.2.1 - (sin_lut.getD k 0).toNat * st.1) / 32768,
      st.2.2 + 2 ^ (4 - k))
  else st

/-- One pass of the loop on natural numbers, with the table entries `c`, `s` and the weight
`a` of the pass, handing `x0`, `y0` and `phi` on to the rest of the loop. -/
def pass (c s a : Nat) (rest : Nat → Nat → Nat → Nat) (x y p : Nat) : Nat :=
  bif Nat.ble (s * x) (c * y) then
    rest ((c * x + s * y) / 32768) ((c * y - s * x) / 32768) (p + a)
  else rest x y p

/-- Register `phi` at the end of the loop entered with the working vector `(X, Y)`: five
passes with the entries of `cos_lut` and `sin_lut`. -/
def fastPhi (X Y : Nat) : Nat :=
  pass 30274 12540 16 (pass 32138 6393 8 (pass 32610 3212 4 (pass 32729 1608 2
    (pass 32758 804 1 (fun _ _ p => p))))) X Y 0

/-- The bounds `phi - 1 <= m <= phi + 1`. -/
def within1 (p m : Nat) : Bool := Nat.ble m (p + 1) && Nat.ble p (m + 1)

/-- For the folded vector `(X, Y)`, if longer than `(66, 66)`, `phi` is within 1 of the
integer part of the true angle. -/
def phiOk (X Y : Nat) : Bool :=
  Nat.ble (X * X + Y * Y) 8712 || within1 (fastPhi X Y) (trueOctantN X Y)

/-- Evaluation of `phiOk` on the folded vectors `(X, Y)`, `Y <= X`, with `X` among the `n`
values from `lo`. -/
def phiOkRange (lo n : Nat) : Bool :=
  (List.range n).all fun i => (List.range (lo + i + 1)).all fun Y => phiOk (lo + i) Y

end cordic8

/-! ## Machine-integer lemmas -/

theorem wrap16_of_range {v : Int} (h1 : -32768 ≤ v) (h2 : v ≤ 32767) : wrap16 v = v := by
  unfold wrap16; omega

theorem wrap32_of_range {v : Int} (h1 : -2147483648 ≤ v) (h2 : v ≤ 2147483647) :
    wrap32 v = v := by
  unfold wrap32; omega

theorem asr15_eq (v : Int) : v >>> (15 : Nat) = v / 32768 := by
  rw [Int.shiftRight_eq_div_pow]; rfl

theorem toU8_of_range {v : Int} (h1 : 0 ≤ v) (h2 : v ≤ 255) : (toU8 v : Int) = v := by
  unfold toU8; omega

theorem toU16_of_range {v : Int} (h1 : 0 ≤ v) (h2 : v ≤ 65535) : (toU16 v : Int) = v := by
  unfold toU16; omega

namespace cordic8

theorem body_k (s : cordic8) : (body s).k = toU8 (s.k + 1) := by
  unfold body; dsimp only; split <;> rfl

theorem body_angle (s : cordic8) : (body s).angle = s.angle := by
  unfold body; dsimp only; split <;> rfl

theorem body_sign (s : cordic8) : (body s).sign = s.sign := by
  unfold body; dsimp only; split <;> rfl

theorem body_currentAngle (s : cordic8) :
    (body s).currentAngle = toU8 ((s.currentAngle : Int) >>> (1 : Nat)) := by
  unfold body; dsimp only; split <;> rfl

theorem body_commit (s : cordic8) (h : 0 ≤ candY s) :
    (body s).x0 = wrap16 (candX s >>> (15 : Nat)) ∧
    (body s).y0 = wrap16 (candY s >>> (15 : Nat)) ∧
    (body s).phi = toU8 (s.phi + s.currentAngle) := by
  unfold body; dsimp only; rw [if_pos h]; exact ⟨rfl, rfl, rfl⟩

theorem body_discard (s : cordic8) (h : candY s < 0) :
    (body s).x0 = s.x0 ∧ (body s).y0 = s.y0 ∧ (body s).phi = s.phi := by
  unfold body; dsimp only; rw [if_neg (by omega)]; exact ⟨rfl, rfl, rfl⟩

theorem cand_exact (s : cordic8) (hk : s.k ≤ 6)
    (hx1 : -32768 ≤ s.x0) (hx2 : s.x0 ≤ 32767) (hy1 : -32768 ≤ s.y0) (hy2 : s.y0 ≤ 32767) :
    candX s = cos_lut.getD s.k 0 * s.x0 + sin_lut.getD s.k 0 * s.y0 ∧
    candY s = cos_lut.getD s.k 0 * s.y0 - sin_lut.getD s.k 0 * s.x0 := by
  unfold candX candY
  have hk' : s.k = 0 ∨ s.k = 1 ∨ s.k = 2 ∨ s.k = 3 ∨ s.k = 4 ∨ s.k = 5 ∨ s.k = 6 := by omega
  rcases hk' with h | h | h | h | h | h | h <;> rw [h] <;>
    simp only [sin_lut, cos_lut, List.getD_cons_zero, List.getD_cons_succ] <;>
    simp (disch := omega) only [wrap32_of_range] <;> exact ⟨trivial, by omega⟩

end cordic8
namespace cordic8

/-! ### Folding -/

theorem load_spec (s : cordic8) (x y : Int)
    (hx1 : -32768 ≤ x) (hx2 : x ≤ 32767) (hy1 : -32768 ≤ y) (hy2 : y ≤ 32767) :
    (load s x y).x0 = x ∧ (load s x y).y0 = y ∧ (load s x y).angle = 0 ∧
    (load s x y).sign = false := by
  unfold load
  exact ⟨wrap16_of_range hx1 hx2, wrap16_of_range hy1 hy2, rfl, rfl⟩

theorem rot128_spec (s : cordic8)
    (hx1 : -32767 ≤ s.x0) (hx2 : s.x0 ≤ 32767) (hy1 : -32767 ≤ s.y0) (hy2 : s.y0 ≤ 32767) :
    (rot128 s).x0 = (if s.y0 < 0 then -s.x0 else s.x0) ∧
    (rot128 s).y0 = (if s.y0 < 0 then -s.y0 else s.y0) ∧
    (rot128 s).angle = (if s.y0 < 0 then 128 else s.angle) ∧
    (rot128 s).sign = s.sign := by
  unfold rot128
  by_cases h : s.y0 < 0
  · simp (disch := omega) only [if_pos h, wrap16_of_range, and_self]
  · simp only [if_neg h, and_self]

theorem rot64_spec (s : cordic8) (hx1 : -32767 ≤ s.x0) (hx2 : s.x0 ≤ 32767) :
    (rot64 s).x0 = (if s.x0 < 0 then s.y0 else s.x0) ∧
    (rot64 s).y0 = (if s.x0 < 0 then -s.x0 else s.y0) ∧
    (rot64 s).angle = (if s.x0 < 0 then (s.angle + 64) % 256 else s.angle) ∧
    (rot64 s).sign = s.sign := by
  unfold rot64
  by_cases h : s.x0 < 0
  · simp (disch := omega) only [if_pos h, wrap16_of_range, true_and, and_true, toU8]
    omega
  · simp only [if_neg h, and_self]

theorem reflect_spec (s : cordic8) :
    (reflect s).x0 = (if s.x0 < s.y0 then s.y0 else s.x0) ∧
    (reflect s).y0 = (if s.x0 < s.y0 then s.x0 else s.y0) ∧
    (reflect s).angle = (if s.x0 < s.y0 then (s.angle + 64) % 256 else s.angle) ∧
    (reflect s).sign = (if s.x0 < s.y0 then true else s.sign) := by
  unfold reflect
  by_cases h : s.x0 < s.y0
  · simp only [gt_iff_lt, if_pos h, true_and, and_true, toU8]
    omega
  · simp only [gt_iff_lt, if_neg h, and_self]

/-- Registers `x0`, `y0`, `angle` and `sign` after the folding, for arguments whose
negation is representable. -/
theorem fold_eq (s : cordic8) (x y : Int)
    (hx1 : -32767 ≤ x) (hx2 : x ≤ 32767) (hy1 : -32767 ≤ y) (hy2 : y ≤ 32767) :
    (fold s x y).x0 = max |x| |y| ∧ (fold s x y).y0 = min |x| |y| ∧
    (fold s x y).sign = decide ((0 ≤ y ∧ 0 ≤ x ∧ x < y) ∨ (0 ≤ y ∧ x < 0 ∧ y < -x) ∨
      (y < 0 ∧ 0 ≤ -x ∧ -x < -y) ∨ (y < 0 ∧ 0 < x ∧ -y < x)) ∧
    (fold s x y).angle = ((if y < 0 then 128 else 0)
      + (if (0 ≤ y ∧ x < 0) ∨ (y < 0 ∧ 0 < x) then 64 else 0)
      + (if (0 ≤ y ∧ 0 ≤ x ∧ x < y) ∨ (0 ≤ y ∧ x < 0 ∧ y < -x) ∨
      (y < 0 ∧ 0 ≤ -x ∧ -x < -y) ∨ (y < 0 ∧ 0 < x ∧ -y < x) then 64 else 0)) % 256 := by
  obtain ⟨a1, a2, a3, a4⟩ := load_spec s x y (by omega) hx2 (by omega) hy2
  obtain ⟨b1, b2, b3, b4⟩ :=
    rot128_spec (load s x y) (by omega) (by omega) (by omega) (by omega)
  simp only [a1, a2, a3, a4] at b1 b2 b3 b4
  have hX1 : -32767 ≤ (rot128 (load s x y)).x0 ∧ (rot128 (load s x y)).x0 ≤ 32767 := by
    rw [b1]; split_ifs <;> omega
  obtain ⟨c1, c2, c3, c4⟩ := rot64_spec (rot128 (load s x y)) hX1.1 hX1.2
  simp only [b1, b2, b3, b4] at c1 c2 c3 c4
  obtain ⟨d1, d2, d3, d4⟩ := reflect_spec (rot64 (rot128 (load s x y)))
  simp only [c1, c2, c3, c4] at d1 d2 d3 d4
  unfold fold
  rw [d1, d2, d3, d4]
  have hax : |x| = if x < 0 then -x else x := by
    split_ifs with h
    · exact abs_of_neg h
    · exact abs_of_nonneg (by omega)
  have hay : |y| = if y < 0 then -y else y := by
    split_ifs with h
    · exact abs_of_neg h
    · exact abs_of_nonneg (by omega)
  rw [hax, hay, max_def, min_def]
  clear a1 a2 a3 a4 b1 b2 b3 b4 c1 c2 c3 c4 d1 d2 d3 d4 hX1 hax hay
  refine ⟨?_, ?_, ?_, ?_⟩
  · split_ifs <;> omega
  · split_ifs <;> omega
  · split_ifs <;> simp <;> omega
  · split_ifs <;> omega

end cordic8

/-! ### Arithmetic of one micro-rotation -/

/-- A committed micro-rotation, with both candidates truncated by `>> 15`, multiplies the
squared length by at most `(c^2 + s^2) / 2^30`. -/
theorem commit_normSq (c sn x0 y0 : Int)
    (hX : 0 ≤ c * x0 + sn * y0) (hY : 0 ≤ c * y0 - sn * x0) :
    2 ^ 30 * (((c * x0 + sn * y0) / 32768) ^ 2 + ((c * y0 - sn * x0) / 32768) ^ 2) ≤
      (c ^ 2 + sn ^ 2) * (x0 ^ 2 + y0 ^ 2) := by
  have h1 : (c * x0 + sn * y0) / 32768 * 32768 ≤ c * x0 + sn * y0 :=
    Int.ediv_mul_le _ (by norm_num)
  have h2 : (c * y0 - sn * x0) / 32768 * 32768 ≤ c * y0 - sn * x0 :=
    Int.ediv_mul_le _ (by norm_num)
  have h3 : 0 ≤ (c * x0 + sn * y0) / 32768 := Int.ediv_nonneg hX (by norm_num)
  have h4 : 0 ≤ (c * y0 - sn * x0) / 32768 := Int.ediv_nonneg hY (by norm_num)
  generalize (c * x0 + sn * y0) / 32768 = X at h1 h3 ⊢
  generalize (c * y0 - sn * x0) / 32768 = Y at h2 h4 ⊢
  have h5 : (X * 32768) ^ 2 ≤ (c * x0 + sn * y0) ^ 2 :=
    pow_le_pow_left₀ (by positivity) h1 2
  have h6 : (Y * 32768) ^ 2 ≤ (c * y0 - sn * x0) ^ 2 :=
    pow_le_pow_left₀ (by positivity) h2 2
  have h7 : (c * x0 + sn * y0) ^ 2 + (c * y0 - sn * x0) ^ 2 =
      (c ^ 2 + sn ^ 2) * (x0 ^ 2 + y0 ^ 2) := by ring
  nlinarith [h5, h6, h7]

/-- A non-negative integer whose square is below `2^30` fits a 16-bit signed `int`. -/
theorem le_of_sq_lt (v q : Int) (hv : 0 ≤ v) (h : v ^ 2 ≤ q) (hq : q < 2 ^ 30) : v ≤ 32767 := by
  by_contra hc
  have h1 : 32768 ≤ v := by omega
  nlinarith [h1]

/-- In a committed micro-rotation `x0` does not decrease, for every table entry. -/
theorem commit_mono (c sn x0 y0 : Int) (hc : 0 < c) (hs : 0 ≤ sn)
    (htab : 32768 * c ≤ c ^ 2 + sn ^ 2) (hx0 : 0 ≤ x0)
    (hY : 0 ≤ c * y0 - sn * x0) : x0 ≤ (c * x0 + sn * y0) / 32768 := by
  apply Int.le_ediv_of_mul_le (by norm_num)
  have h1 : 0 ≤ c * (c * x0 + sn * y0 - x0 * 32768) := by
    nlinarith [mul_nonneg hs hY, mul_nonneg (sub_nonneg.2 htab) hx0]
  have h2 : 0 ≤ c * x0 + sn * y0 - x0 * 32768 := by
    by_contra hneg
    have : c * (c * x0 + sn * y0 - x0 * 32768) < 0 :=
      mul_neg_of_pos_of_neg hc (by omega)
    omega
  omega

namespace cordic8

/-! ### The loop -/

theorem tab_facts (k : Nat) (hk : k ≤ 4) :
    0 < cos_lut.getD k 0 ∧ 0 ≤ sin_lut.getD k 0 ∧
    32768 * cos_lut.getD k 0 ≤ cos_lut.getD k 0 ^ 2 + sin_lut.getD k 0 ^ 2 ∧
    (cos_lut.getD k 0 ^ 2 + sin_lut.getD k 0 ^ 2) * gainBound k ≤ 2 ^ 30 * gainBound (k + 1) ∧
    gainBound k ≤ gainBound (k + 1) := by
  interval_cases k <;> simp only [sin_lut, cos_lut, gainBound, List.getD_cons_zero,
    List.getD_cons_succ] <;> norm_num

theorem gainBound_range (k : Nat) :
    0 < gainBound k ∧ gainBound k ≤ 1073766676 * 1073773105 := by
  rcases Nat.lt_or_ge k 4 with h | h
  · interval_cases k <;> simp only [gainBound] <;> norm_num
  · obtain ⟨j, rfl⟩ : ∃ j, k = j + 4 := ⟨k - 4, by omega⟩
    simp only [gainBound]; norm_num

/-- A first-quadrant vector whose squared length obeys the growth bound fits the 16-bit
signed range. -/
theorem range_of_bound (x y Q0 N : Int) (hx : 0 ≤ x) (hy : 0 ≤ y)
    (hb : (x ^ 2 + y ^ 2) * 2 ^ 60 ≤ Q0 * N) (hN : 0 < N) (hN' : N ≤ 1073766676 * 1073773105)
    (hQ : Q0 ≤ 32767 ^ 2) : x ^ 2 + y ^ 2 < 2 ^ 30 ∧ x ≤ 32767 ∧ y ≤ 32767 := by
  have h1 : Q0 * N ≤ 32767 ^ 2 * (1073766676 * 1073773105) :=
    mul_le_mul hQ hN' (le_of_lt hN) (by norm_num)
  have h2 : x ^ 2 + y ^ 2 < 2 ^ 30 := by
    by_contra hc
    have : (2 : Int) ^ 30 ≤ x ^ 2 + y ^ 2 := by omega
    nlinarith
  exact ⟨h2, le_of_sq_lt x _ hx (by nlinarith) h2, le_of_sq_lt y _ hy (by nlinarith) h2⟩

theorem Inv.range {Q0 : Int} {s : cordic8} (h : Inv Q0 s) (hQ : Q0 ≤ 32767 ^ 2) :
    normSq s < 2 ^ 30 ∧ s.x0 ≤ 32767 ∧ s.y0 ≤ 32767 :=
  range_of_bound s.x0 s.y0 Q0 (gainBound s.k) h.x0_nonneg h.y0_nonneg h.bound
    (gainBound_range s.k).1 (gainBound_range s.k).2 hQ

/-- One pass through the loop body, from a state that satisfies the invariant: no
conversion changes a value, the pass commits the rotation exactly when
`cos_lut[k] * y0 - sin_lut[k] * x0` is non-negative, the invariant is kept, `k` advances by
one and `x0` does not decrease. -/
theorem body_spec {Q0 : Int} {s : cordic8} (h : Inv Q0 s) (hk : s.k ≤ 4) (hQ0 : 0 ≤ Q0)
    (hQ : Q0 ≤ 32767 ^ 2) :
    Inv Q0 (body s) ∧ (body s).k = s.k + 1 ∧ s.x0 ≤ (body s).x0 ∧ (body s).x0 ≤ 32767 ∧
    (body s).y0 ≤ 32767 ∧
    ((0 ≤ cos_lut.getD s.k 0 * s.y0 - sin_lut.getD s.k 0 * s.x0 ∧
        (body s).x0 = (cos_lut.getD s.k 0 * s.x0 + sin_lut.getD s.k 0 * s.y0) / 32768 ∧
        (body s).y0 = (cos_lut.getD s.k 0 * s.y0 - sin_lut.getD s.k 0 * s.x0) / 32768 ∧
        (body s).phi = toU8 ((s.phi : Int) + (s.currentAngle : Int))) ∨
      (cos_lut.getD s.k 0 * s.y0 - sin_lut.getD s.k 0 * s.x0 < 0 ∧
        (body s).x0 = s.x0 ∧ (body s).y0 = s.y0 ∧ (body s).phi = s.phi)) := by
  obtain ⟨-, hx, hy⟩ := h.range hQ
  have hx0 := h.x0_nonneg
  have hy0 := h.y0_nonneg
  obtain ⟨hcX, hcY⟩ := cand_exact s (by omega) (by omega) hx (by omega) hy
  obtain ⟨t1, t2, t3, t4, t5⟩ := tab_facts s.k hk
  have hk' : (body s).k = s.k + 1 := by
    rw [body_k]; simp only [toU8]; omega
  generalize cos_lut.getD s.k 0 = c at *
  generalize sin_lut.getD s.k 0 = sn at *
  by_cases hc : 0 ≤ candY s
  · obtain ⟨e1, e2, e3⟩ := body_commit s hc
    rw [asr15_eq, hcX] at e1
    rw [asr15_eq, hcY] at e2
    rw [hcY] at hc
    have hX : 0 ≤ c * s.x0 + sn * s.y0 :=
      add_nonneg (mul_nonneg (le_of_lt t1) hx0) (mul_nonneg t2 hy0)
    have key := commit_normSq c sn s.x0 s.y0 hX hc
    have hX' : 0 ≤ (c * s.x0 + sn * s.y0) / 32768 := Int.ediv_nonneg hX (by norm_num)
    have hY' : 0 ≤ (c * s.y0 - sn * s.x0) / 32768 := Int.ediv_nonneg hc (by norm_num)
    have hm := commit_mono c sn s.x0 s.y0 t1 t2 t3 hx0 hc
    have hb := h.bound
    unfold normSq at hb
    generalize (c * s.x0 + sn * s.y0) / 32768 = X at *
    generalize (c * s.y0 - sn * s.x0) / 32768 = Y at *
    have hb' : (X ^ 2 + Y ^ 2) * 2 ^ 60 ≤ Q0 * gainBound (s.k + 1) := by
      have h1 : (c ^ 2 + sn ^ 2) * ((s.x0 ^ 2 + s.y0 ^ 2) * 2 ^ 60) ≤
          (c ^ 2 + sn ^ 2) * (Q0 * gainBound s.k) :=
        mul_le_mul_of_nonneg_left hb (by positivity)
      have h2 : Q0 * ((c ^ 2 + sn ^ 2) * gainBound s.k) ≤ Q0 * (2 ^ 30 * gainBound (s.k + 1)) :=
        mul_le_mul_of_nonneg_left t4 hQ0
      nlinarith
    obtain ⟨-, r1, r2⟩ := range_of_bound X Y Q0 (gainBound (s.k + 1)) hX' hY' hb'
      (gainBound_range _).1 (gainBound_range _).2 hQ
    rw [wrap16_of_range (by omega) r1] at e1
    rw [wrap16_of_range (by omega) r2] at e2
    refine ⟨⟨by rw [e1]; exact hX', by rw [e2]; exact hY', ?_⟩, hk', by rw [e1]; exact hm,
      by rw [e1]; exact r1, by rw [e2]; exact r2, Or.inl ⟨hc, e1, e2, e3⟩⟩
    unfold normSq
    rw [e1, e2, hk']
    exact hb'
  · obtain ⟨e1, e2, e3⟩ := body_discard s (by omega)
    rw [hcY] at hc
    refine ⟨⟨by rw [e1]; exact hx0, by rw [e2]; exact hy0, ?_⟩, hk', by rw [e1],
      by rw [e1]; exact hx, by rw [e2]; exact hy, Or.inr ⟨by omega, e1, e2, e3⟩⟩
    unfold normSq
    rw [e1, e2, hk']
    have hb := h.bound
    unfold normSq at hb
    have : Q0 * gainBound s.k ≤ Q0 * gainBound (s.k + 1) := mul_le_mul_of_nonneg_left t5 hQ0
    omega

theorem body_inv {Q0 : Int} {s : cordic8} (h : Inv Q0 s) (hk : s.k ≤ 4) (hQ0 : 0 ≤ Q0)
    (hQ : Q0 ≤ 32767 ^ 2) :
    Inv Q0 (body s) ∧ (body s).k = s.k + 1 ∧ s.x0 ≤ (body s).x0 := by
  obtain ⟨h1, h2, h3, -⟩ := body_spec h hk hQ0 hQ
  exact ⟨h1, h2, h3⟩

theorem body_k_eq (s : cordic8) (k : Nat) (hk : s.k = k) (hk4 : k ≤ 254) :
    (body s).k = k + 1 := by
  rw [body_k, hk]; simp only [toU8]; omega

/-- With `k = 0` on entry the loop makes exactly five passes, and leaves with `k = 5`. -/
theorem loop_unroll (s : cordic8) (hk : s.k = 0) :
    loop 5 s = body (body (body (body (body s)))) ∧ (loop 5 s).k = 5 := by
  have h1 := body_k_eq s 0 hk (by omega)
  have h2 := body_k_eq _ 1 h1 (by omega)
  have h3 := body_k_eq _ 2 h2 (by omega)
  have h4 := body_k_eq _ 3 h3 (by omega)
  have h5 := body_k_eq _ 4 h4 (by omega)
  have e : loop 5 s = body (body (body (body (body s)))) := by
    simp only [loop, hk, h1, h2, h3, h4]
    simp
  exact ⟨e, by rw [e]; exact h5⟩

theorem loop_angle (fuel : Nat) (s : cordic8) : (loop fuel s).angle = s.angle := by
  induction fuel generalizing s with
  | zero => rfl
  | succ n ih =>
    unfold loop
    split
    · rw [ih, body_angle]
    · rfl

theorem loop_sign (fuel : Nat) (s : cordic8) : (loop fuel s).sign = s.sign := by
  induction fuel generalizing s with
  | zero => rfl
  | succ n ih =>
    unfold loop
    split
    · rw [ih, body_sign]
    · rfl

/-- The loop keeps the invariant and does not decrease `x0`. -/
theorem loop_inv {Q0 : Int} {s : cordic8} (h : Inv Q0 s) (hk : s.k = 0) (hQ0 : 0 ≤ Q0)
    (hQ : Q0 ≤ 32767 ^ 2) : Inv Q0 (loop 5 s) ∧ s.x0 ≤ (loop 5 s).x0 := by
  rw [(loop_unroll s hk).1]
  obtain ⟨i1, k1, m1⟩ := body_inv h (by omega) hQ0 hQ
  obtain ⟨i2, k2, m2⟩ := body_inv i1 (by omega) hQ0 hQ
  obtain ⟨i3, k3, m3⟩ := body_inv i2 (by omega) hQ0 hQ
  obtain ⟨i4, k4, m4⟩ := body_inv i3 (by omega) hQ0 hQ
  obtain ⟨i5, -, m5⟩ := body_inv i4 (by omega) hQ0 hQ
  exact ⟨i5, by omega⟩

/-- The invariant holds on entry to the loop, for a vector in the safe range. -/
theorem init_inv (s : cordic8) (x y : Int) (h : x ^ 2 + y ^ 2 ≤ 32767 ^ 2) :
    -32767 ≤ x ∧ x ≤ 32767 ∧ -32767 ≤ y ∧ y ≤ 32767 ∧
    Inv (x ^ 2 + y ^ 2) (init (fold s x y)) ∧ (init (fold s x y)).k = 0 ∧
    (init (fold s x y)).x0 = max |x| |y| ∧ (init (fold s x y)).y0 = min |x| |y| := by
  have hx : |x| ≤ 32767 := by
    apply abs_le.2
    constructor <;> nlinarith [sq_nonneg y]
  have hy : |y| ≤ 32767 := by
    apply abs_le.2
    constructor <;> nlinarith [sq_nonneg x]
  rw [abs_le] at hx hy
  obtain ⟨f1, f2, -, -⟩ := fold_eq s x y hx.1 hx.2 hy.1 hy.2
  have e1 : (init (fold s x y)).x0 = (fold s x y).x0 := rfl
  have e2 : (init (fold s x y)).y0 = (fold s x y).y0 := rfl
  have e3 : (init (fold s x y)).k = 0 := rfl
  refine ⟨hx.1, hx.2, hy.1, hy.2, ⟨?_, ?_, ?_⟩, e3, by rw [e1, f1], by rw [e2, f2]⟩
  · rw [e1, f1]; exact le_trans (abs_nonneg x) (le_max_left _ _)
  · rw [e2, f2]; exact le_min (abs_nonneg x) (abs_nonneg y)
  · unfold normSq
    rw [e1, e2, e3, f1, f2]
    have : (max |x| |y|) ^ 2 + (min |x| |y|) ^ 2 = x ^ 2 + y ^ 2 := by
      rcases le_total |x| |y| with hxy | hxy
      · rw [max_eq_right hxy, min_eq_left hxy, sq_abs, sq_abs]; ring
      · rw [max_eq_left hxy, min_eq_right hxy, sq_abs, sq_abs]
    rw [this]
    simp only [gainBound]
    exact le_refl _

end cordic8
namespace cordic8

/-- In the safe range the loop ends with `x0` in `[0, 32767]`, at least `max |x| |y|`, and
with squared length within the growth bound. -/
theorem atan2sqrt_radius (s : cordic8) (x y : Int) (h : x ^ 2 + y ^ 2 ≤ 32767 ^ 2) :
    ((atan2sqrt s x y).radius : Int) = (loop 5 (init (fold s x y))).x0 ∧
    max |x| |y| ≤ (loop 5 (init (fold s x y))).x0 ∧
    (loop 5 (init (fold s x y))).x0 ≤ 32767 ∧
    (loop 5 (init (fold s x y))).x0 ^ 2 * 2 ^ 60 ≤
      (x ^ 2 + y ^ 2) * (1073766676 * 1073773105) := by
  obtain ⟨-, -, -, -, hinv, hk, hx0, -⟩ := init_inv s x y h
  have hQ0 : 0 ≤ x ^ 2 + y ^ 2 := by positivity
  obtain ⟨hl, hm⟩ := loop_inv hinv hk hQ0 h
  obtain ⟨-, hr, -⟩ := hl.range h
  have hn := hl.x0_nonneg
  have hb := hl.bound
  rw [(loop_unroll _ hk).2] at hb
  unfold normSq at hb
  simp only [gainBound] at hb
  refine ⟨?_, by rw [← hx0]; exact hm, hr, ?_⟩
  · show (toU16 (loop 5 (init (fold s x y))).x0 : Int) = _
    exact toU16_of_range hn (by omega)
  · nlinarith [sq_nonneg (loop 5 (init (fold s x y))).y0]

end cordic8
namespace cordic8

/-! ### The loop reads only `x0`, `y0`, `phi`, `currentAngle` and `k` -/

theorem body_x0 (s : cordic8) :
    (body s).x0 = if 0 ≤ candY s then wrap16 (candX s >>> (15 : Nat)) else s.x0 := by
  unfold body; dsimp only; split <;> rfl

theorem body_y0 (s : cordic8) :
    (body s).y0 = if 0 ≤ candY s then wrap16 (candY s >>> (15 : Nat)) else s.y0 := by
  unfold body; dsimp only; split <;> rfl

theorem body_phi (s : cordic8) :
    (body s).phi =
      if 0 ≤ candY s then toU8 ((s.phi : Int) + (s.currentAngle : Int)) else s.phi := by
  unfold body; dsimp only; split <;> rfl

theorem body_agree {s t : cordic8} (h : Agree s t) : Agree (body s) (body t) := by
  obtain ⟨h1, h2, h3, h4, h5⟩ := h
  have hX : candX s = candX t := by unfold candX; rw [h1, h2, h5]
  have hY : candY s = candY t := by unfold candY; rw [h1, h2, h5]
  refine ⟨?_, ?_, ?_, ?_, ?_⟩
  · rw [body_x0, body_x0, hX, hY, h1]
  · rw [body_y0, body_y0, hY, h2]
  · rw [body_phi, body_phi, hY, h3, h4]
  · rw [body_currentAngle, body_currentAngle, h4]
  · rw [body_k, body_k, h5]

theorem loop_agree (fuel : Nat) {s t : cordic8} (h : Agree s t) :
    Agree (loop fuel s) (loop fuel t) := by
  induction fuel generalizing s t with
  | zero => exact h
  | succ n ih =>
    unfold loop
    rw [h.2.2.2.2]
    split
    · exact ih (body_agree h)
    · exact h

/-- The folding depends on the arguments only. -/
theorem fold_indep (s t : cordic8) (x y : Int) :
    (fold s x y).x0 = (fold t x y).x0 ∧ (fold s x y).y0 = (fold t x y).y0 ∧
    (fold s x y).angle = (fold t x y).angle ∧ (fold s x y).sign = (fold t x y).sign := by
  unfold fold reflect rot64 rot128 load
  dsimp only
  split_ifs <;> exact ⟨rfl, rfl, rfl, rfl⟩

theorem finish_radius (s : cordic8) : (finish s).radius = toU16 s.x0 := rfl

theorem finish_angle (s : cordic8) :
    (finish s).angle =
      toU8 ((s.angle : Int) + (if s.sign then -(s.phi : Int) else (s.phi : Int))) := rfl

/-- Results of `atan2sqrt` from the state at the end of the folding. -/
theorem atan2sqrt_out (s : cordic8) (x y : Int) :
    (atan2sqrt s x y).radius = toU16 (loop 5 (init (fold s x y))).x0 ∧
    (atan2sqrt s x y).angle = toU8 (((fold s x y).angle : Int) +
      (if (fold s x y).sign then -((loop 5 (init (fold s x y))).phi : Int)
        else ((loop 5 (init (fold s x y))).phi : Int))) := by
  unfold atan2sqrt
  rw [finish_radius, finish_angle, loop_angle, loop_sign]
  exact ⟨rfl, rfl⟩

/-- The results of `atan2sqrt` do not depend on the object before the call. -/
theorem atan2sqrt_indep (s t : cordic8) (x y : Int) :
    (atan2sqrt s x y).angle = (atan2sqrt t x y).angle ∧
    (atan2sqrt s x y).radius = (atan2sqrt t x y).radius := by
  obtain ⟨f1, f2, f3, f4⟩ := fold_indep s t x y
  have ha : Agree (init (fold s x y)) (init (fold t x y)) := ⟨f1, f2, rfl, rfl, rfl⟩
  obtain ⟨l1, -, l3, -, -⟩ := loop_agree 5 ha
  obtain ⟨r1, a1⟩ := atan2sqrt_out s x y
  obtain ⟨r2, a2⟩ := atan2sqrt_out t x y
  rw [r1, r2, a1, a2, l1, l3, f3, f4]
  exact ⟨rfl, rfl⟩

end cordic8
theorem sin_lut_pos (k : Nat) (hk : k ≤ 6) : 0 < sin_lut.getD k 0 := by
  interval_cases k <;> simp only [sin_lut, List.getD_cons_zero, List.getD_cons_succ] <;>
    norm_num

namespace cordic8

/-- A vector on the positive x-axis is never rotated. -/
theorem body_axis (s : cordic8) (hk : s.k ≤ 6) (hy : s.y0 = 0) (hx1 : 1 ≤ s.x0)
    (hx2 : s.x0 ≤ 32767) :
    (body s).x0 = s.x0 ∧ (body s).y0 = 0 ∧ (body s).phi = s.phi := by
  obtain ⟨-, hcY⟩ := cand_exact s hk (by omega) hx2 (by omega) (by omega)
  have hs := sin_lut_pos s.k hk
  have hneg : candY s < 0 := by
    rw [hcY, hy]
    nlinarith
  obtain ⟨e1, e2, e3⟩ := body_discard s hneg
  exact ⟨e1, by rw [e2, hy], e3⟩

theorem loop_axis (s : cordic8) (hk : s.k = 0) (hy : s.y0 = 0) (hx1 : 1 ≤ s.x0)
    (hx2 : s.x0 ≤ 32767) : (loop 5 s).x0 = s.x0 ∧ (loop 5 s).phi = s.phi := by
  rw [(loop_unroll s hk).1]
  have k1 := body_k_eq s 0 hk (by omega)
  have k2 := body_k_eq _ 1 k1 (by omega)
  have k3 := body_k_eq _ 2 k2 (by omega)
  have k4 := body_k_eq _ 3 k3 (by omega)
  obtain ⟨a1, b1, c1⟩ := body_axis s (by omega) hy hx1 hx2
  obtain ⟨a2, b2, c2⟩ := body_axis _ (by omega) b1 (by omega) (by omega)
  obtain ⟨a3, b3, c3⟩ := body_axis _ (by omega) b2 (by omega) (by omega)
  obtain ⟨a4, b4, c4⟩ := body_axis _ (by omega) b3 (by omega) (by omega)
  obtain ⟨a5, -, c5⟩ := body_axis _ (by omega) b4 (by omega) (by omega)
  exact ⟨by omega, by omega⟩

end cordic8
namespace cordic10

/-! ### `cordic10`: the loop body -/

theorem body_k10 (s : cordic10) : (body s).k = toU8 ((s.k : Int) + 1) := by
  unfold body; dsimp only; split <;> rfl

theorem body_angle10 (s : cordic10) : (body s).angle = s.angle := by
  unfold body; dsimp only; split <;> rfl

theorem body_sign10 (s : cordic10) : (body s).sign = s.sign := by
  unfold body; dsimp only; split <;> rfl

theorem body_currentAngle10 (s : cordic10) :
    (body s).currentAngle = toU16 ((s.currentAngle : Int) >>> (1 : Nat)) := by
  unfold body; dsimp only; split <;> rfl

theorem body_x010 (s : cordic10) :
    (body s).x0 = if 0 ≤ candY s then wrap16 (candX s >>> (15 : Nat)) else s.x0 := by
  unfold body; dsimp only; split <;> rfl

theorem body_y010 (s : cordic10) :
    (body s).y0 = if 0 ≤ candY s then wrap16 (candY s >>> (15 : Nat)) else s.y0 := by
  unfold body; dsimp only; split <;> rfl

theorem body_phi10 (s : cordic10) :
    (body s).phi =
      if 0 ≤ candY s then toU16 ((s.phi : Int) + (s.currentAngle : Int)) else s.phi := by
  unfold body; dsimp only; split <;> rfl

theorem cand_exact10 (s : cordic10) (hk : s.k ≤ 6)
    (hx1 : -32768 ≤ s.x0) (hx2 : s.x0 ≤ 32767) (hy1 : -32768 ≤ s.y0) (hy2 : s.y0 ≤ 32767) :
    candX s = cos_lut.getD s.k 0 * s.x0 + sin_lut.getD s.k 0 * s.y0 ∧
    candY s = cos_lut.getD s.k 0 * s.y0 - sin_lut.getD s.k 0 * s.x0 := by
  unfold candX candY
  have hk' : s.k = 0 ∨ s.k = 1 ∨ s.k = 2 ∨ s.k = 3 ∨ s.k = 4 ∨ s.k = 5 ∨ s.k = 6 := by omega
  rcases hk' with h | h | h | h | h | h | h <;> rw [h] <;>
    simp only [sin_lut, cos_lut, List.getD_cons_zero, List.getD_cons_succ] <;>
    simp (disch := omega) only [wrap32_of_range] <;> exact ⟨trivial, trivial⟩

theorem body_k_eq10 (s : cordic10) (k : Nat) (hk : s.k = k) (hk4 : k ≤ 254) :
    (body s).k = k + 1 := by
  rw [body_k10, hk]; simp only [toU8]; omega

/-- With `k = 0` on entry the loop makes exactly seven passes, and leaves with `k = 7`. -/
theorem loop_unroll10 (s : cordic10) (hk : s.k = 0) :
    loop 7 s = body (body (body (body (body (body (body s)))))) ∧ (loop 7 s).k = 7 := by
  have h1 := body_k_eq10 s 0 hk (by omega)
  have h2 := body_k_eq10 _ 1 h1 (by omega)
  have h3 := body_k_eq10 _ 2 h2 (by omega)
  have h4 := body_k_eq10 _ 3 h3 (by omega)
  have h5 := body_k_eq10 _ 4 h4 (by omega)
  have h6 := body_k_eq10 _ 5 h5 (by omega)
  have h7 := body_k_eq10 _ 6 h6 (by omega)
  have e : loop 7 s = body (body (body (body (body (body (body s)))))) := by
    simp only [loop, hk, h1, h2, h3, h4, h5, h6]
    simp
  exact ⟨e, by rw [e]; exact h7⟩

theorem loop_angle10 (fuel : Nat) (s : cordic10) : (loop fuel s).angle = s.angle := by
  induction fuel generalizing s with
  | zero => rfl
  | succ n ih =>
    unfold loop
    split
    · rw [ih, body_angle10]
    · rfl

theorem loop_sign10 (fuel : Nat) (s : cordic10) : (loop fuel s).sign = s.sign := by
  induction fuel generalizing s with
  | zero => rfl
  | succ n ih =>
    unfold loop
    split
    · rw [ih, body_sign10]
    · rfl

theorem body_agree10 {s t : cordic10} (h : Agree s t) : Agree (body s) (body t) := by
  obtain ⟨h1, h2, h3, h4, h5⟩ := h
  have hX : candX s = candX t := by unfold candX; rw [h1, h2, h5]
  have hY : candY s = candY t := by unfold candY; rw [h1, h2, h5]
  refine ⟨?_, ?_, ?_, ?_, ?_⟩
  · rw [body_x010, body_x010, hX, hY, h1]
  · rw [body_y010, body_y010, hY, h2]
  · rw [body_phi10, body_phi10, hY, h3, h4]
  · rw [body_currentAngle10, body_currentAngle10, h4]
  · rw [body_k10, body_k10, h5]

theorem loop_agree10 (fuel : Nat) {s t : cordic10} (h : Agree s t) :
    Agree (loop fuel s) (loop fuel t) := by
  induction fuel generalizing s t with
  | zero => exact h
  | succ n ih =>
    unfold loop
    rw [h.2.2.2.2]
    split
    · exact ih (body_agree10 h)
    · exact h

/-- The folding depends on the arguments only. -/
theorem fold_indep10 (s t : cordic10) (x y : Int) :
    (fold s x y).x0 = (fold t x y).x0 ∧ (fold s x y).y0 = (fold t x y).y0 ∧
    (fold s x y).angle = (fold t x y).angle ∧ (fold s x y).sign = (fold t x y).sign := by
  unfold fold reflect rot256 rot512 load
  dsimp only
  split_ifs <;> exact ⟨rfl, rfl, rfl, rfl⟩

theorem finish_radius10 (s : cordic10) : (finish s).radius = toU16 s.x0 := rfl

theorem finish_angle10 (s : cordic10) :
    (finish s).angle = toU16 ((toU16 ((s.angle : Int) +
      ((if s.sign then toU16 (-(s.phi : Int)) else s.phi : Nat) : Int)) : Int) * 64) := rfl

/-- Results of `atan2sqrt` from the state at the end of the folding. -/
theorem atan2sqrt_out10 (s : cordic10) (x y : Int) :
    (atan2sqrt s x y).radius = toU16 (loop 7 (init (fold s x y))).x0 ∧
    (atan2sqrt s x y).angle = toU16 ((toU16 (((fold s x y).angle : Int) +
      ((if (fold s x y).sign then toU16 (-((loop 7 (init (fold s x y))).phi : Int))
        else (loop 7 (init (fold s x y))).phi : Nat) : Int)) : Int) * 64) := by
  unfold atan2sqrt
  rw [finish_radius10, finish_angle10, loop_angle10, loop_sign10]
  exact ⟨rfl, rfl⟩

/-- The results of `atan2sqrt` do not depend on the object before the call. -/
theorem atan2sqrt_indep10 (s t : cordic10) (x y : Int) :
    (atan2sqrt s x y).angle = (atan2sqrt t x y).angle ∧
    (atan2sqrt s x y).radius = (atan2sqrt t x y).radius := by
  obtain ⟨f1, f2, f3, f4⟩ := fold_indep10 s t x y
  have ha : Agree (init (fold s x y)) (init (fold t x y)) := ⟨f1, f2, rfl, rfl, rfl⟩
  obtain ⟨l1, -, l3, -, -⟩ := loop_agree10 7 ha
  obtain ⟨r1, a1⟩ := atan2sqrt_out10 s x y
  obtain ⟨r2, a2⟩ := atan2sqrt_out10 t x y
  rw [r1, r2, a1, a2, l1, l3, f3, f4]
  exact ⟨rfl, rfl⟩

end cordic10
namespace cordic10

/-! ### `cordic10`: folding -/

theorem load_spec10 (s : cordic10) (x y : Int)
    (hx1 : -32768 ≤ x) (hx2 : x ≤ 32767) (hy1 : -32768 ≤ y) (hy2 : y ≤ 32767) :
    (load s x y).x0 = x ∧ (load s x y).y0 = y ∧ (load s x y).angle = 0 ∧
    (load s x y).sign = false := by
  unfold load
  exact ⟨wrap16_of_range hx1 hx2, wrap16_of_range hy1 hy2, rfl, rfl⟩

theorem rot512_spec (s : cordic10)
    (hx1 : -32767 ≤ s.x0) (hx2 : s.x0 ≤ 32767) (hy1 : -32767 ≤ s.y0) (hy2 : s.y0 ≤ 32767) :
    (rot512 s).x0 = (if s.y0 < 0 then -s.x0 else s.x0) ∧
    (rot512 s).y0 = (if s.y0 < 0 then -s.y0 else s.y0) ∧
    (rot512 s).angle = (if s.y0 < 0 then 512 else s.angle) ∧
    (rot512 s).sign = s.sign := by
  unfold rot512
  by_cases h : s.y0 < 0
  · simp (disch := omega) only [if_pos h, wrap16_of_range, and_self]
  · simp only [if_neg h, and_self]

theorem rot256_spec (s : cordic10) (hx1 : -32767 ≤ s.x0) (hx2 : s.x0 ≤ 32767) :
    (rot256 s).x0 = (if s.x0 < 0 then s.y0 else s.x0) ∧
    (rot256 s).y0 = (if s.x0 < 0 then -s.x0 else s.y0) ∧
    (rot256 s).angle = (if s.x0 < 0 then (s.angle + 256) % 65536 else s.angle) ∧
    (rot256 s).sign = s.sign := by
  unfold rot256
  by_cases h : s.x0 < 0
  · simp (disch := omega) only [if_pos h, wrap16_of_range, true_and, and_true, toU16]
    omega
  · simp only [if_neg h, and_self]

theorem reflect_spec10 (s : cordic10) :
    (reflect s).x0 = (if s.x0 < s.y0 then s.y0 else s.x0) ∧
    (reflect s).y0 = (if s.x0 < s.y0 then s.x0 else s.y0) ∧
    (reflect s).angle = (if s.x0 < s.y0 then (s.angle + 256) % 65536 else s.angle) ∧
    (reflect s).sign = (if s.x0 < s.y0 then true else s.sign) := by
  unfold reflect
  by_cases h : s.x0 < s.y0
  · simp only [gt_iff_lt, if_pos h, true_and, and_true, toU16]
    omega
  · simp only [gt_iff_lt, if_neg h, and_self]

/-- Registers `x0`, `y0`, `angle` and `sign` after the folding, for arguments whose
negation is representable. -/
theorem fold_eq10 (s : cordic10) (x y : Int)
    (hx1 : -32767 ≤ x) (hx2 : x ≤ 32767) (hy1 : -32767 ≤ y) (hy2 : y ≤ 32767) :
    (fold s x y).x0 = max |x| |y| ∧ (fold s x y).y0 = min |x| |y| ∧
    (fold s x y).sign = decide ((0 ≤ y ∧ 0 ≤ x ∧ x < y) ∨ (0 ≤ y ∧ x < 0 ∧ y < -x) ∨
      (y < 0 ∧ 0 ≤ -x ∧ -x < -y) ∨ (y < 0 ∧ 0 < x ∧ -y < x)) ∧
    (fold s x y).angle = (if y < 0 then 512 else 0)
      + (if (0 ≤ y ∧ x < 0) ∨ (y < 0 ∧ 0 < x) then 256 else 0)
      + (if (0 ≤ y ∧ 0 ≤ x ∧ x < y) ∨ (0 ≤ y ∧ x < 0 ∧ y < -x) ∨
      (y < 0 ∧ 0 ≤ -x ∧ -x < -y) ∨ (y < 0 ∧ 0 < x ∧ -y < x) then 256 else 0) := by
  obtain ⟨a1, a2, a3, a4⟩ := load_spec10 s x y (by omega) hx2 (by omega) hy2
  obtain ⟨b1, b2, b3, b4⟩ :=
    rot512_spec (load s x y) (by omega) (by omega) (by omega) (by omega)
  simp only [a1, a2, a3, a4] at b1 b2 b3 b4
  have hX1 : -32767 ≤ (rot512 (load s x y)).x0 ∧ (rot512 (load s x y)).x0 ≤ 32767 := by
    rw [b1]; split_ifs <;> omega
  obtain ⟨c1, c2, c3, c4⟩ := rot256_spec (rot512 (load s x y)) hX1.1 hX1.2
  simp only [b1, b2, b3, b4] at c1 c2 c3 c4
  obtain ⟨d1, d2, d3, d4⟩ := reflect_spec10 (rot256 (rot512 (load s x y)))
  simp only [c1, c2, c3, c4] at d1 d2 d3 d4
  unfold fold
  rw [d1, d2, d3, d4]
  have hax : |x| = if x < 0 then -x else x := by
    split_ifs with h
    · exact abs_of_neg h
    · exact abs_of_nonneg (by omega)
  have hay : |y| = if y < 0 then -y else y := by
    split_ifs with h
    · exact abs_of_neg h
    · exact abs_of_nonneg (by omega)
  rw [hax, hay, max_def, min_def]
  clear a1 a2 a3 a4 b1 b2 b3 b4 c1 c2 c3 c4 d1 d2 d3 d4 hX1 hax hay
  refine ⟨?_, ?_, ?_, ?_⟩
  · split_ifs <;> omega
  · split_ifs <;> omega
  · split_ifs <;> simp <;> omega
  · split_ifs <;> omega

/-- A vector on the positive x-axis is never rotated. -/
theorem body_axis10 (s : cordic10) (hk : s.k ≤ 6) (hy : s.y0 = 0) (hx1 : 1 ≤ s.x0)
    (hx2 : s.x0 ≤ 32767) :
    (body s).x0 = s.x0 ∧ (body s).y0 = 0 ∧ (body s).phi = s.phi := by
  obtain ⟨-, hcY⟩ := cand_exact10 s hk (by omega) hx2 (by omega) (by omega)
  have hs := sin_lut_pos s.k hk
  have hneg : ¬ 0 ≤ candY s := by
    rw [hcY, hy]
    nlinarith
  rw [body_x010, body_y010, body_phi10, if_neg hneg, if_neg hneg, if_neg hneg]
  exact ⟨rfl, hy, rfl⟩

theorem loop_axis10 (s : cordic10) (hk : s.k = 0) (hy : s.y0 = 0) (hx1 : 1 ≤ s.x0)
    (hx2 : s.x0 ≤ 32767) : (loop 7 s).x0 = s.x0 ∧ (loop 7 s).phi = s.phi := by
  rw [(loop_unroll10 s hk).1]
  have k1 := body_k_eq10 s 0 hk (by omega)
  have k2 := body_k_eq10 _ 1 k1 (by omega)
  have k3 := body_k_eq10 _ 2 k2 (by omega)
  have k4 := body_k_eq10 _ 3 k3 (by omega)
  have k5 := body_k_eq10 _ 4 k4 (by omega)
  have k6 := body_k_eq10 _ 5 k5 (by omega)
  obtain ⟨a1, b1, c1⟩ := body_axis10 s (by omega) hy hx1 hx2
  obtain ⟨a2, b2, c2⟩ := body_axis10 _ (by omega) b1 (by omega) (by omega)
  obtain ⟨a3, b3, c3⟩ := body_axis10 _ (by omega) b2 (by omega) (by omega)
  obtain ⟨a4, b4, c4⟩ := body_axis10 _ (by omega) b3 (by omega) (by omega)
  obtain ⟨a5, b5, c5⟩ := body_axis10 _ (by omega) b4 (by omega) (by omega)
  obtain ⟨a6, b6, c6⟩ := body_axis10 _ (by omega) b5 (by omega) (by omega)
  obtain ⟨a7, -, c7⟩ := body_axis10 _ (by omega) b6 (by omega) (by omega)
  exact ⟨by omega, by omega⟩

end cordic10
namespace cordic8

/-- Folding the negated vector: same `sign` (unless `y = 0`) and the angle half a turn
further. -/
theorem fold_neg (s t : cordic8) (x y : Int) (hne : ¬ (x = 0 ∧ y = 0))
    (hx1 : -32767 ≤ x) (hx2 : x ≤ 32767) (hy1 : -32767 ≤ y) (hy2 : y ≤ 32767) :
    ((fold t (-x) (-y)).sign = (fold s x y).sign ∨ y = 0) ∧
    (fold t (-x) (-y)).angle % 256 = ((fold s x y).angle + 128) % 256 ∧
    (fold s x y).angle ≤ 256 ∧ (fold t (-x) (-y)).angle ≤ 256 := by
  obtain ⟨-, -, f3, f4⟩ := fold_eq s x y hx1 hx2 hy1 hy2
  obtain ⟨-, -, g3, g4⟩ := fold_eq t (-x) (-y) (by omega) (by omega) (by omega) (by omega)
  rw [f3, f4, g3, g4]
  rcases lt_trichotomy y 0 with hy | hy | hy <;>
  rcases lt_trichotomy x 0 with hx | hx | hx <;>
  rcases lt_trichotomy x y with hxy | hxy | hxy <;>
  rcases lt_trichotomy x (-y) with hxz | hxz | hxz <;>
  first
  | (exfalso; omega)
  | (simp (disch := omega) only [if_pos, if_neg, decide_eq_true, decide_eq_false]
     simp
     try omega)

/-- Negating a non-zero vector keeps the radius and adds half a turn to the angle. -/
theorem half_turn (s t : cordic8) (x y : Int) (hne : ¬ (x = 0 ∧ y = 0))
    (hx : |x| ≤ 32767) (hy : |y| ≤ 32767) :
    (atan2sqrt t (-x) (-y)).radius = (atan2sqrt s x y).radius ∧
    (atan2sqrt t (-x) (-y)).angle = ((atan2sqrt s x y).angle + 128) % 256 := by
  rw [abs_le] at hx hy
  obtain ⟨f1, f2, -, -⟩ := fold_eq s x y hx.1 hx.2 hy.1 hy.2
  obtain ⟨g1, g2, -, -⟩ := fold_eq t (-x) (-y) (by omega) (by omega) (by omega) (by omega)
  obtain ⟨n1, n2, n3, n4⟩ := fold_neg s t x y hne hx.1 hx.2 hy.1 hy.2
  rw [abs_neg, abs_neg] at g1 g2
  have ha : Agree (init (fold t (-x) (-y))) (init (fold s x y)) :=
    ⟨g1.trans f1.symm, g2.trans f2.symm, rfl, rfl, rfl⟩
  obtain ⟨l1, -, l3, -, -⟩ := loop_agree 5 ha
  have hp : y = 0 → (loop 5 (init (fold s x y))).phi = 0 := by
    intro h0
    have hx0 : (init (fold s x y)).x0 = |x| := by
      show (fold s x y).x0 = |x|
      rw [f1, h0, abs_zero, max_eq_left (abs_nonneg x)]
    have hy0 : (init (fold s x y)).y0 = 0 := by
      show (fold s x y).y0 = 0
      rw [f2, h0, abs_zero, min_eq_right (abs_nonneg x)]
    have hxa : 1 ≤ |x| ∧ |x| ≤ 32767 := by
      rcases abs_cases x with ⟨e, e2⟩ | ⟨e, e2⟩ <;> rw [e] <;> omega
    exact (loop_axis _ rfl hy0 (by omega) (by omega)).2
  obtain ⟨r1, a1⟩ := atan2sqrt_out s x y
  obtain ⟨r2, a2⟩ := atan2sqrt_out t (-x) (-y)
  rw [r1, r2, a1, a2, l1, l3]
  refine ⟨rfl, ?_⟩
  generalize (loop 5 (init (fold s x y))).phi = p at hp ⊢
  generalize (fold s x y).angle = A at n2 n3 ⊢
  generalize (fold t (-x) (-y)).angle = B at n2 n4 ⊢
  clear l1 l3 ha r1 r2 a1 a2 f1 f2 g1 g2
  rcases n1 with n1 | n1
  · rw [n1]
    cases (fold s x y).sign <;> simp only [toU8, if_true, if_false, Bool.false_eq_true] <;> omega
  · have hp0 := hp n1
    subst hp0
    cases (fold s x y).sign <;> cases (fold t (-x) (-y)).sign <;>
      simp only [toU8, if_true, if_false, Bool.false_eq_true] <;> omega

end cordic8

namespace cordic10

/-- Folding the negated vector: same `sign` (unless `y = 0`) and the angle half a turn
further. -/
theorem fold_neg10 (s t : cordic10) (x y : Int) (hne : ¬ (x = 0 ∧ y = 0))
    (hx1 : -32767 ≤ x) (hx2 : x ≤ 32767) (hy1 : -32767 ≤ y) (hy2 : y ≤ 32767) :
    ((fold t (-x) (-y)).sign = (fold s x y).sign ∨ y = 0) ∧
    (fold t (-x) (-y)).angle % 1024 = ((fold s x y).angle + 512) % 1024 ∧
    (fold s x y).angle ≤ 1024 ∧ (fold t (-x) (-y)).angle ≤ 1024 := by
  obtain ⟨-, -, f3, f4⟩ := fold_eq10 s x y hx1 hx2 hy1 hy2
  obtain ⟨-, -, g3, g4⟩ := fold_eq10 t (-x) (-y) (by omega) (by omega) (by omega) (by omega)
  rw [f3, f4, g3, g4]
  rcases lt_trichotomy y 0 with hy | hy | hy <;>
  rcases lt_trichotomy x 0 with hx | hx | hx <;>
  rcases lt_trichotomy x y with hxy | hxy | hxy <;>
  rcases lt_trichotomy x (-y) with hxz | hxz | hxz <;>
  first
  | (exfalso; omega)
  | (simp (disch := omega) only [if_pos, if_neg, decide_eq_true, decide_eq_false]
     simp
     try omega)

/-- Negating a non-zero vector keeps the radius and adds half a turn to the angle. -/
theorem half_turn10 (s t : cordic10) (x y : Int) (hne : ¬ (x = 0 ∧ y = 0))
    (hx : |x| ≤ 32767) (hy : |y| ≤ 32767) :
    (atan2sqrt t (-x) (-y)).radius = (atan2sqrt s x y).radius ∧
    (atan2sqrt t (-x) (-y)).angle = ((atan2sqrt s x y).angle + 32768) % 65536 := by
  rw [abs_le] at hx hy
  obtain ⟨f1, f2, -, -⟩ := fold_eq10 s x y hx.1 hx.2 hy.1 hy.2
  obtain ⟨g1, g2, -, -⟩ := fold_eq10 t (-x) (-y) (by omega) (by omega) (by omega) (by omega)
  obtain ⟨n1, n2, n3, n4⟩ := fold_neg10 s t x y hne hx.1 hx.2 hy.1 hy.2
  rw [abs_neg, abs_neg] at g1 g2
  have ha : Agree (init (fold t (-x) (-y))) (init (fold s x y)) :=
    ⟨g1.trans f1.symm, g2.trans f2.symm, rfl, rfl, rfl⟩
  obtain ⟨l1, -, l3, -, -⟩ := loop_agree10 7 ha
  have hp : y = 0 → (loop 7 (init (fold s x y))).phi = 0 := by
    intro h0
    have hx0 : (init (fold s x y)).x0 = |x| := by
      show (fold s x y).x0 = |x|
      rw [f1, h0, abs_zero, max_eq_left (abs_nonneg x)]
    have hy0 : (init (fold s x y)).y0 = 0 := by
      show (fold s x y).y0 = 0
      rw [f2, h0, abs_zero, min_eq_right (abs_nonneg x)]
    have hxa : 1 ≤ |x| ∧ |x| ≤ 32767 := by
      rcases abs_cases x with ⟨e, e2⟩ | ⟨e, e2⟩ <;> rw [e] <;> omega
    exact (loop_axis10 _ rfl hy0 (by omega) (by omega)).2
  obtain ⟨r1, a1⟩ := atan2sqrt_out10 s x y
  obtain ⟨r2, a2⟩ := atan2sqrt_out10 t (-x) (-y)
  rw [r1, r2, a1, a2, l1, l3]
  refine ⟨rfl, ?_⟩
  generalize (loop 7 (init (fold s x y))).phi = p at hp ⊢
  generalize (fold s x y).angle = A at n2 n3 ⊢
  generalize (fold t (-x) (-y)).angle = B at n2 n4 ⊢
  clear l1 l3 ha r1 r2 a1 a2 f1 f2 g1 g2
  rcases n1 with n1 | n1
  · rw [n1]
    cases (fold s x y).sign <;> simp only [toU16, if_true, if_false, Bool.false_eq_true] <;> omega
  · have hp0 := hp n1
    subst hp0
    cases (fold s x y).sign <;> cases (fold t (-x) (-y)).sign <;>
      simp only [toU16, if_true, if_false, Bool.false_eq_true] <;> omega

end cordic10

theorem lut_values :
    cos_lut.getD 0 0 = 30274 ∧ cos_lut.getD 1 0 = 32138 ∧ cos_lut.getD 2 0 = 32610 ∧
    cos_lut.getD 3 0 = 32729 ∧ cos_lut.getD 4 0 = 32758 ∧
    sin_lut.getD 0 0 = 12540 ∧ sin_lut.getD 1 0 = 6393 ∧ sin_lut.getD 2 0 = 3212 ∧
    sin_lut.getD 3 0 = 1608 ∧ sin_lut.getD 4 0 = 804 :=
  ⟨rfl, rfl, rfl, rfl, rfl, rfl, rfl, rfl, rfl, rfl⟩

namespace cordic8

theorem body_currentAngle_eq (s : cordic8) (a : Nat) (ha : s.currentAngle = a)
    (ha' : a ≤ 255) : (body s).currentAngle = a / 2 := by
  rw [body_currentAngle, ha, Int.shiftRight_eq_div_pow]
  simp only [toU8]
  omega

/-- One pass of the loop with `k`, `currentAngle` and `phi` known: the pass commits exactly
when `c * y0 - sn * x0 >= 0`, for the table entries `c`, `sn` at `k`. -/
theorem step {Q0 : Int} {s : cordic8} (h : Inv Q0 s) (hQ0 : 0 ≤ Q0) (hQ : Q0 ≤ 32767 ^ 2)
    (k a p : Nat) (c sn : Int) (hk : s.k = k) (hk4 : k ≤ 4) (ha : s.currentAngle = a)
    (hp : s.phi = p) (hpa : p + a ≤ 255) (hc : cos_lut.getD k 0 = c)
    (hs : sin_lut.getD k 0 = sn) :
    Inv Q0 (body s) ∧ (body s).k = k + 1 ∧ (body s).currentAngle = a / 2 ∧
    ((0 ≤ c * s.y0 - sn * s.x0 ∧ (body s).x0 = (c * s.x0 + sn * s.y0) / 32768 ∧
        (body s).y0 = (c * s.y0 - sn * s.x0) / 32768 ∧ (body s).phi = p + a) ∨
      (c * s.y0 - sn * s.x0 < 0 ∧ (body s).x0 = s.x0 ∧ (body s).y0 = s.y0 ∧
        (body s).phi = p)) := by
  obtain ⟨i, k1, -, -, -, d⟩ := body_spec h (by omega) hQ0 hQ
  rw [hk, hc, hs, hp, ha] at d
  refine ⟨i, by omega, body_currentAngle_eq s a ha (by omega), ?_⟩
  rcases d with ⟨d1, d2, d3, d4⟩ | ⟨d1, d2, d3, d4⟩
  · left
    refine ⟨d1, d2, d3, ?_⟩
    rw [d4]; simp only [toU8]; omega
  · exact Or.inr ⟨d1, d2, d3, d4⟩

/-- On the diagonal, from `x = 67` on, every pass of the loop commits. -/
theorem loop_diag (s : cordic8) (x : Int) (h1 : 67 ≤ x) (h2 : x ≤ 23169)
    (hI : Inv (x ^ 2 + x ^ 2) s) (hk : s.k = 0) (hx : s.x0 = x) (hy : s.y0 = x)
    (ha : s.currentAngle = 16) (hp : s.phi = 0) : (loop 5 s).phi = 31 := by
  obtain ⟨c0, c1, c2, c3, c4, s0, s1, s2, s3, s4⟩ := lut_values
  have hQ0 : (0 : Int) ≤ x ^ 2 + x ^ 2 := by positivity
  have hQ : x ^ 2 + x ^ 2 ≤ 32767 ^ 2 := by nlinarith
  rw [(loop_unroll s hk).1]
  obtain ⟨i1, k1, a1, d1⟩ := step hI hQ0 hQ 0 16 0 _ _ hk (by omega) ha hp (by omega) c0 s0
  rw [hx, hy] at d1
  have e1 : (body s).x0 = (30274 * x + 12540 * x) / 32768 ∧
      (body s).y0 = (30274 * x - 12540 * x) / 32768 ∧ (body s).phi = 16 := by
    rcases d1 with ⟨-, d2, d3, d4⟩ | ⟨d, -⟩
    · exact ⟨d2, d3, d4⟩
    · omega
  clear d1
  obtain ⟨hx1, hy1, hp1⟩ := e1
  obtain ⟨i2, k2, a2, d2⟩ := step i1 hQ0 hQ 1 8 16 _ _ k1 (by omega) a1 hp1 (by omega) c1 s1
  have e2 : (body (body s)).x0 = (32138 * (body s).x0 + 6393 * (body s).y0) / 32768 ∧
      (body (body s)).y0 = (32138 * (body s).y0 - 6393 * (body s).x0) / 32768 ∧
      (body (body s)).phi = 24 := by
    rcases d2 with ⟨-, d2, d3, d4⟩ | ⟨d, -⟩
    · exact ⟨d2, d3, d4⟩
    · exfalso
      rcases lt_or_le x 115 with hs | hs
      · interval_cases x <;> omega
      · omega
  clear d2
  obtain ⟨hx2, hy2, hp2⟩ := e2
  obtain ⟨i3, k3, a3, d3⟩ := step i2 hQ0 hQ 2 4 24 _ _ k2 (by omega) a2 hp2 (by omega) c2 s2
  have e3 : (body (body (body s))).x0 =
        (32610 * (body (body s)).x0 + 3212 * (body (body s)).y0) / 32768 ∧
      (body (body (body s))).y0 =
        (32610 * (body (body s)).y0 - 3212 * (body (body s)).x0) / 32768 ∧
      (body (body (body s))).phi = 28 := by
    rcases d3 with ⟨-, d2, d3, d4⟩ | ⟨d, -⟩
    · exact ⟨d2, d3, d4⟩
    · exfalso
      rcases lt_or_le x 115 with hs | hs
      · interval_cases x <;> omega
      · omega
  clear d3
  obtain ⟨hx3, hy3, hp3⟩ := e3
  obtain ⟨i4, k4, a4, d4⟩ := step i3 hQ0 hQ 3 2 28 _ _ k3 (by omega) a3 hp3 (by omega) c3 s3
  have e4 : (body (body (body (body s)))).x0 =
        (32729 * (body (body (body s))).x0 + 1608 * (body (body (body s))).y0) / 32768 ∧
      (body (body (body (body s)))).y0 =
        (32729 * (body (body (body s))).y0 - 1608 * (body (body (body s))).x0) / 32768 ∧
      (body (body (body (body s)))).phi = 30 := by
    rcases d4 with ⟨-, d2, d3, d4⟩ | ⟨d, -⟩
    · exact ⟨d2, d3, d4⟩
    · exfalso
      rcases lt_or_le x 115 with hs | hs
      · interval_cases x <;> omega
      · omega
  clear d4
  obtain ⟨hx4, hy4, hp4⟩ := e4
  obtain ⟨-, -, -, d5⟩ := step i4 hQ0 hQ 4 1 30 _ _ k4 (by omega) a4 hp4 (by omega) c4 s4
  rcases d5 with ⟨-, -, -, d4⟩ | ⟨d, -⟩
  · exact d4
  · exfalso
    rcases lt_or_le x 115 with hs | hs
    · interval_cases x <;> omega
    · omega

/-- On the diagonal, from 67 on, the returned angle is 31. -/
theorem diagonal_angle (s : cordic8) (x : Int) (h1 : 67 ≤ x) (h2 : x ≤ 23169) :
    (atan2sqrt s x x).angle = 31 ∧ |((atan2sqrt s x x).angle : Int) - 32| ≤ 1 := by
  have hsafe : x ^ 2 + x ^ 2 ≤ 32767 ^ 2 := by nlinarith
  obtain ⟨-, -, -, -, hI, hk, hx0, hy0⟩ := init_inv s x x hsafe
  rw [max_self, abs_of_nonneg (by omega)] at hx0
  rw [min_self, abs_of_nonneg (by omega)] at hy0
  have hphi := loop_diag _ x h1 h2 hI hk hx0 hy0 rfl rfl
  obtain ⟨-, -, f3, f4⟩ := fold_eq s x x (by omega) (by omega) (by omega) (by omega)
  have hs : (fold s x x).sign = false := by
    rw [f3]; simp; omega
  have ha : (fold s x x).angle = 0 := by
    rw [f4]; split_ifs <;> omega
  have e : (atan2sqrt s x x).angle = 31 := by
    rw [(atan2sqrt_out s x x).2, hphi, hs, ha]
    decide
  rw [e]
  exact ⟨rfl, by decide⟩

end cordic8
namespace cordic16

/-! ### `cordic16`: the iteration-count clamp -/

theorem body_isSome (ctab : List Int) (s : cordic16)
    (hlt : s.k.toNat < ctab.length) :
    ∃ s', body ctab s = some s' ∧ s'.k = s.k ∧ s'.n = s.n := by
  unfold body
  rw [List.get?_eq_get hlt]
  exact ⟨_, rfl, rfl, rfl⟩

/-- The loop never reads the table outside its bounds and reaches its exit condition within
`n - k` passes, when `n` does not exceed the table length. -/
theorem loop_isSome (ctab : List Int) (fuel : Nat) (s : cordic16) (hk : 0 ≤ s.k)
    (hn : s.n ≤ ctab.length) (hlen : ctab.length ≤ 32767) (hf : (s.n - s.k).toNat ≤ fuel) :
    (loop ctab fuel s).isSome = true := by
  induction fuel generalizing s with
  | zero =>
    unfold loop
    rw [if_neg (by omega)]
    rfl
  | succ m ih =>
    unfold loop
    by_cases hc : s.k < s.n
    · rw [if_pos hc]
      obtain ⟨s', e, e1, e2⟩ := body_isSome ctab s (by omega)
      rw [e]
      dsimp only
      have hw : wrap16 (s'.k + 1) = s'.k + 1 := wrap16_of_range (by omega) (by omega)
      apply ih
      · show 0 ≤ wrap16 (s'.k + 1); omega
      · show s'.n ≤ _; omega
      · show (s'.n - wrap16 (s'.k + 1)).toNat ≤ m; omega
    · rw [if_neg hc]
      rfl

theorem sincos_isSome (K1 NTAB : Int) (ctab : List Int) (s : cordic16) (theta n : Int)
    (hN : NTAB = ctab.length) (hlen : ctab.length ≤ 32767) :
    (sincos K1 NTAB ctab s theta n).isSome = true := by
  have hw : wrap16 NTAB = NTAB := wrap16_of_range (by omega) (by omega)
  have hle : wrap16 (if wrap16 n > NTAB then NTAB else wrap16 n) ≤ ctab.length := by
    split_ifs with h
    · omega
    · rw [wrap16_of_range (by unfold wrap16; omega) (by unfold wrap16; omega)]; omega
  have h := loop_isSome ctab
    (wrap16 (if wrap16 n > NTAB then NTAB else wrap16 n)).toNat
    { s with x := wrap16 K1, y := 0, z := wrap16 theta,
             n := wrap16 (if wrap16 n > NTAB then NTAB else wrap16 n), k := 0 }
    (le_refl _) hle hlen (by simp)
  unfold sincos
  dsimp only
  revert h
  cases loop ctab _ _ with
  | none => intro h; simp at h
  | some s' => intro _; rfl

theorem sincos_clamp (K1 NTAB : Int) (ctab : List Int) (s : cordic16) (theta n : Int)
    (hN1 : -32768 ≤ NTAB) (hN2 : NTAB ≤ 32767) (hn : NTAB < n) (hn2 : n ≤ 32767) :
    sincos K1 NTAB ctab s theta n = sincos K1 NTAB ctab s theta NTAB := by
  have hw : wrap16 NTAB = NTAB := wrap16_of_range hN1 hN2
  have hwn : wrap16 n = n := wrap16_of_range (by omega) hn2
  unfold sincos
  rw [hw, hwn, if_pos (by omega), if_neg (by omega)]

/-! ### `cordic16`: the loop reads only `x`, `y`, `z`, `n` and `k` -/

theorem body_agree16 (ctab : List Int) {s t : cordic16} (h : Agree s t) :
    OptAgree (body ctab s) (body ctab t) := by
  obtain ⟨h1, h2, h3, h4, h5⟩ := h
  unfold body
  rw [h5]
  cases ctab.get? t.k.toNat with
  | none => exact trivial
  | some c =>
    dsimp only
    rw [h1, h2, h3]
    exact ⟨rfl, rfl, rfl, h4, rfl⟩

theorem loop_agree16 (ctab : List Int) (fuel : Nat) {s t : cordic16} (h : Agree s t) :
    OptAgree (loop ctab fuel s) (loop ctab fuel t) := by
  induction fuel generalizing s t with
  | zero =>
    unfold loop
    rw [h.2.2.2.1, h.2.2.2.2]
    split
    · exact trivial
    · exact h
  | succ m ih =>
    unfold loop
    rw [h.2.2.2.1, h.2.2.2.2]
    split
    · have hb := body_agree16 ctab h
      revert hb
      cases body ctab s with
      | none =>
        cases body ctab t with
        | none => intro _; exact trivial
        | some b => intro hb; exact hb.elim
      | some a =>
        cases body ctab t with
        | none => intro hb; exact hb.elim
        | some b =>
          intro hb
          dsimp only
          apply ih
          obtain ⟨b1, b2, b3, b4, b5⟩ := hb
          exact ⟨b1, b2, b3, b4, by show wrap16 (a.k + 1) = wrap16 (b.k + 1); rw [b5]⟩
    · exact h

/-- The results of `sincos` do not depend on the object before the call. -/
theorem sincos_indep (K1 NTAB : Int) (ctab : List Int) (s t : cordic16) (theta n : Int) :
    results (sincos K1 NTAB ctab s theta n) = results (sincos K1 NTAB ctab t theta n) := by
  have h := loop_agree16 ctab (wrap16 (if wrap16 n > NTAB then NTAB else wrap16 n)).toNat
    (s := { s with x := wrap16 K1, y := 0, z := wrap16 theta,
                   n := wrap16 (if wrap16 n > NTAB then NTAB else wrap16 n), k := 0 })
    (t := { t with x := wrap16 K1, y := 0, z := wrap16 theta,
                   n := wrap16 (if wrap16 n > NTAB then NTAB else wrap16 n), k := 0 })
    ⟨rfl, rfl, rfl, rfl, rfl⟩
  unfold sincos results
  dsimp only
  revert h
  cases loop ctab _ _ with
  | none =>
    cases loop ctab _ _ with
    | none => intro _; rfl
    | some b => intro hb; exact hb.elim
  | some a =>
    cases loop ctab _ _ with
    | none => intro hb; exact hb.elim
    | some b =>
      intro hb
      obtain ⟨b1, b2, -, -, -⟩ := hb
      simp only [Option.map_some']
      rw [b1, b2]

end cordic16
/-! ### `cordic16`: the sign idiom and the vectors the loop can reach -/

theorem xor_zero_right (v : Int) : Int.xor v 0 = v := by
  cases v <;> simp [Int.xor]

theorem xor_neg_one_right (v : Int) : Int.xor v (-1) = -v - 1 := by
  cases v with
  | ofNat m =>
    show Int.xor (Int.ofNat m) (Int.negSucc 0) = _
    simp [Int.xor, Int.negSucc_eq]
    omega
  | negSucc m =>
    show Int.xor (Int.negSucc m) (Int.negSucc 0) = _
    simp [Int.xor, Int.negSucc_eq]

theorem sign_mask (z : Int) (h1 : -32768 ≤ z) (h2 : z ≤ 32767) :
    wrap16 (z >>> (15 : Nat)) = 0 ∨ wrap16 (z >>> (15 : Nat)) = -1 := by
  rw [asr15_eq]
  unfold wrap16
  omega

namespace cordic16

theorem body_some (ctab : List Int) (s b : cordic16) (h : body ctab s = some b) :
    ∃ c : Int,
      b.x = wrap16 (s.x - (Int.xor (s.y >>> s.k.toNat) (wrap16 (s.z >>> (15 : Nat)))
        - wrap16 (s.z >>> (15 : Nat)))) ∧
      b.y = wrap16 (s.y + (Int.xor (s.x >>> s.k.toNat) (wrap16 (s.z >>> (15 : Nat)))
        - wrap16 (s.z >>> (15 : Nat)))) ∧
      b.z = wrap16 (s.z - (Int.xor c (wrap16 (s.z >>> (15 : Nat)))
        - wrap16 (s.z >>> (15 : Nat)))) ∧
      b.n = s.n ∧ b.k = s.k := by
  unfold body at h
  revert h
  cases ctab.get? s.k.toNat with
  | none => intro h; exact absurd h (by simp)
  | some c =>
    intro h
    dsimp only at h
    rw [Option.some.injEq] at h
    subst h
    exact ⟨c, rfl, rfl, rfl, rfl, rfl⟩

/-- Whatever the table holds, the vector at the end of the loop is one of those given by
the `2^(n-k)` choices of directions. -/
theorem loop_reach (ctab : List Int) (fuel : Nat) (s s' : cordic16) (hk : 0 ≤ s.k)
    (hn : s.n ≤ 32767) (hz1 : -32768 ≤ s.z) (hz2 : s.z ≤ 32767)
    (h : loop ctab fuel s = some s') :
    reach s'.x s'.y (s.n - s.k).toNat s.k.toNat s.x s.y = true := by
  induction fuel generalizing s with
  | zero =>
    unfold loop at h
    split at h
    · exact absurd h (by simp)
    · rw [Option.some.injEq] at h
      subst h
      have e : (s.n - s.k).toNat = 0 := by omega
      rw [e]
      simp [reach]
  | succ m ih =>
    unfold loop at h
    split at h
    · rename_i hlt
      revert h
      cases hb : body ctab s with
      | none => intro h; exact absurd h (by simp)
      | some b =>
        intro h
        dsimp only at h
        obtain ⟨c, bx, by', bz, bn, bk⟩ := body_some ctab s b hb
        have hw : wrap16 (b.k + 1) = s.k + 1 := by
          rw [bk]; exact wrap16_of_range (by omega) (by omega)
        have hi := ih { b with k := wrap16 (b.k + 1) } (by show 0 ≤ wrap16 (b.k + 1); omega)
          (by show b.n ≤ 32767; omega)
          (by show -32768 ≤ b.z; rw [bz]; unfold wrap16; omega)
          (by show b.z ≤ 32767; rw [bz]; unfold wrap16; omega) h
        have e1 : ({ b with k := wrap16 (b.k + 1) } : cordic16).n = s.n := bn
        have e2 : ({ b with k := wrap16 (b.k + 1) } : cordic16).k = s.k + 1 := hw
        have e3 : ({ b with k := wrap16 (b.k + 1) } : cordic16).x = b.x := rfl
        have e4 : ({ b with k := wrap16 (b.k + 1) } : cordic16).y = b.y := rfl
        rw [e1, e2, e3, e4] at hi
        have f1 : (s.n - s.k).toNat = (s.n - (s.k + 1)).toNat + 1 := by omega
        have f2 : (s.k + 1).toNat = s.k.toNat + 1 := by omega
        rw [f1]
        rw [f2] at hi
        unfold reach
        rw [Bool.or_eq_true]
        rcases sign_mask s.z hz1 hz2 with hd | hd
        · left
          rw [hd, xor_zero_right, sub_zero] at bx by'
          rw [← bx, ← by']
          exact hi
        · right
          rw [hd, xor_neg_one_right] at bx by'
          have g1 : s.x - (-(s.y >>> s.k.toNat) - 1 - -1) = s.x + (s.y >>> s.k.toNat) := by ring
          have g2 : s.y + (-(s.x >>> s.k.toNat) - 1 - -1) = s.y - (s.x >>> s.k.toNat) := by ring
          rw [g1] at bx
          rw [g2] at by'
          rw [← bx, ← by']
          exact hi
    · rename_i hge
      rw [Option.some.injEq] at h
      subst h
      have e : (s.n - s.k).toNat = 0 := by omega
      rw [e]
      simp [reach]

theorem loop_first (ctab : List Int) (m : Nat) (s s' : cordic16) (hlt : s.k < s.n)
    (h : loop ctab (m + 1) s = some s') :
    ∃ b, body ctab s = some b ∧ loop ctab m { b with k := wrap16 (b.k + 1) } = some s' := by
  unfold loop at h
  rw [if_pos hlt] at h
  revert h
  cases body ctab s with
  | none => intro h; exact absurd h (by simp)
  | some b => intro h; exact ⟨b, rfl, h⟩

theorem reach_expand (tx ty : Int) (fuel k : Nat) (S : List (Int × Int)) :
    (S.any fun p => reach tx ty (fuel + 1) k p.1 p.2) =
      ((expand k S).any fun p => reach tx ty fuel (k + 1) p.1 p.2) := by
  induction S with
  | nil => rfl
  | cons p ps ih =>
    simp only [List.any_cons, expand, ih]
    rw [reach, Bool.or_assoc]

theorem expand_four :
    expand 4 (expand 3 (expand 2 (expand 1 [(9949, 9949)]))) =
      [(-1795, 16272), (245, 16370), (2265, 16215), (4265, 15807), (6072, 15205),
        (7918, 14331), (9628, 13242), (11202, 11942), (11942, 11202), (13242, 9628),
        (14331, 7918), (15205, 6072), (15807, 4265), (16215, 2265), (16370, 245),
        (16272, -1795)] := by
  decide

theorem reach_fails_0 : reach 16384 0 11 5 (-1795) 16272 = false := by decide!

theorem reach_fails_1 : reach 16384 0 11 5 245 16370 = false := by decide!

theorem reach_fails_2 : reach 16384 0 11 5 2265 16215 = false := by decide!

theorem reach_fails_3 : reach 16384 0 11 5 4265 15807 = false := by decide!

theorem reach_fails_4 : reach 16384 0 11 5 6072 15205 = false := by decide!

theorem reach_fails_5 : reach 16384 0 11 5 7918 14331 = false := by decide!

theorem reach_fails_6 : reach 16384 0 11 5 9628 13242 = false := by decide!

theorem reach_fails_7 : reach 16384 0 11 5 11202 11942 = false := by decide!

theorem reach_fails_8 : reach 16384 0 11 5 11942 11202 = false := by decide!

theorem reach_fails_9 : reach 16384 0 11 5 13242 9628 = false := by decide!

theorem reach_fails_10 : reach 16384 0 11 5 14331 7918 = false := by decide!

theorem reach_fails_11 : reach 16384 0 11 5 15205 6072 = false := by decide!

theorem reach_fails_12 : reach 16384 0 11 5 15807 4265 = false := by decide!

theorem reach_fails_13 : reach 16384 0 11 5 16215 2265 = false := by decide!

theorem reach_fails_14 : reach 16384 0 11 5 16370 245 = false := by decide!

theorem reach_fails_15 : reach 16384 0 11 5 16272 (-1795) = false := by decide!

/-- None of the `2^15` choices of directions after the first pass ends at `(16384, 0)`. -/
theorem reach_fails : reach 16384 0 15 1 9949 9949 = false := by
  have h : ([((9949 : Int), (9949 : Int))].any fun p => reach 16384 0 15 1 p.1 p.2) = false := by
    rw [reach_expand, reach_expand, reach_expand, reach_expand, expand_four]
    simp only [List.any_cons, List.any_nil, Nat.reduceAdd, reach_fails_0, reach_fails_1, reach_fails_2, reach_fails_3, reach_fails_4, reach_fails_5, reach_fails_6, reach_fails_7, reach_fails_8, reach_fails_9, reach_fails_10, reach_fails_11, reach_fails_12, reach_fails_13, reach_fails_14, reach_fails_15,
      Bool.or_self]
  simpa using h

/-- With `CORDIC_1K = 9949` and `CORDIC_NTAB = 16`, no table makes `sincos(0, 16)` return
`sin = 0` and `cos = 16384`. -/
theorem sincos_zero_inexact (ctab : List Int) (s : cordic16) :
    results (sincos CORDIC_1K CORDIC_NTAB ctab s 0 16) ≠ some (0, 16384) := by
  intro hres
  unfold CORDIC_1K CORDIC_NTAB sincos results at hres
  dsimp only at hres
  have hw : wrap16 (if wrap16 16 > 16 then 16 else wrap16 16) = 16 := by decide
  have e1 : wrap16 9949 = 9949 := by decide
  have e0 : wrap16 0 = 0 := by decide
  rw [hw, e1, e0] at hres
  revert hres
  cases hl : loop ctab _ _ with
  | none => intro h; exact absurd h (by simp)
  | some s' =>
    intro h
    simp only [Option.map_some', Option.some.injEq, Prod.mk.injEq] at h
    obtain ⟨b, hb, hl'⟩ := loop_first ctab 15 _ s' (by show (0 : Int) < 16; decide) hl
    obtain ⟨c, bx, by', bz, bn, bk⟩ := body_some ctab _ b hb
    dsimp only at bx by' bz bn bk
    have hx : b.x = 9949 := by rw [bx]; decide
    have hy : b.y = 9949 := by rw [by']; decide
    have hr := loop_reach ctab 15 _ s' (by show 0 ≤ wrap16 (b.k + 1); rw [bk]; decide)
      (by show b.n ≤ 32767; rw [bn]; decide)
      (by show -32768 ≤ b.z; rw [bz]; unfold wrap16; omega)
      (by show b.z ≤ 32767; rw [bz]; unfold wrap16; omega) hl'
    have k1 : ({ b with k := wrap16 (b.k + 1) } : cordic16).k = 1 := by
      show wrap16 (b.k + 1) = 1; rw [bk]; decide
    have n1 : ({ b with k := wrap16 (b.k + 1) } : cordic16).n = 16 := bn
    have x1 : ({ b with k := wrap16 (b.k + 1) } : cordic16).x = 9949 := hx
    have y1 : ({ b with k := wrap16 (b.k + 1) } : cordic16).y = 9949 := hy
    rw [k1, n1, x1, y1, h.1, h.2] at hr
    have e15 : ((16 : Int) - 1).toNat = 15 := by decide
    have e1' : (1 : Int).toNat = 1 := by decide
    rw [e15, e1', reach_fails] at hr
    exact absurd hr (by simp)

end cordic16
/-! ### No overflow in the safe range -/

theorem store16_of_range {v : Int} (h1 : -32768 ≤ v) (h2 : v ≤ 32767) : store16 v = some v :=
  if_pos ⟨h1, h2⟩

theorem store32_of_range {v : Int} (h1 : -2147483648 ≤ v) (h2 : v ≤ 2147483647) :
    store32 v = some v :=
  if_pos ⟨h1, h2⟩

theorem storePos_of_range {v : Int} (h1 : 0 ≤ v) (h2 : v ≤ 32767) : storePos v = some v :=
  if_pos ⟨h1, h2⟩

namespace cordic8

theorem loadChecked_eq (s : cordic8) (x y : Int)
    (hx1 : -32768 ≤ x) (hx2 : x ≤ 32767) (hy1 : -32768 ≤ y) (hy2 : y ≤ 32767) :
    loadChecked s x y = some (load s x y) := by
  unfold loadChecked load
  rw [store16_of_range hx1 hx2, store16_of_range hy1 hy2, wrap16_of_range hx1 hx2,
    wrap16_of_range hy1 hy2]
  rfl

theorem rot128Checked_eq (s : cordic8)
    (hx1 : -32767 ≤ s.x0) (hx2 : s.x0 ≤ 32767) (hy1 : -32767 ≤ s.y0) (hy2 : s.y0 ≤ 32767) :
    rot128Checked s = some (rot128 s) := by
  unfold rot128Checked rot128
  split
  · rw [store16_of_range (by omega) (by omega), store16_of_range (by omega) (by omega),
      wrap16_of_range (by omega) (by omega), wrap16_of_range (by omega) (by omega)]
    rfl
  · rfl

theorem rot64Checked_eq (s : cordic8)
    (hx1 : -32767 ≤ s.x0) (hx2 : s.x0 ≤ 32767) (hy1 : -32767 ≤ s.y0) (hy2 : s.y0 ≤ 32767) :
    rot64Checked s = some (rot64 s) := by
  unfold rot64Checked rot64
  split
  · rw [store16_of_range (by omega) (by omega), store16_of_range (by omega) (by omega),
      wrap16_of_range (by omega) (by omega)]
    simp only [Option.bind_eq_bind, Option.some_bind]
    rw [store16_of_range (by omega) (by omega)]
    rfl
  · rfl

theorem reflectChecked_eq (s : cordic8)
    (hx1 : -32767 ≤ s.x0) (hx2 : s.x0 ≤ 32767) (hy1 : -32767 ≤ s.y0) (hy2 : s.y0 ≤ 32767) :
    reflectChecked s = some (reflect s) := by
  unfold reflectChecked reflect
  split
  · rw [store16_of_range (by omega) (by omega), store16_of_range (by omega) (by omega)]
    simp only [Option.bind_eq_bind, Option.some_bind]
    rw [store16_of_range (by omega) (by omega)]
    rfl
  · rfl

theorem foldChecked_eq (s : cordic8) (x y : Int)
    (hx1 : -32767 ≤ x) (hx2 : x ≤ 32767) (hy1 : -32767 ≤ y) (hy2 : y ≤ 32767) :
    foldChecked s x y = some (fold s x y) := by
  obtain ⟨a1, a2, -, -⟩ := load_spec s x y (by omega) hx2 (by omega) hy2
  obtain ⟨b1, b2, -, -⟩ :=
    rot128_spec (load s x y) (by omega) (by omega) (by omega) (by omega)
  have hb : (-32767 ≤ (rot128 (load s x y)).x0 ∧ (rot128 (load s x y)).x0 ≤ 32767) ∧
      (-32767 ≤ (rot128 (load s x y)).y0 ∧ (rot128 (load s x y)).y0 ≤ 32767) := by
    rw [b1, b2, a1, a2]; split_ifs <;> omega
  obtain ⟨c1, c2, -, -⟩ := rot64_spec (rot128 (load s x y)) hb.1.1 hb.1.2
  have hc : (-32767 ≤ (rot64 (rot128 (load s x y))).x0 ∧
        (rot64 (rot128 (load s x y))).x0 ≤ 32767) ∧
      (-32767 ≤ (rot64 (rot128 (load s x y))).y0 ∧
        (rot64 (rot128 (load s x y))).y0 ≤ 32767) := by
    rw [c1, c2]; split_ifs <;> omega
  obtain ⟨f1, f2, -, -⟩ := fold_eq s x y hx1 hx2 hy1 hy2
  have hf : (0 ≤ (fold s x y).x0 ∧ (fold s x y).x0 ≤ 32767) ∧
      (0 ≤ (fold s x y).y0 ∧ (fold s x y).y0 ≤ 32767) := by
    rw [f1, f2]
    have hax : |x| ≤ 32767 := abs_le.2 ⟨hx1, hx2⟩
    have hay : |y| ≤ 32767 := abs_le.2 ⟨hy1, hy2⟩
    exact ⟨⟨le_trans (abs_nonneg x) (le_max_left _ _), max_le hax hay⟩,
      ⟨le_min (abs_nonneg x) (abs_nonneg y), le_trans (min_le_left _ _) hax⟩⟩
  unfold foldChecked
  rw [loadChecked_eq s x y (by omega) hx2 (by omega) hy2]
  simp only [Option.bind_eq_bind, Option.some_bind]
  rw [rot128Checked_eq _ (by omega) (by omega) (by omega) (by omega)]
  simp only [Option.some_bind]
  rw [rot64Checked_eq _ hb.1.1 hb.1.2 hb.2.1 hb.2.2]
  simp only [Option.some_bind]
  rw [reflectChecked_eq _ hc.1.1 hc.1.2 hc.2.1 hc.2.2]
  simp only [Option.some_bind]
  unfold foldedChecked
  have e : reflect (rot64 (rot128 (load s x y))) = fold s x y := rfl
  rw [e, storePos_of_range hf.1.1 hf.1.2, storePos_of_range hf.2.1 hf.2.2]
  rfl

theorem bodyChecked_eq {Q0 : Int} {s : cordic8} (h : Inv Q0 s) (hk : s.k ≤ 4) (hQ0 : 0 ≤ Q0)
    (hQ : Q0 ≤ 32767 ^ 2) : bodyChecked s = some (body s) := by
  obtain ⟨-, hx, hy⟩ := h.range hQ
  have hx0 := h.x0_nonneg
  have hy0 := h.y0_nonneg
  obtain ⟨hi, -, -, hx', hy', hd⟩ := body_spec h hk hQ0 hQ
  have hx0' := hi.x0_nonneg
  have hy0' := hi.y0_nonneg
  obtain ⟨hcX, hcY⟩ := cand_exact s (by omega) (by omega) hx (by omega) hy
  obtain ⟨c0, c1, c2, c3, c4, s0, s1, s2, s3, s4⟩ := lut_values
  have hw : store32 (cos_lut.getD s.k 0 * s.x0) = some (cos_lut.getD s.k 0 * s.x0) ∧
      store32 (cos_lut.getD s.k 0 * s.x0 + sin_lut.getD s.k 0 * s.y0) = some (candX s) ∧
      store32 (-(sin_lut.getD s.k 0) * s.x0) = some (-(sin_lut.getD s.k 0) * s.x0) ∧
      store32 (-(sin_lut.getD s.k 0) * s.x0 + cos_lut.getD s.k 0 * s.y0) = some (candY s) := by
    rw [hcX, hcY]
    have hk' : s.k = 0 ∨ s.k = 1 ∨ s.k = 2 ∨ s.k = 3 ∨ s.k = 4 := by omega
    rcases hk' with e | e | e | e | e <;> rw [e] <;>
      simp only [c0, c1, c2, c3, c4, s0, s1, s2, s3, s4] <;>
      refine ⟨store32_of_range (by omega) (by omega), ?_, store32_of_range (by omega) (by omega),
        ?_⟩ <;>
      rw [store32_of_range (by omega) (by omega)] <;> congr 1 <;> ring
  obtain ⟨w1, w2, w3, w4⟩ := hw
  unfold bodyChecked
  rw [w1]
  simp only [Option.bind_eq_bind, Option.some_bind]
  rw [w2]
  simp only [Option.some_bind]
  rw [w3]
  simp only [Option.some_bind]
  rw [w4]
  simp only [Option.some_bind]
  by_cases hc : candY s ≥ 0
  · have hc' : 0 ≤ cos_lut.getD s.k 0 * s.y0 - sin_lut.getD s.k 0 * s.x0 := by
      rw [← hcY]; exact hc
    have hd' : s.body.x0 = (cos_lut.getD s.k 0 * s.x0 + sin_lut.getD s.k 0 * s.y0) / 32768 ∧
        s.body.y0 = (cos_lut.getD s.k 0 * s.y0 - sin_lut.getD s.k 0 * s.x0) / 32768 := by
      rcases hd with ⟨-, d2, d3, -⟩ | ⟨d1, -⟩
      · exact ⟨d2, d3⟩
      · omega
    have eX : candX s >>> (15 : Nat) = s.body.x0 := by rw [asr15_eq, hcX, hd'.1]
    have eY : candY s >>> (15 : Nat) = s.body.y0 := by rw [asr15_eq, hcY, hd'.2]
    rw [if_pos hc]
    unfold commitChecked body
    dsimp only
    rw [if_pos hc, eX, eY] at *
    rw [storePos_of_range hx0' hx', storePos_of_range hy0' hy',
      wrap16_of_range (by omega) hx', wrap16_of_range (by omega) hy']
    rfl
  · rw [if_neg hc]
    unfold body
    dsimp only
    rw [if_neg hc]
    rfl

theorem loopChecked_eq {Q0 : Int} {s : cordic8} (h : Inv Q0 s) (hk : s.k = 0) (hQ0 : 0 ≤ Q0)
    (hQ : Q0 ≤ 32767 ^ 2) : loopChecked 5 s = some (loop 5 s) := by
  obtain ⟨i1, k1, -⟩ := body_inv h (by omega) hQ0 hQ
  obtain ⟨i2, k2, -⟩ := body_inv i1 (by omega) hQ0 hQ
  obtain ⟨i3, k3, -⟩ := body_inv i2 (by omega) hQ0 hQ
  obtain ⟨i4, k4, -⟩ := body_inv i3 (by omega) hQ0 hQ
  rw [(loop_unroll s hk).1]
  unfold loopChecked
  rw [if_pos (by omega), bodyChecked_eq h (by omega) hQ0 hQ, Option.some_bind]
  unfold loopChecked
  rw [if_pos (by omega), bodyChecked_eq i1 (by omega) hQ0 hQ, Option.some_bind]
  unfold loopChecked
  rw [if_pos (by omega), bodyChecked_eq i2 (by omega) hQ0 hQ, Option.some_bind]
  unfold loopChecked
  rw [if_pos (by omega), bodyChecked_eq i3 (by omega) hQ0 hQ, Option.some_bind]
  unfold loopChecked
  rw [if_pos (by omega), bodyChecked_eq i4 (by omega) hQ0 hQ, Option.some_bind]
  rfl

/-- In the safe range every checked store succeeds and the checked run ends in the state
computed with 16-bit and 32-bit registers. -/
theorem atan2sqrtChecked_eq (s : cordic8) (x y : Int) (h : x ^ 2 + y ^ 2 ≤ 32767 ^ 2) :
    atan2sqrtChecked s x y = some (atan2sqrt s x y) := by
  obtain ⟨hx1, hx2, hy1, hy2, hI, hk, -, -⟩ := init_inv s x y h
  unfold atan2sqrtChecked atan2sqrt
  rw [foldChecked_eq s x y hx1 hx2 hy1 hy2]
  simp only [Option.bind_eq_bind, Option.some_bind]
  rw [loopChecked_eq hI hk (by positivity) h]
  rfl

/-- The checks are not vacuous: outside the safe range a store can fail. -/
theorem atan2sqrtChecked_overflow : atan2sqrtChecked zero 32767 32767 = none := by
  decide

end cordic8
/-! ### The sign idiom and the sign combination -/

theorem asr15_sign (z : Int) (h1 : -32768 ≤ z) (h2 : z ≤ 32767) :
    z >>> (15 : Nat) = if 0 ≤ z then 0 else -1 := by
  rw [asr15_eq]
  split_ifs <;> omega

namespace cordic16

theorem body_eq_bodyBranch (ctab : List Int) (s : cordic16) (h1 : -32768 ≤ s.z)
    (h2 : s.z ≤ 32767) : body ctab s = bodyBranch ctab s := by
  unfold body bodyBranch
  cases ctab.get? s.k.toNat with
  | none => rfl
  | some c =>
    dsimp only
    rw [asr15_sign s.z h1 h2]
    by_cases hz : 0 ≤ s.z
    · have e : wrap16 0 = 0 := by decide
      rw [if_pos hz, if_pos hz, e]
      simp only [xor_zero_right, sub_zero]
    · have e : wrap16 (-1) = -1 := by decide
      rw [if_neg hz, if_neg hz, e]
      simp only [xor_neg_one_right]
      have g : ∀ a b : Int, a - (-b - 1 - -1) = a + b := by intro a b; ring
      have g' : ∀ a b : Int, a + (-b - 1 - -1) = a - b := by intro a b; ring
      rw [g, g', g]

end cordic16

namespace cordic8

theorem finish_eq_combine (s : cordic8) :
    finish s = combine { s with radius := toU16 s.x0 } := rfl

theorem combine_eq_branch (s : cordic8) : combine s = combineBranch s := by
  unfold combine combineBranch
  cases s.sign
  · simp
  · simp only [if_true]
    rfl

end cordic8

namespace cordic10

theorem finish_eq_combine10 (s : cordic10) :
    finish s = { combine { s with radius := toU16 s.x0 } with
      angle := toU16 (((combine { s with radius := toU16 s.x0 }).angle : Int) * 64) } := rfl

theorem combine_eq_branch10 (s : cordic10) : combine s = combineBranch s := by
  unfold combine combineBranch
  cases s.sign
  · simp
  · simp only [if_true]
    have e : toU16 ((s.angle : Int) + ((toU16 (-(s.phi : Int)) : Nat) : Int)) =
        toU16 ((s.angle : Int) - (s.phi : Int)) := by
      unfold toU16; omega
    rw [e]

end cordic10

namespace cordic16

end cordic16
/-! ### `phi` stays below 32 -/

theorem max_min_sq (a b : Int) : (max a b) ^ 2 + (min a b) ^ 2 = a ^ 2 + b ^ 2 := by
  rcases le_total a b with h | h
  · rw [max_eq_right h, min_eq_left h]; ring
  · rw [max_eq_left h, min_eq_right h]

namespace cordic8

theorem body_phi_bound (s : cordic8) (a b : Nat) (ha : s.currentAngle = a) (hb : s.phi ≤ b)
    (hab : a + b ≤ 255) : (body s).phi ≤ b + a ∧ (body s).currentAngle = a / 2 := by
  refine ⟨?_, body_currentAngle_eq s a ha (by omega)⟩
  rw [body_phi, ha]
  split
  · simp only [toU8]; omega
  · omega

/-- Whatever the vector, the loop leaves `phi <= 31`. -/
theorem loop_phi_le (s : cordic8) (hk : s.k = 0) (ha : s.currentAngle = 16) (hp : s.phi = 0) :
    (loop 5 s).phi ≤ 31 := by
  rw [(loop_unroll s hk).1]
  obtain ⟨p1, a1⟩ := body_phi_bound s 16 0 ha (by omega) (by omega)
  obtain ⟨p2, a2⟩ := body_phi_bound _ 8 16 a1 p1 (by omega)
  obtain ⟨p3, a3⟩ := body_phi_bound _ 4 24 a2 p2 (by omega)
  obtain ⟨p4, a4⟩ := body_phi_bound _ 2 28 a3 p3 (by omega)
  obtain ⟨p5, -⟩ := body_phi_bound _ 1 30 a4 p4 (by omega)
  exact p5

theorem finish_phi (s : cordic8) : (finish s).phi = s.phi := rfl

theorem finish_sign (s : cordic8) : (finish s).sign = s.sign := rfl

/-- The reflection in the 45 degree line: swapping the coordinates of a first-octant vector
keeps the radius and maps the angle `a` to `64 - a`. -/
theorem reflection (s t : cordic8) (x y : Int) (hy : 0 ≤ y) (hxy : y < x) (hx : x ≤ 32767) :
    (atan2sqrt t y x).radius = (atan2sqrt s x y).radius ∧
    (atan2sqrt t y x).angle + (atan2sqrt s x y).angle = 64 ∧
    (atan2sqrt s x y).angle ≤ 31 := by
  obtain ⟨f1, f2, f3, f4⟩ := fold_eq s x y (by omega) hx (by omega) (by omega)
  obtain ⟨g1, g2, g3, g4⟩ := fold_eq t y x (by omega) (by omega) (by omega) hx
  have hax : |x| = x := abs_of_nonneg (by omega)
  have hay : |y| = y := abs_of_nonneg hy
  rw [hax, hay] at f1 f2 g1 g2
  rw [max_eq_left (by omega)] at f1
  rw [min_eq_right (by omega)] at f2
  rw [max_eq_right (by omega)] at g1
  rw [min_eq_left (by omega)] at g2
  have fs : (fold s x y).sign = false := by rw [f3]; simp; omega
  have fa : (fold s x y).angle = 0 := by rw [f4]; split_ifs <;> omega
  have gs : (fold t y x).sign = true := by rw [g3]; simp; omega
  have ga : (fold t y x).angle = 64 := by rw [g4]; split_ifs <;> omega
  have hag : Agree (init (fold t y x)) (init (fold s x y)) :=
    ⟨g1.trans f1.symm, g2.trans f2.symm, rfl, rfl, rfl⟩
  obtain ⟨l1, -, l3, -, -⟩ := loop_agree 5 hag
  have hp := loop_phi_le (init (fold s x y)) rfl rfl rfl
  obtain ⟨r1, a1⟩ := atan2sqrt_out s x y
  obtain ⟨r2, a2⟩ := atan2sqrt_out t y x
  rw [r1, r2, a1, a2, l1, l3, fs, fa, gs, ga]
  generalize (loop 5 (init (fold s x y))).phi = p at hp
  refine ⟨rfl, ?_, ?_⟩
  · simp only [toU8, if_true, Bool.false_eq_true, if_false]; omega
  · simp only [toU8, Bool.false_eq_true, if_false]; omega

end cordic8
namespace cordic8

/-- `sign` and `phi` of the object after the call. -/
theorem atan2sqrt_flags (s : cordic8) (x y : Int) :
    (atan2sqrt s x y).sign = (fold s x y).sign ∧
    (atan2sqrt s x y).phi = (loop 5 (init (fold s x y))).phi := by
  unfold atan2sqrt
  rw [finish_sign, finish_phi, loop_sign]
  exact ⟨rfl, rfl⟩

theorem toU8_cast (v : Int) : ((toU8 v : Nat) : Int) = v % 256 := by
  unfold toU8; omega

/-- Quadrant of the returned angle, and its offset from the base of the quadrant. -/
theorem quadrant (s : cordic8) (x y : Int) (hne : ¬ (x = 0 ∧ y = 0))
    (hx1 : -32767 ≤ x) (hx2 : x ≤ 32767) (hy1 : -32767 ≤ y) (hy2 : y ≤ 32767) :
    (0 < x ∧ 0 ≤ y → ((atan2sqrt s x y).angle : Int) ≤ 64) ∧
    (x ≤ 0 ∧ 0 < y →
      64 ≤ ((atan2sqrt s x y).angle : Int) ∧ ((atan2sqrt s x y).angle : Int) ≤ 128) ∧
    (x < 0 ∧ y ≤ 0 →
      128 ≤ ((atan2sqrt s x y).angle : Int) ∧ ((atan2sqrt s x y).angle : Int) ≤ 192) ∧
    (0 ≤ x ∧ y < 0 →
      (192 ≤ ((atan2sqrt s x y).angle : Int) ∧ ((atan2sqrt s x y).angle : Int) ≤ 255) ∨
      ((atan2sqrt s x y).angle : Int) = 0) ∧
    (atan2sqrt s x y).phi ≤ 31 ∧
    (x ≠ 0 ∧ y ≠ 0 →
      ((atan2sqrt s x y).sign = false →
        (((atan2sqrt s x y).angle : Int) -
          (if 0 < y then (if 0 < x then 0 else 64) else (if x < 0 then 128 else 192)))
          % 256 ≤ 31) ∧
      ((atan2sqrt s x y).sign = true →
        33 ≤ (((atan2sqrt s x y).angle : Int) -
          (if 0 < y then (if 0 < x then 0 else 64) else (if x < 0 then 128 else 192)))
          % 256 ∧
        (((atan2sqrt s x y).angle : Int) -
          (if 0 < y then (if 0 < x then 0 else 64) else (if x < 0 then 128 else 192)))
          % 256 ≤ 64)) := by
  obtain ⟨f1, f2, f3, f4⟩ := fold_eq s x y hx1 hx2 hy1 hy2
  have hp := loop_phi_le (init (fold s x y)) rfl rfl rfl
  have hp0 : x = 0 ∨ y = 0 → (loop 5 (init (fold s x y))).phi = 0 := by
    intro h0
    have hax : |x| ≤ 32767 := abs_le.2 ⟨hx1, hx2⟩
    have hay : |y| ≤ 32767 := abs_le.2 ⟨hy1, hy2⟩
    have hy0 : (init (fold s x y)).y0 = 0 := by
      show (fold s x y).y0 = 0
      rw [f2]
      rcases h0 with h0 | h0 <;> rw [h0, abs_zero]
      · exact min_eq_left (abs_nonneg y)
      · exact min_eq_right (abs_nonneg x)
    have hx0 : 1 ≤ (init (fold s x y)).x0 ∧ (init (fold s x y)).x0 ≤ 32767 := by
      show 1 ≤ (fold s x y).x0 ∧ (fold s x y).x0 ≤ 32767
      rw [f1]
      refine ⟨?_, max_le hax hay⟩
      rcases h0 with h0 | h0
      · have : 1 ≤ |y| := by
          rcases abs_cases y with ⟨e, e2⟩ | ⟨e, e2⟩ <;> rw [e] <;> omega
        exact le_trans this (le_max_right _ _)
      · have : 1 ≤ |x| := by
          rcases abs_cases x with ⟨e, e2⟩ | ⟨e, e2⟩ <;> rw [e] <;> omega
        exact le_trans this (le_max_left _ _)
    exact (loop_axis _ rfl hy0 hx0.1 hx0.2).2
  obtain ⟨-, a1⟩ := atan2sqrt_out s x y
  obtain ⟨g1, g2⟩ := atan2sqrt_flags s x y
  rw [a1, g1, g2, f3, f4]
  generalize (loop 5 (init (fold s x y))).phi = p at hp hp0 ⊢
  clear f1 f2 f3 f4 a1 g1 g2
  have tf : (true = false) = False := by simp
  rcases lt_trichotomy y 0 with hy | hy | hy <;>
  rcases lt_trichotomy x 0 with hx | hx | hx <;>
  rcases lt_trichotomy x y with hxy | hxy | hxy <;>
  rcases lt_trichotomy x (-y) with hxz | hxz | hxz <;>
  first
  | (exfalso; omega)
  | (simp (disch := omega) only [if_pos, if_neg, decide_eq_true, decide_eq_false]
     simp only [toU8_cast, if_true, if_false, Bool.false_eq_true, tf, false_implies,
       true_implies, and_true, true_and, true_or, or_true]
     try omega)

end cordic8
/-! ### Partial runs of the loop -/

theorem tab_mono (k : Nat) (hk : k ≤ 6) :
    0 < cos_lut.getD k 0 ∧ 0 ≤ sin_lut.getD k 0 ∧
    32768 * cos_lut.getD k 0 ≤ cos_lut.getD k 0 ^ 2 + sin_lut.getD k 0 ^ 2 := by
  interval_cases k <;> simp only [sin_lut, cos_lut, List.getD_cons_zero,
    List.getD_cons_succ] <;> norm_num

/-- For every table entry, a rotation that leaves `y1 >= 0` does not decrease `x0`. -/
theorem commit_mono_tab (k : Nat) (hk : k ≤ 6) (x0 y0 : Int) (hx0 : 0 ≤ x0)
    (hY : sin_lut.getD k 0 * x0 ≤ cos_lut.getD k 0 * y0) :
    x0 ≤ (cos_lut.getD k 0 * x0 + sin_lut.getD k 0 * y0) >>> (15 : Nat) := by
  obtain ⟨t1, t2, t3⟩ := tab_mono k hk
  rw [asr15_eq]
  exact commit_mono _ _ x0 y0 t1 t2 t3 hx0 (by omega)

namespace cordic8

/-- The first `j + 1` passes are the first `j` passes followed by one more. -/
theorem loop_snoc (j : Nat) (s : cordic8) (h : s.k + j ≤ 4) :
    loop (j + 1) s = body (loop j s) := by
  induction j generalizing s with
  | zero =>
    show (if s.k ≤ 4 then loop 0 (body s) else s) = body s
    rw [if_pos (by omega)]
    rfl
  | succ n ih =>
    have hk := body_k_eq s s.k rfl (by omega)
    have e1 : loop (n + 1 + 1) s = loop (n + 1) (body s) := by
      show (if s.k ≤ 4 then loop (n + 1) (body s) else s) = _
      rw [if_pos (by omega)]
    have e2 : loop (n + 1) s = loop n (body s) := by
      show (if s.k ≤ 4 then loop n (body s) else s) = _
      rw [if_pos (by omega)]
    rw [e1, ih (body s) (by omega), e2]

/-- The invariant holds after every number of passes. -/
theorem loop_prefix_inv {Q0 : Int} (j : Nat) {s : cordic8} (h : Inv Q0 s) (hk : s.k + j ≤ 5)
    (hQ0 : 0 ≤ Q0) (hQ : Q0 ≤ 32767 ^ 2) :
    Inv Q0 (loop j s) ∧ (loop j s).k = s.k + j := by
  induction j with
  | zero => exact ⟨h, rfl⟩
  | succ n ih =>
    obtain ⟨i, k⟩ := ih (by omega)
    rw [loop_snoc n s (by omega)]
    obtain ⟨i', k', -⟩ := body_inv i (by omega) hQ0 hQ
    exact ⟨i', by omega⟩

/-- Growth of the squared length in one pass: by the factor of the table entry at most when
the rotation is committed, none otherwise. -/
theorem body_normSq {Q0 : Int} {s : cordic8} (h : Inv Q0 s) (hk : s.k ≤ 4) (hQ0 : 0 ≤ Q0)
    (hQ : Q0 ≤ 32767 ^ 2) :
    normSq (body s) * 2 ^ 30 ≤
        normSq s * (cos_lut.getD s.k 0 ^ 2 + sin_lut.getD s.k 0 ^ 2) ∨
      normSq (body s) = normSq s := by
  obtain ⟨-, -, -, -, -, d⟩ := body_spec h hk hQ0 hQ
  obtain ⟨t1, t2, -⟩ := tab_mono s.k (by omega)
  have hx0 := h.x0_nonneg
  have hy0 := h.y0_nonneg
  rcases d with ⟨d1, d2, d3, -⟩ | ⟨-, d2, d3, -⟩
  · left
    have key := commit_normSq _ _ s.x0 s.y0
      (add_nonneg (mul_nonneg (le_of_lt t1) hx0) (mul_nonneg t2 hy0)) d1
    unfold normSq
    rw [d2, d3]
    linarith
  · right
    unfold normSq
    rw [d2, d3]

end cordic8
/-! ### `cordic10` against `cordic8` -/

namespace cordic10

theorem body_currentAngle_eq10 (t : cordic10) (a : Nat) (ha : t.currentAngle = a)
    (ha' : a ≤ 65535) : (body t).currentAngle = a / 2 := by
  rw [body_currentAngle10, ha, Int.shiftRight_eq_div_pow]
  simp only [toU16]
  omega

/-- With `k = 0` on entry, five passes of the loop of `cordic10` are five runs of its
body, and the whole loop is two more. -/
theorem loop_five10 (s : cordic10) (hk : s.k = 0) :
    loop 5 s = body (body (body (body (body s)))) ∧
    loop 7 s = body (body (loop 5 s)) := by
  have h1 := body_k_eq10 s 0 hk (by omega)
  have h2 := body_k_eq10 _ 1 h1 (by omega)
  have h3 := body_k_eq10 _ 2 h2 (by omega)
  have h4 := body_k_eq10 _ 3 h3 (by omega)
  have e : loop 5 s = body (body (body (body (body s)))) := by
    simp only [loop, hk, h1, h2, h3, h4]
    simp
  exact ⟨e, by rw [e]; exact (loop_unroll10 s hk).1⟩

/-- One pass of both solvers from states with the same `k <= 4`, the same working vector,
and `phi`, `currentAngle` of `cordic10` four times those of `cordic8`: the states after the
pass are related in the same way. -/
theorem sim_step {Q0 : Int} {s : cordic8} {t : cordic10} (h : cordic8.Inv Q0 s)
    (hQ0 : 0 ≤ Q0) (hQ : Q0 ≤ 32767 ^ 2) (hk4 : s.k ≤ 4)
    (hx : t.x0 = s.x0) (hy : t.y0 = s.y0) (hk : t.k = s.k) (a b : Nat)
    (ha8 : s.currentAngle = a) (ha10 : t.currentAngle = 4 * a)
    (hp8 : s.phi ≤ b) (hp10 : t.phi = 4 * s.phi) (hba : b + a ≤ 255) :
    cordic8.Inv Q0 (cordic8.body s) ∧ (cordic8.body s).k = s.k + 1 ∧
    (body t).k = (cordic8.body s).k ∧
    (body t).x0 = (cordic8.body s).x0 ∧ (body t).y0 = (cordic8.body s).y0 ∧
    (body t).phi = 4 * (cordic8.body s).phi ∧ (cordic8.body s).phi ≤ b + a ∧
    (cordic8.body s).currentAngle = a / 2 ∧ (body t).currentAngle = 4 * a / 2 := by
  obtain ⟨-, rx, ry⟩ := h.range hQ
  have hx0 := h.x0_nonneg
  have hy0 := h.y0_nonneg
  obtain ⟨i, k1, -, bx, by1, d⟩ := cordic8.body_spec h hk4 hQ0 hQ
  obtain ⟨cX, cY⟩ := cand_exact10 t (by omega) (by omega) (by omega) (by omega) (by omega)
  rw [hx, hy, hk] at cX cY
  have hk' : (body t).k = s.k + 1 := body_k_eq10 t s.k hk (by omega)
  have ix := i.x0_nonneg
  have iy := i.y0_nonneg
  refine ⟨i, k1, by rw [hk', k1], ?_, ?_, ?_, ?_,
    cordic8.body_currentAngle_eq s a ha8 (by omega),
    body_currentAngle_eq10 t (4 * a) ha10 (by omega)⟩
  · rw [body_x010, cY, cX, asr15_eq]
    rcases d with ⟨d1, d2, d3, d4⟩ | ⟨d1, d2, d3, d4⟩
    · rw [if_pos d1, d2]
      rw [d2] at ix bx
      exact wrap16_of_range (by omega) bx
    · rw [if_neg (by omega), d2, hx]
  · rw [body_y010, cY, asr15_eq]
    rcases d with ⟨d1, d2, d3, d4⟩ | ⟨d1, d2, d3, d4⟩
    · rw [if_pos d1, d3]
      rw [d3] at iy by1
      exact wrap16_of_range (by omega) by1
    · rw [if_neg (by omega), d3, hy]
  · rw [body_phi10, cY]
    rcases d with ⟨d1, d2, d3, d4⟩ | ⟨d1, d2, d3, d4⟩
    · rw [if_pos d1, d4, hp10, ha10, ha8]
      simp only [toU16, toU8]
      omega
    · rw [if_neg (by omega), d4, hp10]
  · rcases d with ⟨d1, d2, d3, d4⟩ | ⟨d1, d2, d3, d4⟩
    · rw [d4, ha8]
      simp only [toU8]
      omega
    · rw [d4]; omega

/-- One pass of the loop of `cordic10` from a first-quadrant vector whose squared length,
grown by the factor of the table entry, stays below `2^30`: no conversion changes a value,
`x0` does not decrease, and `phi` grows by `currentAngle` or not at all. -/
theorem body_range10 (t : cordic10) (hk : t.k ≤ 6) (hx0 : 0 ≤ t.x0) (hy0 : 0 ≤ t.y0)
    (hx : t.x0 ≤ 32767) (hy : t.y0 ≤ 32767)
    (hN : (t.x0 ^ 2 + t.y0 ^ 2) * (cos_lut.getD t.k 0 ^ 2 + sin_lut.getD t.k 0 ^ 2) < 2 ^ 60)
    (a : Nat) (ha : t.currentAngle = a) (hpa : t.phi + a ≤ 65535) :
    (body t).k = t.k + 1 ∧ 0 ≤ (body t).y0 ∧ t.x0 ≤ (body t).x0 ∧ (body t).x0 ≤ 32767 ∧
    (body t).y0 ≤ 32767 ∧
    (((body t).x0 ^ 2 + (body t).y0 ^ 2) * 2 ^ 30 ≤
        (t.x0 ^ 2 + t.y0 ^ 2) * (cos_lut.getD t.k 0 ^ 2 + sin_lut.getD t.k 0 ^ 2) ∨
      ((body t).x0 = t.x0 ∧ (body t).y0 = t.y0)) ∧
    ((body t).phi = t.phi + a ∨ (body t).phi = t.phi) ∧ (body t).currentAngle = a / 2 := by
  obtain ⟨cX, cY⟩ := cand_exact10 t hk (by omega) hx (by omega) hy
  obtain ⟨t1, t2, t3⟩ := tab_mono t.k hk
  have hk' : (body t).k = t.k + 1 := body_k_eq10 t t.k rfl (by omega)
  have hca := body_currentAngle_eq10 t a ha (by omega)
  rw [body_x010, body_y010, body_phi10, cX, cY, asr15_eq, asr15_eq]
  generalize cos_lut.getD t.k 0 = c at *
  generalize sin_lut.getD t.k 0 = sn at *
  by_cases hc : 0 ≤ c * t.y0 - sn * t.x0
  · rw [if_pos hc, if_pos hc, if_pos hc]
    have hX : 0 ≤ c * t.x0 + sn * t.y0 :=
      add_nonneg (mul_nonneg (le_of_lt t1) hx0) (mul_nonneg t2 hy0)
    have key := commit_normSq c sn t.x0 t.y0 hX hc
    have hX' : 0 ≤ (c * t.x0 + sn * t.y0) / 32768 := Int.ediv_nonneg hX (by norm_num)
    have hY' : 0 ≤ (c * t.y0 - sn * t.x0) / 32768 := Int.ediv_nonneg hc (by norm_num)
    have hm := commit_mono c sn t.x0 t.y0 t1 t2 t3 hx0 hc
    generalize (c * t.x0 + sn * t.y0) / 32768 = X at *
    generalize (c * t.y0 - sn * t.x0) / 32768 = Y at *
    have hlt : X ^ 2 + Y ^ 2 < 2 ^ 30 := by
      by_contra hcon
      have : (2 : Int) ^ 30 ≤ X ^ 2 + Y ^ 2 := by omega
      nlinarith
    have r1 : X ≤ 32767 := le_of_sq_lt X _ hX' (by nlinarith) hlt
    have r2 : Y ≤ 32767 := le_of_sq_lt Y _ hY' (by nlinarith) hlt
    rw [wrap16_of_range (by omega) r1, wrap16_of_range (by omega) r2, ha]
    refine ⟨hk', hY', hm, r1, r2, Or.inl (by linarith), Or.inl ?_, hca⟩
    simp only [toU16]
    omega
  · rw [if_neg hc, if_neg hc, if_neg hc]
    exact ⟨hk', hy0, le_refl _, hx, hy, Or.inr ⟨rfl, rfl⟩, Or.inr rfl, hca⟩

end cordic10
namespace cordic10

/-- The loops of both solvers on the same vector of length at most 32766: after five passes
the working vectors are equal and `phi` of `cordic10` is four times `phi` of `cordic8`; the
last two passes of `cordic10` add at most 3 to `phi` and do not decrease `x0`, which stays
in the 16-bit signed range. -/
theorem loop_refines (s : cordic8) (t : cordic10) (x y : Int)
    (h : x ^ 2 + y ^ 2 ≤ 32766 ^ 2) :
    (loop 5 (init (fold t x y))).x0 =
      (cordic8.loop 5 (cordic8.init (cordic8.fold s x y))).x0 ∧
    (loop 5 (init (fold t x y))).y0 =
      (cordic8.loop 5 (cordic8.init (cordic8.fold s x y))).y0 ∧
    (loop 5 (init (fold t x y))).phi =
      4 * (cordic8.loop 5 (cordic8.init (cordic8.fold s x y))).phi ∧
    (cordic8.loop 5 (cordic8.init (cordic8.fold s x y))).phi ≤ 31 ∧
    0 ≤ (cordic8.loop 5 (cordic8.init (cordic8.fold s x y))).x0 ∧
    (cordic8.loop 5 (cordic8.init (cordic8.fold s x y))).x0 ≤
      (loop 7 (init (fold t x y))).x0 ∧
    (loop 7 (init (fold t x y))).x0 ≤ 32767 ∧
    ∃ r : Nat, r ≤ 3 ∧ (loop 7 (init (fold t x y))).phi =
      4 * (cordic8.loop 5 (cordic8.init (cordic8.fold s x y))).phi + r := by
  have hQ : x ^ 2 + y ^ 2 ≤ 32767 ^ 2 := le_trans h (by norm_num)
  have hQ0 : 0 ≤ x ^ 2 + y ^ 2 := by positivity
  obtain ⟨hx1, hx2, hy1, hy2, i0, k0, ex, ey⟩ := cordic8.init_inv s x y hQ
  obtain ⟨f1, f2, -, -⟩ := fold_eq10 t x y hx1 hx2 hy1 hy2
  have hx : (init (fold t x y)).x0 = (cordic8.init (cordic8.fold s x y)).x0 := by
    rw [ex]; exact f1
  have hy : (init (fold t x y)).y0 = (cordic8.init (cordic8.fold s x y)).y0 := by
    rw [ey]; exact f2
  have hk : (init (fold t x y)).k = (cordic8.init (cordic8.fold s x y)).k := rfl
  have ca8 : (cordic8.init (cordic8.fold s x y)).currentAngle = 16 := rfl
  have ca10 : (init (fold t x y)).currentAngle = 4 * 16 := rfl
  have ph8 : (cordic8.init (cordic8.fold s x y)).phi ≤ 0 := Nat.le_of_eq rfl
  have ph10 : (init (fold t x y)).phi = 4 * (cordic8.init (cordic8.fold s x y)).phi := rfl
  rw [(cordic8.loop_unroll _ k0).1, (loop_five10 _ rfl).2, (loop_five10 _ rfl).1]
  generalize cordic8.init (cordic8.fold s x y) = s0 at *
  generalize init (fold t x y) = t0 at *
  obtain ⟨i1, k1, kk1, x1, y1, p1, b1, a1, c1⟩ :=
    sim_step i0 hQ0 hQ (by omega) hx hy hk 16 0 ca8 ca10 ph8 ph10 (by omega)
  obtain ⟨i2, k2, kk2, x2, y2, p2, b2, a2, c2⟩ :=
    sim_step i1 hQ0 hQ (by omega) x1 y1 kk1 8 16 a1 c1 b1 p1 (by omega)
  obtain ⟨i3, k3, kk3, x3, y3, p3, b3, a3, c3⟩ :=
    sim_step i2 hQ0 hQ (by omega) x2 y2 kk2 4 24 a2 c2 b2 p2 (by omega)
  obtain ⟨i4, k4, kk4, x4, y4, p4, b4, a4, c4⟩ :=
    sim_step i3 hQ0 hQ (by omega) x3 y3 kk3 2 28 a3 c3 b3 p3 (by omega)
  obtain ⟨i5, k5, kk5, x5, y5, p5, b5, -, c5⟩ :=
    sim_step i4 hQ0 hQ (by omega) x4 y4 kk4 1 30 a4 c4 b4 p4 (by omega)
  have e5 : (cordic8.body (cordic8.body (cordic8.body (cordic8.body (cordic8.body s0))))).k
      = 5 := by omega
  obtain ⟨-, rx5, ry5⟩ := i5.range hQ
  have nx5 := i5.x0_nonneg
  have ny5 := i5.y0_nonneg
  have hb := i5.bound
  rw [e5] at hb kk5
  unfold cordic8.normSq at hb
  simp only [cordic8.gainBound] at hb
  generalize cordic8.body (cordic8.body (cordic8.body (cordic8.body (cordic8.body s0)))) = s5
    at *
  generalize body (body (body (body (body t0)))) = t5 at *
  have hN5 : (t5.x0 ^ 2 + t5.y0 ^ 2) *
      (cos_lut.getD t5.k 0 ^ 2 + sin_lut.getD t5.k 0 ^ 2) < 2 ^ 60 := by
    rw [kk5, x5, y5]
    simp only [sin_lut, cos_lut, List.getD_cons_zero, List.getD_cons_succ]
    norm_num
    linarith
  obtain ⟨kk6, ny6, m6, rx6, ry6, n6, ph6, ca6⟩ :=
    body_range10 t5 (by omega) (by omega) (by omega) (by omega) (by omega) hN5 2 c5
      (by omega)
  have hN6 : ((body t5).x0 ^ 2 + (body t5).y0 ^ 2) *
      (cos_lut.getD (body t5).k 0 ^ 2 + sin_lut.getD (body t5).k 0 ^ 2) < 2 ^ 60 := by
    rw [kk6, kk5]
    rw [kk5] at n6
    rcases n6 with n6 | ⟨n6, n6'⟩
    · rw [x5, y5] at n6
      simp only [sin_lut, cos_lut, List.getD_cons_zero, List.getD_cons_succ] at n6 ⊢
      norm_num at n6 ⊢
      linarith
    · rw [n6, n6', x5, y5]
      simp only [sin_lut, cos_lut, List.getD_cons_zero, List.getD_cons_succ]
      norm_num
      linarith
  obtain ⟨-, -, m7, rx7, -, -, ph7, -⟩ :=
    body_range10 (body t5) (by omega) (by omega) ny6 rx6 ry6 hN6 1 ca6 (by omega)
  refine ⟨x5, y5, p5, by omega, nx5, by omega, rx7, (body (body t5)).phi - 4 * s5.phi,
    by omega, by omega⟩

theorem finish_sign10 (s : cordic10) : (finish s).sign = s.sign := rfl

/-- The results of `cordic10::atan2sqrt` against those of `cordic8::atan2sqrt` on the same
vector of length at most 32766. -/
theorem refines (s : cordic8) (t : cordic10) (x y : Int) (h : x ^ 2 + y ^ 2 ≤ 32766 ^ 2) :
    ∃ r : Nat, r ≤ 3 ∧
      (atan2sqrt t x y).sign = (cordic8.atan2sqrt s x y).sign ∧
      ((cordic8.atan2sqrt s x y).sign = false →
        ((atan2sqrt t x y).angle : Int) =
          (256 * ((cordic8.atan2sqrt s x y).angle : Int) + 64 * (r : Int)) % 65536) ∧
      ((cordic8.atan2sqrt s x y).sign = true →
        ((atan2sqrt t x y).angle : Int) =
          (256 * ((cordic8.atan2sqrt s x y).angle : Int) - 64 * (r : Int)) % 65536) ∧
      (cordic8.atan2sqrt s x y).radius ≤ (atan2sqrt t x y).radius := by
  obtain ⟨-, -, -, hp, nx, mx, rx, r, hr, hphi⟩ := loop_refines s t x y h
  have hQ : x ^ 2 + y ^ 2 ≤ 32767 ^ 2 := le_trans h (by norm_num)
  obtain ⟨hx1, hx2, hy1, hy2, -⟩ := cordic8.init_inv s x y hQ
  obtain ⟨-, -, f3, f4⟩ := cordic8.fold_eq s x y hx1 hx2 hy1 hy2
  obtain ⟨-, -, g3, g4⟩ := fold_eq10 t x y hx1 hx2 hy1 hy2
  obtain ⟨r8, a8⟩ := cordic8.atan2sqrt_out s x y
  obtain ⟨r10, a10⟩ := atan2sqrt_out10 t x y
  obtain ⟨s8, -⟩ := cordic8.atan2sqrt_flags s x y
  have s10 : (atan2sqrt t x y).sign = (fold t x y).sign := by
    unfold atan2sqrt; rw [finish_sign10, loop_sign10]; rfl
  have tf : (true = false) = False := by simp
  rw [s10, s8, a10, a8, r8, r10, f3, f4, g3, g4, hphi]
  generalize (cordic8.loop 5 (cordic8.init (cordic8.fold s x y))).phi = p at hp
  generalize (cordic8.loop 5 (cordic8.init (cordic8.fold s x y))).x0 = X8 at nx mx
  generalize (loop 7 (init (fold t x y))).x0 = X10 at mx rx
  clear f3 f4 g3 g4 a8 a10 r8 r10 s8 s10 hphi h hQ
  refine ⟨r, hr, rfl, ?_, ?_, ?_⟩
  · by_cases c1 : y < 0 <;>
    by_cases c2 : (0 ≤ y ∧ x < 0) ∨ (y < 0 ∧ 0 < x) <;>
    by_cases c3 : (0 ≤ y ∧ 0 ≤ x ∧ x < y) ∨ (0 ≤ y ∧ x < 0 ∧ y < -x) ∨
      (y < 0 ∧ 0 ≤ -x ∧ -x < -y) ∨ (y < 0 ∧ 0 < x ∧ -y < x) <;>
    (simp only [c3, if_true, if_false, decide_True, decide_False, tf, false_implies,
      true_implies, Bool.false_eq_true]
     try simp only [c2, if_true, if_false]
     try simp only [c1, if_true, if_false]
     try (simp only [toU8, toU16]; omega))
  · by_cases c1 : y < 0 <;>
    by_cases c2 : (0 ≤ y ∧ x < 0) ∨ (y < 0 ∧ 0 < x) <;>
    by_cases c3 : (0 ≤ y ∧ 0 ≤ x ∧ x < y) ∨ (0 ≤ y ∧ x < 0 ∧ y < -x) ∨
      (y < 0 ∧ 0 ≤ -x ∧ -x < -y) ∨ (y < 0 ∧ 0 < x ∧ -y < x) <;>
    (simp only [c3, if_true, if_false, decide_True, decide_False, tf, false_implies,
      true_implies, Bool.false_eq_true]
     try simp only [c2, if_true, if_false]
     try simp only [c1, if_true, if_false]
     try (simp only [toU8, toU16]; omega))
  · simp only [toU16]
    omega

end cordic10
/-! ### The radius from below -/

/-- A committed micro-rotation, with both candidates truncated by `>> 15`, loses less than
`2 * x0 + 2 * y0 + 2` of the squared length after the multiplication by
`(c^2 + s^2) / 2^30`. -/
theorem commit_normSq_lower (c sn x0 y0 : Int)
    (hX : 0 ≤ c * x0 + sn * y0) (hY : 0 ≤ c * y0 - sn * x0) :
    (c ^ 2 + sn ^ 2) * (x0 ^ 2 + y0 ^ 2) ≤
      2 ^ 30 * (((c * x0 + sn * y0) / 32768) ^ 2 + ((c * y0 - sn * x0) / 32768) ^ 2
        + 2 * ((c * x0 + sn * y0) / 32768) + 2 * ((c * y0 - sn * x0) / 32768) + 2) := by
  have h1 : c * x0 + sn * y0 < ((c * x0 + sn * y0) / 32768 + 1) * 32768 :=
    Int.lt_ediv_add_one_mul_self _ (by norm_num)
  have h2 : c * y0 - sn * x0 < ((c * y0 - sn * x0) / 32768 + 1) * 32768 :=
    Int.lt_ediv_add_one_mul_self _ (by norm_num)
  generalize (c * x0 + sn * y0) / 32768 = X at h1 ⊢
  generalize (c * y0 - sn * x0) / 32768 = Y at h2 ⊢
  have h5 : (c * x0 + sn * y0) ^ 2 ≤ ((X + 1) * 32768) ^ 2 :=
    pow_le_pow_left₀ hX (le_of_lt h1) 2
  have h6 : (c * y0 - sn * x0) ^ 2 ≤ ((Y + 1) * 32768) ^ 2 :=
    pow_le_pow_left₀ hY (le_of_lt h2) 2
  have h7 : (c * x0 + sn * y0) ^ 2 + (c * y0 - sn * x0) ^ 2 =
      (c ^ 2 + sn ^ 2) * (x0 ^ 2 + y0 ^ 2) := by ring
  nlinarith [h5, h6, h7]

/-- One step of the chain of lower bounds: a committed pass. -/
theorem chain_commit (G P E F Q0 Q Q1 X X1 Y1 g c sn e : Int)
    (hP : 0 ≤ P) (hE : 0 ≤ E) (hg : 0 ≤ g) (hc : 0 ≤ c)
    (hinv : G * Q0 ≤ P * Q + E * X + F)
    (hstep : g * Q ≤ 2 ^ 30 * (Q1 + 2 * X1 + 2 * Y1 + 2))
    (hX : X ≤ X1) (hY : c * Y1 ≤ sn * X1 + e) :
    c * g * G * Q0 ≤ 2 ^ 30 * c * P * Q1
      + (c * g * E + 2 ^ 30 * P * (2 * c + 2 * sn)) * X1
      + (c * g * F + 2 ^ 30 * P * (2 * e + 2 * c)) := by
  have h1 : c * g * (G * Q0) ≤ c * g * (P * Q + E * X + F) :=
    mul_le_mul_of_nonneg_left hinv (mul_nonneg hc hg)
  have h2 : c * P * (g * Q) ≤ c * P * (2 ^ 30 * (Q1 + 2 * X1 + 2 * Y1 + 2)) :=
    mul_le_mul_of_nonneg_left hstep (mul_nonneg hc hP)
  have h3 : c * g * E * X ≤ c * g * E * X1 :=
    mul_le_mul_of_nonneg_left hX (mul_nonneg (mul_nonneg hc hg) hE)
  have h4 : 2 ^ 31 * P * (c * Y1) ≤ 2 ^ 31 * P * (sn * X1 + e) :=
    mul_le_mul_of_nonneg_left hY (mul_nonneg (by norm_num) hP)
  nlinarith [h1, h2, h3, h4]

/-- A concave quadratic that is positive at both ends of an interval is positive on it. -/
theorem quad_pos (al be ga M X : Int) (hal : al ≤ 0) (h0 : 0 < ga)
    (hM : 0 < al * M ^ 2 + be * M + ga) (hX : 0 ≤ X) (hXM : X ≤ M) :
    0 < al * X ^ 2 + be * X + ga := by
  have hM0 : 0 ≤ M := le_trans hX hXM
  rcases eq_or_lt_of_le hX with h | h
  · rw [← h]; simpa using h0
  · have hMpos : 0 < M := lt_of_lt_of_le h hXM
    have key : M * (al * X ^ 2 + be * X + ga) =
        X * (al * M ^ 2 + be * M + ga) + (M - X) * ga + (-al) * (M * X * (M - X)) := by ring
    have t1 : 0 < X * (al * M ^ 2 + be * M + ga) := mul_pos h hM
    have t2 : 0 ≤ (M - X) * ga := mul_nonneg (by omega) (le_of_lt h0)
    have t3 : 0 ≤ (-al) * (M * X * (M - X)) :=
      mul_nonneg (by omega) (mul_nonneg (mul_nonneg hM0 hX) (by omega))
    have t4 : 0 < M * (al * X ^ 2 + be * X + ga) := by rw [key]; linarith
    exact (mul_pos_iff_of_pos_left hMpos).1 t4

namespace cordic8

theorem normLoss_odd (k m : Nat) :
    normLoss (k + 1) (2 * m + 1) =
      ⟨cos_lut.getD k 0 * (cos_lut.getD k 0 ^ 2 + sin_lut.getD k 0 ^ 2) * (normLoss k m).gain,
        2 ^ 30 * cos_lut.getD k 0 * (normLoss k m).scale,
        cos_lut.getD k 0 * (cos_lut.getD k 0 ^ 2 + sin_lut.getD k 0 ^ 2) * (normLoss k m).lin
          + 2 ^ 30 * (normLoss k m).scale * (2 * cos_lut.getD k 0 + 2 * sin_lut.getD k 0),
        cos_lut.getD k 0 * (cos_lut.getD k 0 ^ 2 + sin_lut.getD k 0 ^ 2) * (normLoss k m).const
          + 2 ^ 30 * (normLoss k m).scale * (2 * preE (k + 1) + 2 * cos_lut.getD k 0)⟩ := by
  have h1 : (2 * m + 1) % 2 = 1 := by omega
  have h2 : (2 * m + 1) / 2 = m := by omega
  rw [normLoss, if_pos h1, h2]

theorem normLoss_even (k m : Nat) : normLoss (k + 1) (2 * m) = normLoss k m := by
  have h1 : ¬ (2 * m) % 2 = 1 := by omega
  have h2 : (2 * m) / 2 = m := by omega
  rw [normLoss, if_neg h1, h2]

theorem normLoss_nonneg : ∀ k < 6, ∀ m < 2 ^ k,
    0 < (normLoss k m).gain ∧ 0 ≤ (normLoss k m).scale ∧ 0 ≤ (normLoss k m).lin ∧
      0 ≤ (normLoss k m).const := by
  decide

end cordic8
namespace cordic8

/-- The bound on the residual angle is kept by a pass. -/
theorem pre_step {Q0 : Int} {s : cordic8} (h : Inv Q0 s) (hk : s.k ≤ 4) (hQ0 : 0 ≤ Q0)
    (hQ : Q0 ≤ 32767 ^ 2) (hp : Pre s.k s) : Pre (s.k + 1) (body s) := by
  obtain ⟨-, hx, hy⟩ := h.range hQ
  have hx0 := h.x0_nonneg
  have hy0 := h.y0_nonneg
  obtain ⟨-, -, -, -, -, d⟩ := body_spec h hk hQ0 hQ
  unfold Pre at hp ⊢
  have hk' : s.k = 0 ∨ s.k = 1 ∨ s.k = 2 ∨ s.k = 3 ∨ s.k = 4 := by omega
  rcases hk' with e | e | e | e | e <;> rw [e] at hp d ⊢ <;>
    simp only [preA, preB, preE, sin_lut, cos_lut, List.getD_cons_zero, List.getD_cons_succ,
      Nat.reduceAdd] at hp d ⊢ <;>
    rcases d with ⟨d1, d2, d3, -⟩ | ⟨d1, d2, d3, -⟩ <;> rw [d2, d3] <;> omega

/-- The lower bound on the squared length is kept by a pass, with the index of the
committed passes extended by one bit. -/
theorem norm_step {Q0 : Int} {s : cordic8} (h : Inv Q0 s) (hk : s.k ≤ 4) (hQ0 : 0 ≤ Q0)
    (hQ : Q0 ≤ 32767 ^ 2) (hp1 : Pre (s.k + 1) (body s)) (m : Nat) (hm : m < 2 ^ s.k)
    (hn : NormInv Q0 s.k m s) :
    ∃ m1, m1 < 2 ^ (s.k + 1) ∧ NormInv Q0 (s.k + 1) m1 (body s) := by
  have hx0 := h.x0_nonneg
  have hy0 := h.y0_nonneg
  obtain ⟨-, -, hmono, -, -, d⟩ := body_spec h hk hQ0 hQ
  obtain ⟨t1, t2, -⟩ := tab_mono s.k (by omega)
  obtain ⟨n1, n2, n3, n4⟩ := normLoss_nonneg s.k (by omega) m hm
  have hpow : 2 ^ (s.k + 1) = 2 * 2 ^ s.k := by rw [pow_succ]; ring
  unfold NormInv at hn ⊢
  unfold Pre at hp1
  have ea : preA (s.k + 1) = cos_lut.getD s.k 0 := rfl
  have eb : preB (s.k + 1) = sin_lut.getD s.k 0 := rfl
  rw [ea, eb] at hp1
  rcases d with ⟨d1, d2, d3, -⟩ | ⟨-, d2, d3, -⟩
  · refine ⟨2 * m + 1, by omega, ?_⟩
    rw [normLoss_odd]
    dsimp only
    have hX : 0 ≤ cos_lut.getD s.k 0 * s.x0 + sin_lut.getD s.k 0 * s.y0 :=
      add_nonneg (mul_nonneg (le_of_lt t1) hx0) (mul_nonneg t2 hy0)
    have hstep := commit_normSq_lower _ _ s.x0 s.y0 hX d1
    rw [← d2, ← d3] at hstep
    exact chain_commit _ _ _ _ Q0 (normSq s) (normSq (body s)) s.x0 (body s).x0 (body s).y0
      _ _ _ _ n2 n3 (by positivity) (le_of_lt t1) hn
      (by unfold normSq; linarith) hmono (by linarith)
  · refine ⟨2 * m, by omega, ?_⟩
    rw [normLoss_even]
    unfold normSq at hn ⊢
    rw [d2, d3]
    exact hn

end cordic8
namespace cordic8

/-- After `j` passes from the start of the loop the bound on the residual angle and, for
some set of committed passes, the lower bound on the squared length hold. -/
theorem loop_track {Q0 : Int} (j : Nat) {s : cordic8} (h : Inv Q0 s) (hk : s.k = 0)
    (hj : j ≤ 5) (hQ0 : 0 ≤ Q0) (hQ : Q0 ≤ 32767 ^ 2) (hp : Pre 0 s) (hn : Q0 ≤ normSq s) :
    Pre j (loop j s) ∧ ∃ m, m < 2 ^ j ∧ NormInv Q0 j m (loop j s) := by
  induction j with
  | zero =>
    refine ⟨hp, 0, by norm_num, ?_⟩
    show (1 : Int) * Q0 ≤ 1 * normSq s + 0 * s.x0 + 0
    linarith
  | succ n ih =>
    obtain ⟨p, m, hm, nm⟩ := ih (by omega)
    obtain ⟨i, kn⟩ := loop_prefix_inv n h (by omega) hQ0 hQ
    have kn' : (loop n s).k = n := by omega
    rw [loop_snoc n s (by omega)]
    have p0 : Pre (loop n s).k (loop n s) := by rw [kn']; exact p
    have nm0 : NormInv Q0 (loop n s).k m (loop n s) := by rw [kn']; exact nm
    have p1 := pre_step i (by omega) hQ0 hQ p0
    obtain ⟨m1, hm1, nm1⟩ := norm_step i (by omega) hQ0 hQ p1 m (by rw [kn']; exact hm) nm0
    rw [kn'] at p1 nm1 hm1
    exact ⟨p1, m1, hm1, nm1⟩

/-- For every set of committed passes the lower bound on the squared length, with the bound
on the residual angle after the last pass, leaves the length less than 16 above `x0`: the
three conditions of `quad_pos` for the difference, a quadratic in `x0`, at `M = 32767`. -/
theorem normLoss_final : ∀ m < 32,
    32758 ^ 2 * (normLoss 5 m).gain - (normLoss 5 m).scale * 32758 ^ 2
      - (normLoss 5 m).scale * 804 ^ 2 ≤ 0 ∧
    0 < 256 * 32758 ^ 2 * (normLoss 5 m).gain - (normLoss 5 m).scale * 39467 ^ 2
      - 32758 ^ 2 * (normLoss 5 m).const ∧
    0 < (32758 ^ 2 * (normLoss 5 m).gain - (normLoss 5 m).scale * 32758 ^ 2
        - (normLoss 5 m).scale * 804 ^ 2) * 32767 ^ 2
      + (32 * 32758 ^ 2 * (normLoss 5 m).gain - 2 * (normLoss 5 m).scale * 804 * 39467
        - 32758 ^ 2 * (normLoss 5 m).lin) * 32767
      + (256 * 32758 ^ 2 * (normLoss 5 m).gain - (normLoss 5 m).scale * 39467 ^ 2
        - 32758 ^ 2 * (normLoss 5 m).const) := by
  decide

/-- The last step of the lower bound on the radius: arithmetic. -/
theorem radius_lower_arith (G P E F Q0 X Y : Int) (hG : 0 < G) (hP : 0 ≤ P)
    (hX : 0 ≤ X) (hXM : X ≤ 32767) (hY : 0 ≤ Y) (hpre : 32758 * Y - 804 * X ≤ 39467)
    (hn : G * Q0 ≤ P * (X ^ 2 + Y ^ 2) + E * X + F)
    (hal : 32758 ^ 2 * G - P * 32758 ^ 2 - P * 804 ^ 2 ≤ 0)
    (hga : 0 < 256 * 32758 ^ 2 * G - P * 39467 ^ 2 - 32758 ^ 2 * F)
    (hM : 0 < (32758 ^ 2 * G - P * 32758 ^ 2 - P * 804 ^ 2) * 32767 ^ 2
      + (32 * 32758 ^ 2 * G - 2 * P * 804 * 39467 - 32758 ^ 2 * E) * 32767
      + (256 * 32758 ^ 2 * G - P * 39467 ^ 2 - 32758 ^ 2 * F)) :
    Q0 < (X + 16) ^ 2 := by
  have hq := quad_pos _ _ _ 32767 X hal hga hM hX hXM
  have hsq : (32758 * Y) ^ 2 ≤ (804 * X + 39467) ^ 2 :=
    pow_le_pow_left₀ (by omega) (by omega) 2
  have h1 : P * (32758 * Y) ^ 2 ≤ P * (804 * X + 39467) ^ 2 :=
    mul_le_mul_of_nonneg_left hsq hP
  have h2 : 32758 ^ 2 * (G * Q0) ≤ 32758 ^ 2 * (P * (X ^ 2 + Y ^ 2) + E * X + F) :=
    mul_le_mul_of_nonneg_left hn (by norm_num)
  have h3 : 32758 ^ 2 * G * Q0 < 32758 ^ 2 * G * (X + 16) ^ 2 := by nlinarith [h1, h2, hq]
  have hpos : (0 : Int) < 32758 ^ 2 * G := mul_pos (by norm_num) hG
  exact lt_of_mul_lt_mul_left h3 (le_of_lt hpos)

/-- In the safe range the squared length is below `(x0 + 16)^2` for the `x0` the loop ends
with. -/
theorem radius_lower (s : cordic8) (x y : Int) (h : x ^ 2 + y ^ 2 ≤ 32767 ^ 2) :
    x ^ 2 + y ^ 2 < ((loop 5 (init (fold s x y))).x0 + 16) ^ 2 := by
  obtain ⟨-, -, -, -, hI, hk, ex, ey⟩ := init_inv s x y h
  have hQ0 : 0 ≤ x ^ 2 + y ^ 2 := by positivity
  have hp : Pre 0 (init (fold s x y)) := by
    show (1 : Int) * (init (fold s x y)).y0 - 1 * (init (fold s x y)).x0 ≤ 0
    rw [ex, ey]
    have := le_trans (min_le_left |x| |y|) (le_max_left |x| |y|)
    linarith
  have hn : x ^ 2 + y ^ 2 ≤ normSq (init (fold s x y)) := by
    unfold normSq
    rw [ex, ey, max_min_sq, sq_abs, sq_abs]
  obtain ⟨p5, m, hm, n5⟩ := loop_track 5 hI hk (le_refl 5) hQ0 h hp hn
  obtain ⟨i5, -⟩ := loop_prefix_inv 5 hI (by omega) hQ0 h
  obtain ⟨-, rx, -⟩ := i5.range h
  obtain ⟨g1, g2, -, -⟩ := normLoss_nonneg 5 (by norm_num) m hm
  obtain ⟨c1, c2, c3⟩ := normLoss_final m hm
  exact radius_lower_arith _ _ _ _ _ _ _ g1 g2 i5.x0_nonneg rx i5.y0_nonneg p5 n5 c1 c2 c3

end cordic8
/-! ### The digits of the true angle are monotone in the direction -/

theorem angleDigits_lt (j : Nat) : ∀ x y : Int, angleDigits j x y < 2 ^ j := by
  induction j with
  | zero => intro x y; simp [angleDigits]
  | succ n ih =>
    intro x y
    unfold angleDigits
    split
    · have := ih (x * x - y * y + 2 * x * y) (2 * x * y - (x * x - y * y))
      rw [pow_succ]; omega
    · have := ih (x * x - y * y) (2 * x * y)
      rw [pow_succ]; omega

/-- For two first-octant vectors, the one that is not clockwise of the other has digits
that are not smaller. -/
theorem angleDigits_mono (j : Nat) : ∀ x y u v : Int, 0 < x → 0 ≤ y → y ≤ x → 0 < u → 0 ≤ v →
    v ≤ u → 0 ≤ x * v - y * u → angleDigits j x y ≤ angleDigits j u v := by
  induction j with
  | zero => intro x y u v _ _ _ _ _ _ _; simp [angleDigits]
  | succ n ih =>
    intro x y u v hx hy hyx hu hv hvu hc
    have rez : 0 ≤ x * x - y * y := by nlinarith
    have rew : 0 ≤ u * u - v * v := by nlinarith
    have imz : 0 ≤ 2 * x * y := by positivity
    have imw : 0 ≤ 2 * u * v := by positivity
    have hdot : 0 ≤ x * u + y * v := by positivity
    have hcross : (x * x - y * y) * (2 * u * v) - (2 * x * y) * (u * u - v * v) =
        2 * ((x * v - y * u) * (x * u + y * v)) := by ring
    have hcr : 0 ≤ (x * x - y * y) * (2 * u * v) - (2 * x * y) * (u * u - v * v) := by
      rw [hcross]; positivity
    unfold angleDigits
    by_cases hz : x * x - y * y ≤ 2 * x * y
    · by_cases hw : u * u - v * v ≤ 2 * u * v
      · rw [if_pos hz, if_pos hw]
        have hxx : 0 < x * x := mul_pos hx hx
        have huu : 0 < u * u := mul_pos hu hu
        have hyy : y * y ≤ x * x := by nlinarith
        have hvv : v * v ≤ u * u := by nlinarith
        have := ih (x * x - y * y + 2 * x * y) (2 * x * y - (x * x - y * y))
          (u * u - v * v + 2 * u * v) (2 * u * v - (u * u - v * v))
          (by
            rcases eq_or_lt_of_le hy with h0 | h0
            · rw [← h0]; simp; exact ne_of_gt hx
            · have : 0 < 2 * x * y := by positivity
              linarith)
          (by linarith) (by linarith)
          (by
            rcases eq_or_lt_of_le hv with h0 | h0
            · rw [← h0]; simp; exact ne_of_gt hu
            · have : 0 < 2 * u * v := by positivity
              linarith)
          (by linarith) (by linarith) (by nlinarith [hcr])
        omega
      · exfalso
        rw [not_le] at hw
        have h1 : 0 < 2 * x * y := by
          rcases eq_or_lt_of_le imz with h0 | h0
          · have hxx : 0 < x * x := mul_pos hx hx
            have : x * x - y * y ≤ 0 := by rw [h0]; exact hz
            have hy0 : y = 0 := by
              rcases eq_or_lt_of_le hy with e | e
              · exact e.symm
              · exfalso
                have : 0 < 2 * x * y := by positivity
                omega
            rw [hy0] at this
            simp at this
            omega
          · exact h0
        nlinarith [mul_le_mul_of_nonneg_right hz imw, mul_lt_mul_of_pos_left hw h1]
    · by_cases hw : u * u - v * v ≤ 2 * u * v
      · rw [if_neg hz, if_pos hw]
        have := angleDigits_lt n (x * x - y * y) (2 * x * y)
        omega
      · rw [if_neg hz, if_neg hw]
        rw [not_le] at hz hw
        exact ih (x * x - y * y) (2 * x * y) (u * u - v * v) (2 * u * v)
          (by linarith) imz (le_of_lt hz) (by linarith) imw (le_of_lt hw) hcr
/-! ### Directions that bound the vector, pass by pass -/

namespace cordic8

theorem loDir_commit (j q : Nat) :
    loDir (j + 1) (q + 2 ^ j) =
      ((loDir j q).1 * cos_lut.getD (4 - j) 0 - (loDir j q).2 * sin_lut.getD (4 - j) 0,
        (loDir j q).1 * sin_lut.getD (4 - j) 0 + (loDir j q).2 * cos_lut.getD (4 - j) 0
          - (32767 * (loDir j q).2 + (minX0 - 1)) / minX0) := by
  have h1 : 2 ^ j ≤ q + 2 ^ j := by omega
  have h2 : q + 2 ^ j - 2 ^ j = q := by omega
  rw [loDir, if_pos h1, h2]

theorem loDir_discard (j q : Nat) (h : q < 2 ^ j) : loDir (j + 1) q = loDir j q := by
  rw [loDir, if_neg (by omega)]

theorem hiDir_commit (j q : Nat) :
    hiDir (j + 1) (q + 2 ^ j) =
      ((hiDir j q).1 * cos_lut.getD (4 - j) 0 - (hiDir j q).2 * sin_lut.getD (4 - j) 0,
        (hiDir j q).1 * sin_lut.getD (4 - j) 0 + (hiDir j q).2 * cos_lut.getD (4 - j) 0
          + (32767 * (hiDir j q).1 + (minX0 - 1)) / minX0) := by
  have h1 : 2 ^ j ≤ q + 2 ^ j := by omega
  have h2 : q + 2 ^ j - 2 ^ j = q := by omega
  rw [hiDir, if_pos h1, h2]

theorem hiDir_discard (j q : Nat) (h : q < 2 ^ j) : hiDir (j + 1) q = hiDir j q := by
  rw [hiDir, if_neg (by omega)]

theorem dir_nonneg : ∀ j < 6, ∀ q < 2 ^ j,
    0 ≤ (loDir j q).1 ∧ 0 ≤ (loDir j q).2 ∧ 0 ≤ (hiDir j q).1 ∧ 0 ≤ (hiDir j q).2 := by
  decide

/-- The directions for the whole loop against the true angle: the lower direction for the
committed passes `q` has at least `q - 1` whole units, the upper direction at most `q + 1`
and lies below the diagonal. -/
theorem dir_digits : ∀ q < 32,
    (0 < (loDir 5 q).1 ∧ (loDir 5 q).2 ≤ (loDir 5 q).1 ∧
      q ≤ angleDigits 5 (loDir 5 q).1 (loDir 5 q).2 + 1) ∧
    (q < 31 → 0 < (hiDir 5 q).1 ∧ (hiDir 5 q).2 < (hiDir 5 q).1 ∧
      angleDigits 5 (hiDir 5 q).1 (hiDir 5 q).2 ≤ q + 1) := by
  decide

/-- A committed pass takes a lower direction for the new vector to one for the old. -/
theorem lo_step (a b c sn X Y X1 Y1 : Int) (ha : 0 ≤ a) (hb : 0 ≤ b) (hX : minX0 ≤ X)
    (hX1 : c * X + sn * Y ≤ 32768 * X1 + 32767) (hY1 : 32768 * Y1 ≤ c * Y - sn * X)
    (h : 0 ≤ a * Y1 - b * X1) :
    0 ≤ (a * c - b * sn) * Y
      - (a * sn + b * c - (32767 * b + (minX0 - 1)) / minX0) * X := by
  unfold minX0 at hX ⊢
  have hs : 32767 * b ≤ 207 * ((32767 * b + (207 - 1)) / 207) := by omega
  have hs0 : 0 ≤ (32767 * b + (207 - 1)) / 207 := by omega
  generalize (32767 * b + (207 - 1)) / 207 = sg at hs hs0 ⊢
  have h1 : a * (32768 * Y1) ≤ a * (c * Y - sn * X) := mul_le_mul_of_nonneg_left hY1 ha
  have h2 : b * (c * X + sn * Y) ≤ b * (32768 * X1 + 32767) :=
    mul_le_mul_of_nonneg_left hX1 hb
  have h3 : sg * 207 ≤ sg * X := mul_le_mul_of_nonneg_left hX hs0
  nlinarith [h1, h2, h3, hs, h]

/-- A committed pass takes an upper direction for the new vector to one for the old. -/
theorem hi_step (a b c sn X Y X1 Y1 : Int) (ha : 0 ≤ a) (hb : 0 ≤ b) (hX : minX0 ≤ X)
    (hX1 : 32768 * X1 ≤ c * X + sn * Y) (hY1 : c * Y - sn * X ≤ 32768 * Y1 + 32767)
    (h : a * Y1 - b * X1 ≤ 0) :
    (a * c - b * sn) * Y
      - (a * sn + b * c + (32767 * a + (minX0 - 1)) / minX0) * X ≤ 0 := by
  unfold minX0 at hX ⊢
  have hs : 32767 * a ≤ 207 * ((32767 * a + (207 - 1)) / 207) := by omega
  have hs0 : 0 ≤ (32767 * a + (207 - 1)) / 207 := by omega
  generalize (32767 * a + (207 - 1)) / 207 = sg at hs hs0 ⊢
  have h1 : a * (c * Y - sn * X) ≤ a * (32768 * Y1 + 32767) :=
    mul_le_mul_of_nonneg_left hY1 ha
  have h2 : b * (32768 * X1) ≤ b * (c * X + sn * Y) := mul_le_mul_of_nonneg_left hX1 hb
  have h3 : sg * 207 ≤ sg * X := mul_le_mul_of_nonneg_left hX hs0
  nlinarith [h1, h2, h3, hs, h]

end cordic8
namespace cordic8

/-- The last `j` passes of the loop: the passes they commit give directions that bound the
vector before them. -/
theorem wedge {Q0 : Int} (hQ0 : 0 ≤ Q0) (hQ : Q0 ≤ 32767 ^ 2) (j : Nat) :
    ∀ s : cordic8, Inv Q0 s → s.k + j = 5 → s.currentAngle = 2 ^ j / 2 →
      s.phi + 2 ^ j ≤ 32 → minX0 ≤ s.x0 →
      (hiDir 0 0).1 * (loop j s).y0 - (hiDir 0 0).2 * (loop j s).x0 ≤ 0 →
      ∃ q, q < 2 ^ j ∧ (loop j s).phi = s.phi + q ∧
        0 ≤ (loDir j q).1 * s.y0 - (loDir j q).2 * s.x0 ∧
        (hiDir j q).1 * s.y0 - (hiDir j q).2 * s.x0 ≤ 0 := by
  induction j with
  | zero =>
    intro s hI _ _ _ _ hhi
    refine ⟨0, by norm_num, rfl, ?_, hhi⟩
    show 0 ≤ (1 : Int) * s.y0 - 0 * s.x0
    have := hI.y0_nonneg
    linarith
  | succ n ih =>
    intro s hI hk ha hp hx hhi
    have hk4 : s.k ≤ 4 := by omega
    have e : loop (n + 1) s = loop n (body s) := by
      show (if s.k ≤ 4 then loop n (body s) else s) = _
      rw [if_pos hk4]
    rw [e] at hhi ⊢
    have hpow : 2 ^ (n + 1) = 2 * 2 ^ n := by rw [pow_succ]; ring
    have ha' : s.currentAngle = 2 ^ n := by rw [ha, hpow]; omega
    have hkn : s.k = 4 - n := by omega
    obtain ⟨-, -, hmono, -, -, -⟩ := body_spec hI hk4 hQ0 hQ
    obtain ⟨i1, k1, a1, d⟩ := step hI hQ0 hQ s.k (2 ^ n) s.phi _ _ rfl hk4 ha' rfl
      (by omega) rfl rfl
    have hx0 := hI.x0_nonneg
    have hy0 := hI.y0_nonneg
    obtain ⟨t1, t2, -⟩ := tab_mono s.k (by omega)
    rcases d with ⟨d1, d2, d3, d4⟩ | ⟨d1, d2, d3, d4⟩
    · obtain ⟨q, hq, hphi, hlo, hhi1⟩ := ih (body s) i1 (by omega) a1 (by omega)
        (by omega) hhi
      obtain ⟨n1, n2, n3, n4⟩ := dir_nonneg n (by omega) q hq
      refine ⟨q + 2 ^ n, by omega, by omega, ?_, ?_⟩
      · rw [loDir_commit, ← hkn]
        dsimp only
        exact lo_step _ _ _ _ s.x0 s.y0 (body s).x0 (body s).y0 n1 n2 hx
          (by rw [d2]; omega) (by rw [d3]; omega) hlo
      · rw [hiDir_commit, ← hkn]
        dsimp only
        exact hi_step _ _ _ _ s.x0 s.y0 (body s).x0 (body s).y0 n3 n4 hx
          (by rw [d2]; omega) (by rw [d3]; omega) hhi1
    · obtain ⟨q, hq, hphi, hlo, hhi1⟩ := ih (body s) i1 (by omega) a1 (by omega)
        (by omega) hhi
      refine ⟨q, by omega, by omega, ?_, ?_⟩
      · rw [loDir_discard n q hq, ← d2, ← d3]; exact hlo
      · rw [hiDir_discard n q hq, ← d2, ← d3]; exact hhi1

end cordic8
namespace cordic8

/-- For a vector in the safe range whose larger coordinate is at least `minX0`, `phi` at the
end of the loop is within 1 of the integer part of the true angle of the folded vector. -/
theorem phi_accuracy_long (s : cordic8) (x y : Int) (h : x ^ 2 + y ^ 2 ≤ 32767 ^ 2)
    (hx : minX0 ≤ max |x| |y|) :
    trueOctant (max |x| |y|) (min |x| |y|) ≤ (loop 5 (init (fold s x y))).phi + 1 ∧
    (loop 5 (init (fold s x y))).phi ≤ trueOctant (max |x| |y|) (min |x| |y|) + 1 := by
  obtain ⟨-, -, -, -, hI, hk, ex, ey⟩ := init_inv s x y h
  have hQ0 : 0 ≤ x ^ 2 + y ^ 2 := by positivity
  have hyx : min |x| |y| ≤ max |x| |y| := le_trans (min_le_left _ _) (le_max_left _ _)
  have hy0 : 0 ≤ min |x| |y| := le_min (abs_nonneg x) (abs_nonneg y)
  have hp : Pre 0 (init (fold s x y)) := by
    show (1 : Int) * (init (fold s x y)).y0 - 1 * (init (fold s x y)).x0 ≤ 0
    rw [ex, ey]
    linarith
  have hn : x ^ 2 + y ^ 2 ≤ normSq (init (fold s x y)) := by
    unfold normSq
    rw [ex, ey, max_min_sq, sq_abs, sq_abs]
  obtain ⟨p5, -⟩ := loop_track 5 hI hk (le_refl 5) hQ0 h hp hn
  obtain ⟨i5, hmono⟩ := loop_inv hI hk hQ0 h
  have hy5 := i5.y0_nonneg
  rw [ex] at hmono
  have hhi : (hiDir 0 0).1 * (loop 5 (init (fold s x y))).y0
      - (hiDir 0 0).2 * (loop 5 (init (fold s x y))).x0 ≤ 0 := by
    unfold Pre at p5
    unfold minX0 at hx
    simp only [hiDir, preA, preB, preE, minX0, sin_lut, cos_lut, List.getD_cons_zero,
      List.getD_cons_succ] at p5 ⊢
    omega
  obtain ⟨q, hq, hphi, hlo, hup⟩ := wedge hQ0 h 5 (init (fold s x y)) hI (by omega) rfl
    (by show 0 + 2 ^ 5 ≤ 32; norm_num) (by rw [ex]; exact hx) hhi
  rw [ex, ey] at hlo hup
  have hphi' : (loop 5 (init (fold s x y))).phi = q := by
    rw [hphi]; show 0 + q = q; omega
  rw [hphi']
  obtain ⟨n1, n2, n3, n4⟩ := dir_nonneg 5 (by norm_num) q hq
  obtain ⟨⟨l1, l2, l3⟩, hu⟩ := dir_digits q hq
  have hX0 : 0 < max |x| |y| := by unfold minX0 at hx; omega
  generalize max |x| |y| = X at *
  generalize min |x| |y| = Y at *
  unfold trueOctant
  by_cases hd : X ≤ Y
  · rw [if_pos hd]
    have hXY : X = Y := le_antisymm hd hyx
    have hq31 : ¬ q < 31 := by
      intro hlt
      obtain ⟨u1, u2, -⟩ := hu hlt
      rw [← hXY] at hup
      nlinarith
    omega
  · rw [if_neg hd]
    have m1 := angleDigits_mono 5 _ _ X Y l1 n2 l2 hX0 hy0 hyx hlo
    refine ⟨?_, by omega⟩
    by_cases hlt : q < 31
    · obtain ⟨u1, u2, u3⟩ := hu hlt
      have m2 := angleDigits_mono 5 X Y _ _ hX0 hy0 hyx u1 n4 (le_of_lt u2) (by linarith)
      omega
    · have := angleDigits_lt 5 X Y
      omega

end cordic8
/-! ### Short vectors, by evaluation -/

set_option maxRecDepth 100000

namespace cordic8

theorem phiOkRange_spec (lo n : Nat) (h : phiOkRange lo n = true) (X Y : Nat) (h1 : lo ≤ X)
    (h2 : X < lo + n) (hY : Y ≤ X) : phiOk X Y = true := by
  unfold phiOkRange at h
  rw [List.all_eq_true] at h
  have h3 := h (X - lo) (List.mem_range.2 (by omega))
  rw [List.all_eq_true] at h3
  have h4 := h3 Y (List.mem_range.2 (by omega))
  have e : lo + (X - lo) = X := by omega
  rw [e] at h4
  exact h4

theorem phi_short_0 : phiOkRange 67 10 = true := by decide!

theorem phi_short_1 : phiOkRange 77 10 = true := by decide!

theorem phi_short_2 : phiOkRange 87 10 = true := by decide!

theorem phi_short_3 : phiOkRange 97 10 = true := by decide!

theorem phi_short_4 : phiOkRange 107 10 = true := by decide!

theorem phi_short_5 : phiOkRange 117 10 = true := by decide!

theorem phi_short_6 : phiOkRange 127 10 = true := by decide!

theorem phi_short_7 : phiOkRange 137 10 = true := by decide!

theorem phi_short_8 : phiOkRange 147 10 = true := by decide!

theorem phi_short_9 : phiOkRange 157 10 = true := by decide!

theorem phi_short_10 : phiOkRange 167 10 = true := by decide!

theorem phi_short_11 : phiOkRange 177 10 = true := by decide!

theorem phi_short_12 : phiOkRange 187 10 = true := by decide!

theorem phi_short_13 : phiOkRange 197 10 = true := by decide!

/-- Every folded vector longer than `(66, 66)` with `x0 < 207` has `phi` within 1 of the
integer part of the true angle. -/
theorem phi_short (X Y : Nat) (hX : X < 207) (hY : Y ≤ X) (hl : 8712 < X * X + Y * Y) :
    trueOctantN X Y ≤ fastPhi X Y + 1 ∧ fastPhi X Y ≤ trueOctantN X Y + 1 := by
  have h67 : 67 ≤ X := by
    by_contra hc
    have h1 : X ≤ 66 := by omega
    have h2 : X * X ≤ 66 * 66 := Nat.mul_le_mul h1 h1
    have h3 : Y * Y ≤ 66 * 66 := Nat.mul_le_mul (by omega) (by omega)
    omega
  have hok : phiOk X Y = true := by
    have hc : (X - 67) / 10 < 14 := by omega
    interval_cases hi : (X - 67) / 10
    · exact phiOkRange_spec 67 10 phi_short_0 X Y (by omega) (by omega) hY
    · exact phiOkRange_spec 77 10 phi_short_1 X Y (by omega) (by omega) hY
    · exact phiOkRange_spec 87 10 phi_short_2 X Y (by omega) (by omega) hY
    · exact phiOkRange_spec 97 10 phi_short_3 X Y (by omega) (by omega) hY
    · exact phiOkRange_spec 107 10 phi_short_4 X Y (by omega) (by omega) hY
    · exact phiOkRange_spec 117 10 phi_short_5 X Y (by omega) (by omega) hY
    · exact phiOkRange_spec 127 10 phi_short_6 X Y (by omega) (by omega) hY
    · exact phiOkRange_spec 137 10 phi_short_7 X Y (by omega) (by omega) hY
    · exact phiOkRange_spec 147 10 phi_short_8 X Y (by omega) (by omega) hY
    · exact phiOkRange_spec 157 10 phi_short_9 X Y (by omega) (by omega) hY
    · exact phiOkRange_spec 167 10 phi_short_10 X Y (by omega) (by omega) hY
    · exact phiOkRange_spec 177 10 phi_short_11 X Y (by omega) (by omega) hY
    · exact phiOkRange_spec 187 10 phi_short_12 X Y (by omega) (by omega) hY
    · exact phiOkRange_spec 197 10 phi_short_13 X Y (by omega) (by omega) hY
  unfold phiOk within1 at hok
  rw [Bool.or_eq_true, Bool.and_eq_true, Nat.ble_eq, Nat.ble_eq, Nat.ble_eq] at hok
  rcases hok with hok | hok
  · omega
  · exact hok

end cordic8
/-! ### The evaluation on natural numbers agrees with the model -/

theorem angleDigitsN_cast (j : Nat) : ∀ x y : Nat, y ≤ x →
    angleDigitsN j x y = angleDigits j (x : Int) (y : Int) := by
  induction j with
  | zero => intro x y _; rfl
  | succ n ih =>
    intro x y hyx
    have hsq : y * y ≤ x * x := Nat.mul_le_mul hyx hyx
    have e1 : ((x * x - y * y : Nat) : Int) = (x : Int) * x - (y : Int) * y := by
      rw [Nat.cast_sub hsq]; push_cast; ring
    have e2 : ((2 * x * y : Nat) : Int) = 2 * (x : Int) * y := by push_cast; ring
    unfold angleDigitsN angleDigits
    simp only [Bool.cond_eq_ite, Nat.ble_eq]
    by_cases hc : x * x - y * y ≤ 2 * x * y
    · have hc' : (x : Int) * x - (y : Int) * y ≤ 2 * (x : Int) * y := by
        rw [← e1, ← e2]; exact_mod_cast hc
      rw [if_pos hc, if_pos hc']
      have := ih (x * x - y * y + 2 * x * y) (2 * x * y - (x * x - y * y)) (by omega)
      rw [this]
      have e3 : ((x * x - y * y + 2 * x * y : Nat) : Int) =
          (x : Int) * x - (y : Int) * y + 2 * (x : Int) * y := by
        rw [Nat.cast_add, e1, e2]
      have e4 : ((2 * x * y - (x * x - y * y) : Nat) : Int) =
          2 * (x : Int) * y - ((x : Int) * x - (y : Int) * y) := by
        rw [Nat.cast_sub hc, e1, e2]
      rw [e3, e4]
    · have hc' : ¬ (x : Int) * x - (y : Int) * y ≤ 2 * (x : Int) * y := by
        rw [← e1, ← e2]; exact_mod_cast hc
      rw [if_neg hc, if_neg hc']
      have := ih (x * x - y * y) (2 * x * y) (by omega)
      rw [this, e1, e2]

theorem trueOctantN_cast (x y : Nat) (hyx : y ≤ x) :
    trueOctantN x y = trueOctant (x : Int) (y : Int) := by
  unfold trueOctantN trueOctant
  simp only [Bool.cond_eq_ite, Nat.ble_eq]
  by_cases h : x ≤ y
  · rw [if_pos h, if_pos (by exact_mod_cast h)]
  · rw [if_neg h, if_neg (by exact_mod_cast h), angleDigitsN_cast 5 x y hyx]

namespace cordic8

/-- One pass of the loop agrees with `octStep` on a state that satisfies the invariant. -/
theorem oct_step {Q0 : Int} {s : cordic8} (hI : Inv Q0 s) (hQ0 : 0 ≤ Q0)
    (hQ : Q0 ≤ 32767 ^ 2) (hk4 : s.k ≤ 4) (ha : s.currentAngle = 2 ^ (4 - s.k))
    (hpa : s.phi + 2 ^ (5 - s.k) ≤ 32) (st : Nat × Nat × Nat) (h1 : s.x0 = st.1)
    (h2 : s.y0 = st.2.1) (h3 : s.phi = st.2.2) :
    Inv Q0 (body s) ∧ (body s).k = s.k + 1 ∧
    (body s).currentAngle = 2 ^ (4 - (s.k + 1)) / (if s.k = 4 then 2 else 1) ∧
    (body s).phi + 2 ^ (5 - (s.k + 1)) ≤ 32 ∧
    (body s).x0 = (octStep s.k st).1 ∧ (body s).y0 = (octStep s.k st).2.1 ∧
    (body s).phi = (octStep s.k st).2.2 := by
  have hk' : s.k = 0 ∨ s.k = 1 ∨ s.k = 2 ∨ s.k = 3 ∨ s.k = 4 := by omega
  obtain ⟨i1, k1, a1, d⟩ := step hI hQ0 hQ s.k (2 ^ (4 - s.k)) s.phi _ _ rfl hk4 ha rfl
    (by rcases hk' with e | e | e | e | e <;> rw [e] at hpa ⊢ <;> norm_num at hpa ⊢ <;> omega)
    rfl rfl
  refine ⟨i1, k1, ?_, ?_, ?_⟩
  · rw [a1]
    rcases hk' with e | e | e | e | e <;> rw [e] <;> norm_num
  · rcases d with ⟨-, -, -, d4⟩ | ⟨-, -, -, d4⟩ <;> rw [d4] <;>
      rcases hk' with e | e | e | e | e <;> rw [e] at hpa ⊢ <;> norm_num at hpa ⊢ <;> omega
  · unfold octStep
    rcases hk' with e | e | e | e | e <;> rw [e] at d ⊢ <;>
      simp only [sin_lut, cos_lut, List.getD_cons_zero, List.getD_cons_succ, Int.reduceToNat,
        Nat.reduceSub, Nat.reducePow] at d ⊢ <;>
      rw [h1, h2, h3] at d <;>
      rcases d with ⟨d1, d2, d3, d4⟩ | ⟨d1, d2, d3, d4⟩ <;>
      rw [d2, d3, d4] <;>
      split <;> first | (exfalso; omega) | (refine ⟨?_, ?_, ?_⟩ <;> dsimp only <;> omega)

theorem pass_octStep (k : Nat) (rest : Nat → Nat → Nat → Nat) (x y p : Nat) :
    pass (cos_lut.getD k 0).toNat (sin_lut.getD k 0).toNat (2 ^ (4 - k)) rest x y p =
      rest (octStep k (x, y, p)).1 (octStep k (x, y, p)).2.1 (octStep k (x, y, p)).2.2 := by
  unfold pass octStep
  simp only [Bool.cond_eq_ite, Nat.ble_eq]
  by_cases h : (sin_lut.getD k 0).toNat * x ≤ (cos_lut.getD k 0).toNat * y
  · simp only [if_pos h]
  · simp only [if_neg h]

/-- The passes of `fastPhi` are those of `octStep`. -/
theorem fastPhi_eq (X Y : Nat) :
    fastPhi X Y = (octStep 4 (octStep 3 (octStep 2 (octStep 1 (octStep 0 (X, Y, 0)))))).2.2 := by
  have h0 := pass_octStep 0
  have h1 := pass_octStep 1
  have h2 := pass_octStep 2
  have h3 := pass_octStep 3
  have h4 := pass_octStep 4
  simp only [sin_lut, cos_lut, List.getD_cons_zero, List.getD_cons_succ, Int.reduceToNat,
    Nat.reduceSub, Nat.reducePow] at h0 h1 h2 h3 h4
  unfold fastPhi
  rw [h0, h1, h2, h3, h4]

/-- The loop agrees with `fastPhi` on a state that satisfies the invariant. -/
theorem loop_phi_fast {Q0 : Int} {s : cordic8} (hI : Inv Q0 s) (hk : s.k = 0)
    (ha : s.currentAngle = 16) (hp : s.phi = 0) (hQ0 : 0 ≤ Q0) (hQ : Q0 ≤ 32767 ^ 2)
    (X Y : Nat) (hX : s.x0 = X) (hY : s.y0 = Y) : (loop 5 s).phi = fastPhi X Y := by
  rw [(loop_unroll s hk).1, fastPhi_eq]
  obtain ⟨i1, k1, a1, p1, x1, y1, f1⟩ := oct_step hI hQ0 hQ (by omega)
    (by rw [ha, hk]; rfl) (by rw [hp, hk]; norm_num) (X, Y, 0) hX hY hp
  rw [hk] at k1 a1 p1 x1 y1 f1
  obtain ⟨i2, k2, a2, p2, x2, y2, f2⟩ := oct_step i1 hQ0 hQ (by omega)
    (by rw [a1, k1]; norm_num) (by rw [k1]; exact p1) _ x1 y1 f1
  rw [k1] at k2 a2 p2 x2 y2 f2
  obtain ⟨i3, k3, a3, p3, x3, y3, f3⟩ := oct_step i2 hQ0 hQ (by omega)
    (by rw [a2, k2]; norm_num) (by rw [k2]; exact p2) _ x2 y2 f2
  rw [k2] at k3 a3 p3 x3 y3 f3
  obtain ⟨i4, k4, a4, p4, x4, y4, f4⟩ := oct_step i3 hQ0 hQ (by omega)
    (by rw [a3, k3]; norm_num) (by rw [k3]; exact p3) _ x3 y3 f3
  rw [k3] at k4 a4 p4 x4 y4 f4
  obtain ⟨-, -, -, -, -, -, f5⟩ := oct_step i4 hQ0 hQ (by omega)
    (by rw [a4, k4]; norm_num) (by rw [k4]; exact p4) _ x4 y4 f4
  rw [k4] at f5
  exact f5

end cordic8
namespace cordic8

/-- For every vector in the safe range longer than `(66, 66)`, `phi` at the end of the loop
is within 1 of the integer part of the true angle of the folded vector. -/
theorem phi_accuracy (s : cordic8) (x y : Int) (h : x ^ 2 + y ^ 2 ≤ 32767 ^ 2)
    (hl : 8712 < x ^ 2 + y ^ 2) :
    trueOctant (max |x| |y|) (min |x| |y|) ≤ (loop 5 (init (fold s x y))).phi + 1 ∧
    (loop 5 (init (fold s x y))).phi ≤ trueOctant (max |x| |y|) (min |x| |y|) + 1 := by
  by_cases hx : minX0 ≤ max |x| |y|
  · exact phi_accuracy_long s x y h hx
  · obtain ⟨-, -, -, -, hI, hk, ex, ey⟩ := init_inv s x y h
    have hQ0 : 0 ≤ x ^ 2 + y ^ 2 := by positivity
    have hyx : min |x| |y| ≤ max |x| |y| := le_trans (min_le_left _ _) (le_max_left _ _)
    have hy0 : 0 ≤ min |x| |y| := le_min (abs_nonneg x) (abs_nonneg y)
    have hsq := max_min_sq |x| |y|
    rw [sq_abs, sq_abs] at hsq
    unfold minX0 at hx
    generalize max |x| |y| = X at *
    generalize min |x| |y| = Y at *
    have eX : ((X.toNat : Nat) : Int) = X := Int.toNat_of_nonneg (by omega)
    have eY : ((Y.toNat : Nat) : Int) = Y := Int.toNat_of_nonneg hy0
    have hfast := loop_phi_fast hI hk rfl rfl hQ0 h X.toNat Y.toNat (by rw [ex, eX])
      (by rw [ey, eY])
    have hlen : 8712 < X.toNat * X.toNat + Y.toNat * Y.toNat := by
      have : (8712 : Int) < (X.toNat : Int) * X.toNat + (Y.toNat : Int) * Y.toNat := by
        rw [eX, eY]; nlinarith
      exact_mod_cast this
    have hs := phi_short X.toNat Y.toNat (by omega) (by omega) hlen
    rw [trueOctantN_cast _ _ (by omega), eX, eY, ← hfast] at hs
    exact hs

theorem angleDigits_axis (j : Nat) : ∀ x : Int, 0 < x → angleDigits j x 0 = 0 := by
  induction j with
  | zero => intro x _; rfl
  | succ n ih =>
    intro x hx
    have hxx : 0 < x * x := mul_pos hx hx
    unfold angleDigits
    rw [if_neg (by simp; exact ne_of_gt hx)]
    have := ih (x * x - 0 * 0) (by simpa using hxx)
    simpa using this

/-- On an axis no pass commits: `phi = 0`. -/
theorem phi_axis (s : cordic8) (x y : Int) (hne : ¬ (x = 0 ∧ y = 0))
    (hx1 : -32767 ≤ x) (hx2 : x ≤ 32767) (hy1 : -32767 ≤ y) (hy2 : y ≤ 32767)
    (h0 : x = 0 ∨ y = 0) : (loop 5 (init (fold s x y))).phi = 0 := by
  obtain ⟨f1, f2, -, -⟩ := fold_eq s x y hx1 hx2 hy1 hy2
  have hax : |x| ≤ 32767 := abs_le.2 ⟨hx1, hx2⟩
  have hay : |y| ≤ 32767 := abs_le.2 ⟨hy1, hy2⟩
  have hy0 : (init (fold s x y)).y0 = 0 := by
    show (fold s x y).y0 = 0
    rw [f2]
    rcases h0 with h0 | h0 <;> rw [h0, abs_zero]
    · exact min_eq_left (abs_nonneg y)
    · exact min_eq_right (abs_nonneg x)
  have hx0 : 1 ≤ (init (fold s x y)).x0 ∧ (init (fold s x y)).x0 ≤ 32767 := by
    show 1 ≤ (fold s x y).x0 ∧ (fold s x y).x0 ≤ 32767
    rw [f1]
    refine ⟨?_, max_le hax hay⟩
    rcases h0 with h0 | h0
    · have : 1 ≤ |y| := by
        rcases abs_cases y with ⟨e, e2⟩ | ⟨e, e2⟩ <;> rw [e] <;> omega
      exact le_trans this (le_max_right _ _)
    · have : 1 ≤ |x| := by
        rcases abs_cases x with ⟨e, e2⟩ | ⟨e, e2⟩ <;> rw [e] <;> omega
      exact le_trans this (le_max_left _ _)
  exact (loop_axis _ rfl hy0 hx0.1 hx0.2).2

end cordic8
/-! ### The angle in the whole plane -/

/-- The integer part of the true angle in the first quadrant from that of the folded
vector. -/
theorem trueQuadrant_eq (X Y : Int) :
    (trueQuadrant X Y : Int) =
      if Y ≤ X then (trueOctant (max X Y) (min X Y) : Int)
      else 63 - (trueOctant (max X Y) (min X Y) : Int) := by
  unfold trueQuadrant
  by_cases h : Y ≤ X
  · rw [if_pos h, if_pos h, max_eq_left h, min_eq_right h]
  · rw [if_neg h, if_neg h, max_eq_right (by omega), min_eq_left (by omega)]
    unfold trueOctant
    rw [if_neg h]
    have := angleDigits_lt 5 Y X
    omega

/-- The integer part of the true angle from that of the folded vector. -/
theorem trueAngle256_eq (x y : Int) (hne : ¬ (x = 0 ∧ y = 0)) :
    (trueAngle256 x y : Int) =
      if 0 < x ∧ 0 ≤ y then
        (if y ≤ x then (trueOctant (max |x| |y|) (min |x| |y|) : Int)
          else 63 - (trueOctant (max |x| |y|) (min |x| |y|) : Int))
      else if x ≤ 0 ∧ 0 < y then
        64 + (if -x ≤ y then (trueOctant (max |x| |y|) (min |x| |y|) : Int)
          else 63 - (trueOctant (max |x| |y|) (min |x| |y|) : Int))
      else if x < 0 ∧ y ≤ 0 then
        128 + (if -y ≤ -x then (trueOctant (max |x| |y|) (min |x| |y|) : Int)
          else 63 - (trueOctant (max |x| |y|) (min |x| |y|) : Int))
      else
        192 + (if x ≤ -y then (trueOctant (max |x| |y|) (min |x| |y|) : Int)
          else 63 - (trueOctant (max |x| |y|) (min |x| |y|) : Int)) := by
  unfold trueAngle256
  by_cases h1 : 0 < x ∧ 0 ≤ y
  · rw [if_pos h1, if_pos h1, trueQuadrant_eq x y, abs_of_pos h1.1,
      abs_of_nonneg h1.2]
  · rw [if_neg h1, if_neg h1]
    by_cases h2 : x ≤ 0 ∧ 0 < y
    · rw [if_pos h2, if_pos h2, Nat.cast_add, trueQuadrant_eq y (-x),
        abs_of_nonpos h2.1, abs_of_pos h2.2, max_comm, min_comm]
      rfl
    · rw [if_neg h2, if_neg h2]
      by_cases h3 : x < 0 ∧ y ≤ 0
      · rw [if_pos h3, if_pos h3, Nat.cast_add, trueQuadrant_eq (-x) (-y), abs_of_neg h3.1, abs_of_nonpos h3.2]
        rfl
      · rw [if_neg h3, if_neg h3]
        have hx : 0 ≤ x := by omega
        have hy : y < 0 := by omega
        rw [Nat.cast_add, trueQuadrant_eq (-y) x, abs_of_nonneg hx,
          abs_of_neg hy, max_comm, min_comm]
        rfl

namespace cordic8

/-- For every vector in the safe range longer than `(66, 66)` the returned angle is, modulo
256, between 1 below and 2 above the integer part of the true angle. -/
theorem angle_accuracy (s : cordic8) (x y : Int) (h : x ^ 2 + y ^ 2 ≤ 32767 ^ 2)
    (hl : 8712 < x ^ 2 + y ^ 2) :
    (((atan2sqrt s x y).angle : Int) - (trueAngle256 x y : Int) + 1) % 256 ≤ 3 := by
  obtain ⟨hx1, hx2, hy1, hy2, -⟩ := init_inv s x y h
  have hne : ¬ (x = 0 ∧ y = 0) := by
    rintro ⟨rfl, rfl⟩
    norm_num at hl
  obtain ⟨-, -, f3, f4⟩ := fold_eq s x y hx1 hx2 hy1 hy2
  obtain ⟨hacc1, hacc2⟩ := phi_accuracy s x y h hl
  have hp := loop_phi_le (init (fold s x y)) rfl rfl rfl
  have hp0 := phi_axis s x y hne hx1 hx2 hy1 hy2
  have hm0 : x = 0 ∨ y = 0 → trueOctant (max |x| |y|) (min |x| |y|) = 0 := by
    intro h0
    have hpos : 0 < max |x| |y| := by
      rcases h0 with h0 | h0
      · have : y ≠ 0 := fun e => hne ⟨h0, e⟩
        exact lt_of_lt_of_le (abs_pos.2 this) (le_max_right _ _)
      · have : x ≠ 0 := fun e => hne ⟨e, h0⟩
        exact lt_of_lt_of_le (abs_pos.2 this) (le_max_left _ _)
    have hmin : min |x| |y| = 0 := by
      rcases h0 with h0 | h0 <;> rw [h0, abs_zero]
      · exact min_eq_left (abs_nonneg y)
      · exact min_eq_right (abs_nonneg x)
    unfold trueOctant
    rw [hmin, if_neg (by omega)]
    exact angleDigits_axis 5 _ hpos
  have hm31 : x ≠ y → x ≠ -y → trueOctant (max |x| |y|) (min |x| |y|) ≤ 31 := by
    intro n1 n2
    have hlt : min |x| |y| < max |x| |y| := by
      have hne' : |x| ≠ |y| := by
        intro e
        rcases abs_eq_abs.1 e with e | e
        · exact n1 e
        · exact n2 e
      rcases lt_or_gt_of_ne hne' with e | e
      · rw [min_eq_left (le_of_lt e), max_eq_right (le_of_lt e)]; exact e
      · rw [min_eq_right (le_of_lt e), max_eq_left (le_of_lt e)]; exact e
    unfold trueOctant
    rw [if_neg (by omega)]
    have := angleDigits_lt 5 (max |x| |y|) (min |x| |y|)
    omega
  obtain ⟨-, a1⟩ := atan2sqrt_out s x y
  rw [a1, f3, f4, trueAngle256_eq x y hne]
  generalize (loop 5 (init (fold s x y))).phi = p at *
  generalize trueOctant (max |x| |y|) (min |x| |y|) = m at *
  clear f3 f4 a1 h hl
  rcases lt_trichotomy y 0 with hy | hy | hy <;>
  rcases lt_trichotomy x 0 with hx | hx | hx <;>
  rcases lt_trichotomy x y with hxy | hxy | hxy <;>
  rcases lt_trichotomy x (-y) with hxz | hxz | hxz <;>
  first
  | (exfalso; omega)
  | (simp (disch := omega) only [if_pos, if_neg, decide_eq_true, decide_eq_false]
     simp only [toU8_cast, if_true, if_false, Bool.false_eq_true]
     omega)

end cordic8

/-! ## Claims -/

set_option maxRecDepth 10000

/-- Claim C1, as amended: for the zero vector `cordic8::atan2sqrt(0, 0)` returns
`radius = 0` and `angle = 31`, and `cordic10::atan2sqrt(0, 0)` returns `radius = 0` and
`angle = 8128`, whatever the objects held before the call: every pass of the loop finds
`y1 = 0 >= 0` and adds `currentAngle` to `phi`. -/
theorem atan2sqrt_zero_vector (s : cordic8) (t : cordic10) :
    (cordic8.atan2sqrt s 0 0).angle = 31 ∧ (cordic8.atan2sqrt s 0 0).radius = 0 ∧
    (cordic10.atan2sqrt t 0 0).angle = 8128 ∧ (cordic10.atan2sqrt t 0 0).radius = 0 := by
  obtain ⟨a1, a2⟩ := cordic8.atan2sqrt_indep s cordic8.zero 0 0
  obtain ⟨b1, b2⟩ := cordic10.atan2sqrt_indep10 t cordic10.zero 0 0
  rw [a1, a2, b1, b2]
  decide

/-- Claim C1 fails as stated: at `(0, 0)` the returned angles are 31 and 8128, not 0. -/
theorem atan2sqrt_zero_vector_counterexample :
    ¬ (((cordic8.atan2sqrt cordic8.zero 0 0).angle = 0 ∧
        (cordic8.atan2sqrt cordic8.zero 0 0).radius = 0) ∧
      ((cordic10.atan2sqrt cordic10.zero 0 0).angle = 0 ∧
        (cordic10.atan2sqrt cordic10.zero 0 0).radius = 0)) := by
  decide

/-- Claim C2, as amended: for every vector `(x, y)` in the safe range that is longer than
`(66, 66)`, `8712 < x^2 + y^2 <= 32767^2`, the angle returned by `cordic8::atan2sqrt` is,
modulo 256, between 1 below and 2 above the integer part of the true angle
`256 * atan2(y, x) / (2 * pi)`, so it is less than two units below and at most two units
above the true angle;
`phi` is within 1 of the integer part of the true angle of the folded vector
`(max(|x|, |y|), min(|x|, |y|))`; and on the diagonal, for every `d` with
`67 <= d <= 23169`, `atan2sqrt(d, d)` returns the angle 31, which is within 1 of 32. -/
theorem atan2sqrt8_angle_accuracy (s : cordic8) (x y : Int)
    (h : x ^ 2 + y ^ 2 ≤ 32767 ^ 2) (hl : 8712 < x ^ 2 + y ^ 2) :
    (((cordic8.atan2sqrt s x y).angle : Int) - (trueAngle256 x y : Int) + 1) % 256 ≤ 3 ∧
    trueOctant (max |x| |y|) (min |x| |y|) ≤ (cordic8.atan2sqrt s x y).phi + 1 ∧
    (cordic8.atan2sqrt s x y).phi ≤ trueOctant (max |x| |y|) (min |x| |y|) + 1 ∧
    ∀ d : Int, 67 ≤ d → d ≤ 23169 →
      (cordic8.atan2sqrt s d d).angle = 31 ∧
      |((cordic8.atan2sqrt s d d).angle : Int) - 32| ≤ 1 := by
  obtain ⟨p1, p2⟩ := cordic8.phi_accuracy s x y h hl
  rw [← (cordic8.atan2sqrt_flags s x y).2] at p1 p2
  exact ⟨cordic8.angle_accuracy s x y h hl, p1, p2,
    fun d h1 h2 => cordic8.diagonal_angle s d h1 h2⟩

/-- Claim C2 as amended, at the input `(-300, 100)`. -/
theorem atan2sqrt8_angle_accuracy_witness :
    (-300 : Int) ^ 2 + 100 ^ 2 ≤ 32767 ^ 2 ∧ (8712 : Int) < (-300) ^ 2 + 100 ^ 2 ∧
    (((cordic8.atan2sqrt cordic8.zero (-300) 100).angle : Int)
      - (trueAngle256 (-300) 100 : Int) + 1) % 256 ≤ 3 :=
  ⟨by decide, by decide,
    (atan2sqrt8_angle_accuracy cordic8.zero (-300) 100 (by decide) (by decide)).1⟩

/-- Claim C2 fails as stated: `atan2sqrt(1, 1)` returns the angle 16 and `atan2sqrt(66, 66)`
the angle 30, for the true angle 32, two units below; and `atan2sqrt(2691, 2566)`, a vector of
length 3718, returns the angle 30 while the true angle, whose integer part in units of 1/32
is 993, is at least `31 + 1/32`, more than one unit off. -/
theorem atan2sqrt8_angle_counterexample :
    ((1 : Int) ≤ 1 ∧ (1 : Int) ≤ 23169 ∧ (cordic8.atan2sqrt cordic8.zero 1 1).angle = 16 ∧
      ¬ (|((cordic8.atan2sqrt cordic8.zero 1 1).angle : Int) - 32| ≤ 1)) ∧
    ((66 : Int) ^ 2 + 66 ^ 2 = 8712 ∧ (cordic8.atan2sqrt cordic8.zero 66 66).angle = 30 ∧
      trueAngle256 66 66 = 32 ∧
      ¬ ((((cordic8.atan2sqrt cordic8.zero 66 66).angle : Int)
        - (trueAngle256 66 66 : Int) + 1) % 256 ≤ 3)) ∧
    ((2691 : Int) ^ 2 + 2566 ^ 2 ≤ 32767 ^ 2 ∧
      (cordic8.atan2sqrt cordic8.zero 2691 2566).angle = 30 ∧
      angleDigits 10 2691 2566 = 32 * 31 + 1) := by
  decide

/-- Claim C3 fails as stated: `(30000, 700)` lies in the safe range and the returned radius
is 30000, while `30001^2 < 30000^2 + 700^2`; and `(22863, 22859)` returns the radius 32316,
more than 14 below the length. -/
theorem radius8_counterexample :
    ((30000 : Int) ^ 2 + 700 ^ 2 ≤ 32767 ^ 2 ∧
      (cordic8.atan2sqrt cordic8.zero 30000 700).radius = 30000 ∧
      ¬ ((((cordic8.atan2sqrt cordic8.zero 30000 700).radius : Int) - 1) ^ 2
            < 30000 ^ 2 + 700 ^ 2 ∧
          (30000 : Int) ^ 2 + 700 ^ 2
            < (((cordic8.atan2sqrt cordic8.zero 30000 700).radius : Int) + 1) ^ 2)) ∧
    ((22863 : Int) ^ 2 + 22859 ^ 2 ≤ 32767 ^ 2 ∧
      (cordic8.atan2sqrt cordic8.zero 22863 22859).radius = 32316 ∧
      ((32316 : Int) + 14) ^ 2 < 22863 ^ 2 + 22859 ^ 2) := by
  decide

/-- Claim C4: for every vector `(x, y)` other than `(0, 0)` with `|x|, |y| <= 32767`,
`atan2sqrt(-x, -y)` returns the radius of `atan2sqrt(x, y)` and an angle half a turn away:
128 modulo 256 for `cordic8`, 32768 modulo 65536 for `cordic10`; the objects before the
two calls are arbitrary. -/
theorem atan2sqrt_half_turn (s t : cordic8) (u v : cordic10) (x y : Int)
    (hne : ¬ (x = 0 ∧ y = 0)) (hx : |x| ≤ 32767) (hy : |y| ≤ 32767) :
    (cordic8.atan2sqrt t (-x) (-y)).radius = (cordic8.atan2sqrt s x y).radius ∧
    (cordic8.atan2sqrt t (-x) (-y)).angle = ((cordic8.atan2sqrt s x y).angle + 128) % 256 ∧
    (cordic10.atan2sqrt v (-x) (-y)).radius = (cordic10.atan2sqrt u x y).radius ∧
    (cordic10.atan2sqrt v (-x) (-y)).angle =
      ((cordic10.atan2sqrt u x y).angle + 32768) % 65536 := by
  obtain ⟨a1, a2⟩ := cordic8.half_turn s t x y hne hx hy
  obtain ⟨b1, b2⟩ := cordic10.half_turn10 u v x y hne hx hy
  exact ⟨a1, a2, b1, b2⟩

/-- Claim C4 at the input `(3, -4)`. -/
theorem atan2sqrt_half_turn_witness :
    ¬ ((3 : Int) = 0 ∧ (-4 : Int) = 0) ∧ |(3 : Int)| ≤ 32767 ∧ |(-4 : Int)| ≤ 32767 ∧
    (cordic8.atan2sqrt cordic8.zero (-3) (- -4)).angle =
      ((cordic8.atan2sqrt cordic8.zero 3 (-4)).angle + 128) % 256 :=
  ⟨by decide, by decide, by decide,
    (atan2sqrt_half_turn cordic8.zero cordic8.zero cordic10.zero cordic10.zero 3 (-4)
      (by decide) (by decide) (by decide)).2.1⟩

/-- Claim C5: for every input and every object, the angle returned by
`cordic10::atan2sqrt` is a multiple of 64. -/
theorem atan2sqrt10_angle_low_bits (s : cordic10) (x y : Int) :
    (cordic10.atan2sqrt s x y).angle % 64 = 0 := by
  rw [(cordic10.atan2sqrt_out10 s x y).2]
  simp only [toU16]
  omega

/-- Claim C3, as amended: for every `(x, y)` with `x^2 + y^2 <= 32767^2` the radius
returned by `cordic8::atan2sqrt` is the Euclidean length to within less than 1 above and
less than 16 below: `radius = 0` or `(radius - 1)^2 < x^2 + y^2`, and
`x^2 + y^2 < (radius + 16)^2`; it is at least `max(|x|, |y|)`, and it is `0` exactly for
`x = y = 0`. -/
theorem radius8_bounds (s : cordic8) (x y : Int) (h : x ^ 2 + y ^ 2 ≤ 32767 ^ 2) :
    ((cordic8.atan2sqrt s x y).radius = 0 ∨
      (((cordic8.atan2sqrt s x y).radius : Int) - 1) ^ 2 < x ^ 2 + y ^ 2) ∧
    x ^ 2 + y ^ 2 < (((cordic8.atan2sqrt s x y).radius : Int) + 16) ^ 2 ∧
    max |x| |y| ≤ ((cordic8.atan2sqrt s x y).radius : Int) ∧
    ((cordic8.atan2sqrt s x y).radius = 0 ↔ x = 0 ∧ y = 0) := by
  obtain ⟨e, hm, hr, hb⟩ := cordic8.atan2sqrt_radius s x y h
  have hlow := cordic8.radius_lower s x y h
  generalize (cordic8.loop 5 (cordic8.init (cordic8.fold s x y))).x0 = r at *
  generalize (cordic8.atan2sqrt s x y).radius = R at *
  have hax := abs_nonneg x
  have hay := abs_nonneg y
  have hmx : |x| ≤ r := le_trans (le_max_left _ _) hm
  have hmy : |y| ≤ r := le_trans (le_max_right _ _) hm
  have hup : R = 0 ∨ ((R : Int) - 1) ^ 2 < x ^ 2 + y ^ 2 := by
    rcases Nat.eq_zero_or_pos R with h0 | h0
    · exact Or.inl h0
    · right
      rw [e]
      have h1 : 1 ≤ r := by omega
      by_contra hc
      have h2 : x ^ 2 + y ^ 2 ≤ (r - 1) ^ 2 := by omega
      nlinarith [mul_nonneg (show (0 : Int) ≤ r - 1 by omega) (show (0 : Int) ≤ 32767 - r by omega)]
  refine ⟨hup, by rw [e]; exact hlow, by rw [e]; exact hm, ?_⟩
  constructor
  · intro h0
    have hr0 : r = 0 := by omega
    rw [hr0] at hmx hmy
    exact ⟨abs_eq_zero.1 (le_antisymm hmx hax), abs_eq_zero.1 (le_antisymm hmy hay)⟩
  · rintro ⟨rfl, rfl⟩
    have : r ^ 2 * 2 ^ 60 ≤ 0 := by simpa using hb
    have hr0 : r = 0 := by
      have h3 : r ^ 2 ≤ 0 := by nlinarith
      have h4 : 0 ≤ r := by simpa using hm
      nlinarith
    omega

/-- Claim C3 as amended, at the input `(22863, 22859)`, where the radius 32316 is 14.3 below
the length. -/
theorem radius8_bounds_witness :
    (22863 : Int) ^ 2 + 22859 ^ 2 ≤ 32767 ^ 2 ∧
    (22863 : Int) ^ 2 + 22859 ^ 2
      < (((cordic8.atan2sqrt cordic8.zero 22863 22859).radius : Int) + 16) ^ 2 :=
  ⟨by decide, (radius8_bounds cordic8.zero 22863 22859 (by decide)).2.1⟩

/-- Claim C6: for every `x` with `1 <= x <= 32767`, `cordic8::atan2sqrt(x, 0)` returns
`angle = 0` and `radius = x`, whatever the object held before the call. -/
theorem atan2sqrt8_pos_x_axis (s : cordic8) (x : Int) (h1 : 1 ≤ x) (h2 : x ≤ 32767) :
    (cordic8.atan2sqrt s x 0).angle = 0 ∧ ((cordic8.atan2sqrt s x 0).radius : Int) = x := by
  obtain ⟨f1, f2, f3, f4⟩ := cordic8.fold_eq s x 0 (by omega) h2 (by omega) (by omega)
  have hx : |x| = x := abs_of_nonneg (by omega)
  rw [hx, abs_zero] at f1 f2
  rw [max_eq_left (by omega)] at f1
  rw [min_eq_right (by omega)] at f2
  have hs : (cordic8.fold s x 0).sign = false := by
    rw [f3]; simp; omega
  have ha : (cordic8.fold s x 0).angle = 0 := by
    rw [f4]; split_ifs <;> omega
  obtain ⟨l1, l2⟩ := cordic8.loop_axis (cordic8.init (cordic8.fold s x 0)) rfl f2
    (by show 1 ≤ (cordic8.fold s x 0).x0; omega) (by show (cordic8.fold s x 0).x0 ≤ 32767; omega)
  obtain ⟨r, a⟩ := cordic8.atan2sqrt_out s x 0
  have l1' : (cordic8.loop 5 (cordic8.init (cordic8.fold s x 0))).x0 = x := by
    rw [l1]; exact f1
  have l2' : (cordic8.loop 5 (cordic8.init (cordic8.fold s x 0))).phi = 0 := by
    rw [l2]; rfl
  rw [r, a, l1', l2', hs, ha]
  exact ⟨by decide, toU16_of_range (by omega) (by omega)⟩

/-- Claim C6, at the input `(100, 0)` of the spec's scenario. -/
theorem atan2sqrt8_pos_x_axis_witness :
    (cordic8.atan2sqrt cordic8.zero 100 0).angle = 0 ∧
    ((cordic8.atan2sqrt cordic8.zero 100 0).radius : Int) = 100 :=
  atan2sqrt8_pos_x_axis cordic8.zero 100 (by decide) (by decide)

/-- Claim C7: for every `y` with `1 <= y <= 32767`, `cordic8::atan2sqrt(0, y)` returns
`angle = 64` and `radius = y`, whatever the object held before the call. -/
theorem atan2sqrt8_pos_y_axis (s : cordic8) (y : Int) (h1 : 1 ≤ y) (h2 : y ≤ 32767) :
    (cordic8.atan2sqrt s 0 y).angle = 64 ∧ ((cordic8.atan2sqrt s 0 y).radius : Int) = y := by
  obtain ⟨f1, f2, f3, f4⟩ := cordic8.fold_eq s 0 y (by omega) (by omega) (by omega) h2
  have hy : |y| = y := abs_of_nonneg (by omega)
  rw [hy, abs_zero] at f1 f2
  rw [max_eq_right (by omega)] at f1
  rw [min_eq_left (by omega)] at f2
  have hs : (cordic8.fold s 0 y).sign = true := by
    rw [f3]; simp; omega
  have ha : (cordic8.fold s 0 y).angle = 64 := by
    rw [f4]; split_ifs <;> omega
  obtain ⟨l1, l2⟩ := cordic8.loop_axis (cordic8.init (cordic8.fold s 0 y)) rfl f2
    (by show 1 ≤ (cordic8.fold s 0 y).x0; omega) (by show (cordic8.fold s 0 y).x0 ≤ 32767; omega)
  obtain ⟨r, a⟩ := cordic8.atan2sqrt_out s 0 y
  have l1' : (cordic8.loop 5 (cordic8.init (cordic8.fold s 0 y))).x0 = y := by
    rw [l1]; exact f1
  have l2' : (cordic8.loop 5 (cordic8.init (cordic8.fold s 0 y))).phi = 0 := by
    rw [l2]; rfl
  rw [r, a, l1', l2', hs, ha]
  exact ⟨by decide, toU16_of_range (by omega) (by omega)⟩

/-- Claim C7, at the input `(0, 100)` of the spec's scenario. -/
theorem atan2sqrt8_pos_y_axis_witness :
    (cordic8.atan2sqrt cordic8.zero 0 100).angle = 64 ∧
    ((cordic8.atan2sqrt cordic8.zero 0 100).radius : Int) = 100 :=
  atan2sqrt8_pos_y_axis cordic8.zero 100 (by decide) (by decide)

/-- Claim C8, as amended: with the documented constants (`CORDIC_1K = 9949`,
`CORDIC_NTAB = 16`, the table of `atan(2^-k)` on the scale 16384) `cordic16::sincos(0, 16)`
returns `sin = 2` and `cos = 16383`, whatever the object held before the call; and with
these two macros no table at all makes it return `sin = 0`, `cos = 16384`. -/
theorem sincos16_zero_angle (s : cordic16) :
    cordic16.results (cordic16.sincos CORDIC_1K CORDIC_NTAB cordic_ctab s 0 16)
      = some (2, 16383) ∧
    ∀ ctab : List Int,
      cordic16.results (cordic16.sincos CORDIC_1K CORDIC_NTAB ctab s 0 16)
        ≠ some (0, 16384) := by
  refine ⟨?_, fun ctab => cordic16.sincos_zero_inexact ctab s⟩
  rw [cordic16.sincos_indep _ _ _ s cordic16.zero]
  decide

/-- Claim C8 fails as stated: `sincos(0, 16)` does not return `sin = 0`, `cos = 16384`. -/
theorem sincos16_zero_angle_counterexample :
    cordic16.results (cordic16.sincos CORDIC_1K CORDIC_NTAB cordic_ctab cordic16.zero 0 16)
      ≠ some (0, 16384) := by
  decide

/-- Claim C9: for every table of `CORDIC_NTAB` entries, every `theta` and every
`n > CORDIC_NTAB`, `cordic16::sincos(theta, n)` leaves the object exactly as
`sincos(theta, CORDIC_NTAB)` does, and the call returns without reading the table outside
its bounds. -/
theorem sincos16_clamp (K1 NTAB : Int) (ctab : List Int) (s : cordic16) (theta n : Int)
    (hN : NTAB = ctab.length) (hlen : ctab.length ≤ 32767) (hn : NTAB < n)
    (hn2 : n ≤ 32767) :
    cordic16.sincos K1 NTAB ctab s theta n = cordic16.sincos K1 NTAB ctab s theta NTAB ∧
    (cordic16.sincos K1 NTAB ctab s theta n).isSome = true :=
  ⟨cordic16.sincos_clamp K1 NTAB ctab s theta n (by omega) (by omega) hn hn2,
    cordic16.sincos_isSome K1 NTAB ctab s theta n hN hlen⟩

/-- Claim C9 at `theta = 5000`, `n = 20` with the documented constants. -/
theorem sincos16_clamp_witness :
    CORDIC_NTAB = cordic_ctab.length ∧ cordic_ctab.length ≤ 32767 ∧ CORDIC_NTAB < 20 ∧
    cordic16.sincos CORDIC_1K CORDIC_NTAB cordic_ctab cordic16.zero 5000 20 =
      cordic16.sincos CORDIC_1K CORDIC_NTAB cordic_ctab cordic16.zero 5000 CORDIC_NTAB :=
  ⟨by decide, by decide, by decide,
    (sincos16_clamp CORDIC_1K CORDIC_NTAB cordic_ctab cordic16.zero 5000 20 (by decide)
      (by decide) (by decide) (by decide)).1⟩

/-- Claim C10: for every `(x, y)` with `x^2 + y^2 <= 32767^2`, the run of
`cordic8::atan2sqrt` on unbounded integers passes every range check (signed 16 bits for the
stores into `x0`, `y0` and `tmp`, `[0, 32767]` from the end of the folding on, signed 32
bits for every value of `x1` and `y1`) and ends in the state that the 16-bit and 32-bit
registers give. -/
theorem atan2sqrt8_no_overflow (s : cordic8) (x y : Int) (h : x ^ 2 + y ^ 2 ≤ 32767 ^ 2) :
    cordic8.atan2sqrtChecked s x y = some (cordic8.atan2sqrt s x y) :=
  cordic8.atan2sqrtChecked_eq s x y h

/-- Claim C10 at the input `(23169, 23169)`, the largest diagonal vector of the safe
range. -/
theorem atan2sqrt8_no_overflow_witness :
    (23169 : Int) ^ 2 + 23169 ^ 2 ≤ 32767 ^ 2 ∧
    cordic8.atan2sqrtChecked cordic8.zero 23169 23169 =
      some (cordic8.atan2sqrt cordic8.zero 23169 23169) :=
  ⟨by decide, atan2sqrt8_no_overflow cordic8.zero 23169 23169 (by decide)⟩
/-- Claim C11: for `cordic8` and `cordic10`, for every input `(x, y)` and any two objects
before the call, `atan2sqrt(x, y)` leaves the same `angle` and `radius`. -/
theorem atan2sqrt_stateless (s t : cordic8) (u v : cordic10) (x y : Int) :
    (cordic8.atan2sqrt s x y).angle = (cordic8.atan2sqrt t x y).angle ∧
    (cordic8.atan2sqrt s x y).radius = (cordic8.atan2sqrt t x y).radius ∧
    (cordic10.atan2sqrt u x y).angle = (cordic10.atan2sqrt v x y).angle ∧
    (cordic10.atan2sqrt u x y).radius = (cordic10.atan2sqrt v x y).radius := by
  obtain ⟨a1, a2⟩ := cordic8.atan2sqrt_indep s t x y
  obtain ⟨b1, b2⟩ := cordic10.atan2sqrt_indep10 u v x y
  exact ⟨a1, a2, b1, b2⟩

/-- Claim C13: for every `(x, y)` with `|x|, |y| <= 32767`, after the three test-and-rotate
steps of `cordic8::atan2sqrt` and of `cordic10::atan2sqrt` the working vector satisfies
`0 <= y0 <= x0` and `x0^2 + y0^2 = x^2 + y^2`. -/
theorem octant_folding (s : cordic8) (t : cordic10) (x y : Int)
    (hx : |x| ≤ 32767) (hy : |y| ≤ 32767) :
    (0 ≤ (cordic8.fold s x y).y0 ∧ (cordic8.fold s x y).y0 ≤ (cordic8.fold s x y).x0 ∧
      (cordic8.fold s x y).x0 ^ 2 + (cordic8.fold s x y).y0 ^ 2 = x ^ 2 + y ^ 2) ∧
    (0 ≤ (cordic10.fold t x y).y0 ∧ (cordic10.fold t x y).y0 ≤ (cordic10.fold t x y).x0 ∧
      (cordic10.fold t x y).x0 ^ 2 + (cordic10.fold t x y).y0 ^ 2 = x ^ 2 + y ^ 2) := by
  rw [abs_le] at hx hy
  obtain ⟨f1, f2, -, -⟩ := cordic8.fold_eq s x y hx.1 hx.2 hy.1 hy.2
  obtain ⟨g1, g2, -, -⟩ := cordic10.fold_eq10 t x y hx.1 hx.2 hy.1 hy.2
  rw [f1, f2, g1, g2, max_min_sq, sq_abs, sq_abs]
  exact ⟨⟨le_min (abs_nonneg x) (abs_nonneg y), le_trans (min_le_left _ _) (le_max_left _ _),
    rfl⟩, ⟨le_min (abs_nonneg x) (abs_nonneg y),
    le_trans (min_le_left _ _) (le_max_left _ _), rfl⟩⟩

/-- Claim C13 at the input `(-3, 4)`. -/
theorem octant_folding_witness :
    |(-3 : Int)| ≤ 32767 ∧ |(4 : Int)| ≤ 32767 ∧
    (cordic8.fold cordic8.zero (-3) 4).y0 ≤ (cordic8.fold cordic8.zero (-3) 4).x0 :=
  ⟨by decide, by decide,
    (octant_folding cordic8.zero cordic10.zero (-3) 4 (by decide) (by decide)).1.2.1⟩

/-- Claim C14: for every `z` in the signed 16-bit range `z >> 15` is 0 when `z >= 0` and
-1 when `z < 0`; for every integer `v`, `(v XOR 0) - 0 = v` and `(v XOR -1) - (-1) = -v`;
and one pass of the loop of `cordic16::sincos` is exactly the if/else form on the sign of
`z`, for every table and every object whose `z` is a 16-bit value. -/
theorem sincos16_sign_idiom (z v : Int) (ctab : List Int) (s : cordic16)
    (hz1 : -32768 ≤ z) (hz2 : z ≤ 32767) (hs1 : -32768 ≤ s.z) (hs2 : s.z ≤ 32767) :
    z >>> (15 : Nat) = (if 0 ≤ z then 0 else -1) ∧
    Int.xor v 0 - 0 = v ∧ Int.xor v (-1) - (-1) = -v ∧
    cordic16.body ctab s = cordic16.bodyBranch ctab s := by
  refine ⟨asr15_sign z hz1 hz2, ?_, ?_, cordic16.body_eq_bodyBranch ctab s hs1 hs2⟩
  · rw [xor_zero_right, sub_zero]
  · rw [xor_neg_one_right]; ring

/-- Claim C14 at `z = -5`, `v = 7` with the documented table. -/
theorem sincos16_sign_idiom_witness :
    (-32768 : Int) ≤ -5 ∧ (-5 : Int) ≤ 32767 ∧
    (-5 : Int) >>> (15 : Nat) = (if (0 : Int) ≤ -5 then 0 else -1) ∧
    Int.xor 7 (-1) - (-1) = -7 :=
  ⟨by decide, by decide,
    (sincos16_sign_idiom (-5) 7 cordic_ctab cordic16.zero (by decide) (by decide) (by decide)
      (by decide)).1,
    (sincos16_sign_idiom (-5) 7 cordic_ctab cordic16.zero (by decide) (by decide) (by decide)
      (by decide)).2.2.1⟩

/-- Claim C15: for every object, the statement `angle += ((sign) ? -phi : +phi);` leaves
`angle = (angle - phi) mod 2^w` when `sign` is set and `(angle + phi) mod 2^w` otherwise,
with `w = 8` for `cordic8` and `w = 16` for `cordic10`; it is the branch
`if(sign) angle -= phi; else angle += phi;`, and it is the statement that `atan2sqrt` ends
with (followed by the shift by 6 in `cordic10`). -/
theorem sign_combination (s : cordic8) (t : cordic10) :
    cordic8.combine s = cordic8.combineBranch s ∧
    cordic10.combine t = cordic10.combineBranch t ∧
    ((cordic8.combine s).angle : Int) =
      (if s.sign then ((s.angle : Int) - (s.phi : Int)) % 256
        else ((s.angle : Int) + (s.phi : Int)) % 256) ∧
    ((cordic10.combine t).angle : Int) =
      (if t.sign then ((t.angle : Int) - (t.phi : Int)) % 65536
        else ((t.angle : Int) + (t.phi : Int)) % 65536) ∧
    cordic8.finish s = cordic8.combine { s with radius := toU16 s.x0 } ∧
    cordic10.finish t = { cordic10.combine { t with radius := toU16 t.x0 } with
      angle := toU16 (((cordic10.combine { t with radius := toU16 t.x0 }).angle : Int) * 64) } := by
  refine ⟨cordic8.combine_eq_branch s, cordic10.combine_eq_branch10 t, ?_, ?_,
    cordic8.finish_eq_combine s, cordic10.finish_eq_combine10 t⟩
  · rw [cordic8.combine_eq_branch]
    unfold cordic8.combineBranch
    cases s.sign <;> simp only [if_true, if_false, Bool.false_eq_true] <;>
      exact cordic8.toU8_cast _
  · rw [cordic10.combine_eq_branch10]
    unfold cordic10.combineBranch
    cases t.sign <;> simp only [if_true, if_false, Bool.false_eq_true] <;>
      (show ((toU16 _ : Nat) : Int) = _; unfold toU16; omega)

/-- Claim C16: for every `(x, y)` other than `(0, 0)` with `|x|, |y| <= 32767` the angle
returned by `cordic8::atan2sqrt` lies in the closed quadrant of the vector; `phi` never
exceeds 31, and for a vector inside a quadrant (off the axes) the angle is at most 31 above
the base of the quadrant when the 45 degree reflection was not taken and between 33 and 64
above it when the reflection was taken. -/
theorem atan2sqrt8_quadrant (s : cordic8) (x y : Int) (hne : ¬ (x = 0 ∧ y = 0))
    (hx : |x| ≤ 32767) (hy : |y| ≤ 32767) :
    (0 < x ∧ 0 ≤ y → ((cordic8.atan2sqrt s x y).angle : Int) ≤ 64) ∧
    (x ≤ 0 ∧ 0 < y → 64 ≤ ((cordic8.atan2sqrt s x y).angle : Int) ∧
      ((cordic8.atan2sqrt s x y).angle : Int) ≤ 128) ∧
    (x < 0 ∧ y ≤ 0 → 128 ≤ ((cordic8.atan2sqrt s x y).angle : Int) ∧
      ((cordic8.atan2sqrt s x y).angle : Int) ≤ 192) ∧
    (0 ≤ x ∧ y < 0 →
      (192 ≤ ((cordic8.atan2sqrt s x y).angle : Int) ∧
        ((cordic8.atan2sqrt s x y).angle : Int) ≤ 255) ∨
      ((cordic8.atan2sqrt s x y).angle : Int) = 0) ∧
    (cordic8.atan2sqrt s x y).phi ≤ 31 ∧
    (x ≠ 0 ∧ y ≠ 0 →
      ((cordic8.atan2sqrt s x y).sign = false →
        (((cordic8.atan2sqrt s x y).angle : Int) -
          (if 0 < y then (if 0 < x then 0 else 64) else (if x < 0 then 128 else 192)))
          % 256 ≤ 31) ∧
      ((cordic8.atan2sqrt s x y).sign = true →
        33 ≤ (((cordic8.atan2sqrt s x y).angle : Int) -
          (if 0 < y then (if 0 < x then 0 else 64) else (if x < 0 then 128 else 192)))
          % 256 ∧
        (((cordic8.atan2sqrt s x y).angle : Int) -
          (if 0 < y then (if 0 < x then 0 else 64) else (if x < 0 then 128 else 192)))
          % 256 ≤ 64)) := by
  rw [abs_le] at hx hy
  exact cordic8.quadrant s x y hne hx.1 hx.2 hy.1 hy.2

/-- Claim C16 at the input `(-300, 100)`, in the second quadrant. -/
theorem atan2sqrt8_quadrant_witness :
    ¬ ((-300 : Int) = 0 ∧ (100 : Int) = 0) ∧ |(-300 : Int)| ≤ 32767 ∧ |(100 : Int)| ≤ 32767 ∧
    ((-300 : Int) ≤ 0 ∧ (0 : Int) < 100 →
      64 ≤ ((cordic8.atan2sqrt cordic8.zero (-300) 100).angle : Int) ∧
      ((cordic8.atan2sqrt cordic8.zero (-300) 100).angle : Int) ≤ 128) :=
  ⟨by decide, by decide, by decide,
    (atan2sqrt8_quadrant cordic8.zero (-300) 100 (by decide) (by decide) (by decide)).2.1⟩

/-- Claim C17: for every `(x, y)` with `x^2 + y^2 <= 32766^2` there is an `r` in
`0, 1, 2, 3` such that the angle of `cordic10::atan2sqrt` is, modulo 65536,
`256 * angle8 + 64 * r` when the 45 degree reflection is not taken and
`256 * angle8 - 64 * r` when it is, for the angle `angle8` of `cordic8::atan2sqrt`; both
solvers take the reflection for the same vectors; the radius of `cordic10` is not below
that of `cordic8`; and after the first five passes of both loops the working vectors are
equal and `phi` of `cordic10` is four times `phi` of `cordic8`. -/
theorem cordic10_refines_cordic8 (s : cordic8) (t : cordic10) (x y : Int)
    (h : x ^ 2 + y ^ 2 ≤ 32766 ^ 2) :
    (∃ r : Nat, r ≤ 3 ∧
      (cordic10.atan2sqrt t x y).sign = (cordic8.atan2sqrt s x y).sign ∧
      ((cordic8.atan2sqrt s x y).sign = false →
        ((cordic10.atan2sqrt t x y).angle : Int) =
          (256 * ((cordic8.atan2sqrt s x y).angle : Int) + 64 * (r : Int)) % 65536) ∧
      ((cordic8.atan2sqrt s x y).sign = true →
        ((cordic10.atan2sqrt t x y).angle : Int) =
          (256 * ((cordic8.atan2sqrt s x y).angle : Int) - 64 * (r : Int)) % 65536) ∧
      (cordic8.atan2sqrt s x y).radius ≤ (cordic10.atan2sqrt t x y).radius) ∧
    (cordic10.loop 5 (cordic10.init (cordic10.fold t x y))).x0 =
      (cordic8.loop 5 (cordic8.init (cordic8.fold s x y))).x0 ∧
    (cordic10.loop 5 (cordic10.init (cordic10.fold t x y))).y0 =
      (cordic8.loop 5 (cordic8.init (cordic8.fold s x y))).y0 ∧
    (cordic10.loop 5 (cordic10.init (cordic10.fold t x y))).phi =
      4 * (cordic8.loop 5 (cordic8.init (cordic8.fold s x y))).phi := by
  obtain ⟨h1, h2, h3, -⟩ := cordic10.loop_refines s t x y h
  exact ⟨cordic10.refines s t x y h, h1, h2, h3⟩

/-- Claim C17 at the input `(300, 100)`. -/
theorem cordic10_refines_cordic8_witness :
    (300 : Int) ^ 2 + 100 ^ 2 ≤ 32766 ^ 2 ∧
    (cordic8.atan2sqrt cordic8.zero 300 100).radius ≤
      (cordic10.atan2sqrt cordic10.zero 300 100).radius ∧
    (cordic10.loop 5 (cordic10.init (cordic10.fold cordic10.zero 300 100))).phi =
      4 * (cordic8.loop 5 (cordic8.init (cordic8.fold cordic8.zero 300 100))).phi :=
  ⟨by decide,
    (cordic10_refines_cordic8 cordic8.zero cordic10.zero 300 100 (by decide)).1.elim
      (fun _ hr => hr.2.2.2.2),
    (cordic10_refines_cordic8 cordic8.zero cordic10.zero 300 100 (by decide)).2.2.2⟩

/-- Claim C18: for every `x`, `y` with `0 <= y < x <= 32767`, `cordic8::atan2sqrt(y, x)`
returns the radius of `atan2sqrt(x, y)` and the angle `64 - angle(x, y)`. -/
theorem atan2sqrt8_reflection (s t : cordic8) (x y : Int) (hy : 0 ≤ y) (hxy : y < x)
    (hx : x ≤ 32767) :
    (cordic8.atan2sqrt t y x).radius = (cordic8.atan2sqrt s x y).radius ∧
    ((cordic8.atan2sqrt t y x).angle : Int) = 64 - ((cordic8.atan2sqrt s x y).angle : Int) := by
  obtain ⟨h1, h2, -⟩ := cordic8.reflection s t x y hy hxy hx
  exact ⟨h1, by omega⟩

/-- Claim C18 at the input `(x, y) = (300, 100)`. -/
theorem atan2sqrt8_reflection_witness :
    (0 : Int) ≤ 100 ∧ (100 : Int) < 300 ∧ (300 : Int) ≤ 32767 ∧
    ((cordic8.atan2sqrt cordic8.zero 100 300).angle : Int) =
      64 - ((cordic8.atan2sqrt cordic8.zero 300 100).angle : Int) :=
  ⟨by decide, by decide, by decide,
    (atan2sqrt8_reflection cordic8.zero cordic8.zero 300 100 (by decide) (by decide)
      (by decide)).2⟩

/-- Claim C19: for every `(x, y)` with `x^2 + y^2 <= 32767^2`, `cordic8::atan2sqrt`
returns `radius >= max(|x|, |y|)`; the conversion of `x0` to `unsigned int` does not wrap;
before every pass `x0` and `y0` are non-negative and the pass does not decrease `x0`; and
for every table entry a rotation with `cos * y0 >= sin * x0` has
`(cos * x0 + sin * y0) >> 15 >= x0`. -/
theorem radius8_lower_bound (s : cordic8) (x y : Int) (h : x ^ 2 + y ^ 2 ≤ 32767 ^ 2) :
    max |x| |y| ≤ ((cordic8.atan2sqrt s x y).radius : Int) ∧
    ((cordic8.atan2sqrt s x y).radius : Int) =
      (cordic8.loop 5 (cordic8.init (cordic8.fold s x y))).x0 ∧
    (∀ j : Nat, j ≤ 4 →
      0 ≤ (cordic8.loop j (cordic8.init (cordic8.fold s x y))).x0 ∧
      0 ≤ (cordic8.loop j (cordic8.init (cordic8.fold s x y))).y0 ∧
      (cordic8.loop j (cordic8.init (cordic8.fold s x y))).x0 ≤
        (cordic8.loop (j + 1) (cordic8.init (cordic8.fold s x y))).x0) ∧
    0 ≤ (cordic8.loop 5 (cordic8.init (cordic8.fold s x y))).y0 ∧
    (∀ (k : Nat) (x0 y0 : Int), k ≤ 6 → 0 ≤ x0 →
      sin_lut.getD k 0 * x0 ≤ cos_lut.getD k 0 * y0 →
      x0 ≤ (cos_lut.getD k 0 * x0 + sin_lut.getD k 0 * y0) >>> (15 : Nat)) := by
  obtain ⟨e, hm, -, -⟩ := cordic8.atan2sqrt_radius s x y h
  obtain ⟨-, -, -, -, hI, hk, -, -⟩ := cordic8.init_inv s x y h
  have hQ0 : 0 ≤ x ^ 2 + y ^ 2 := by positivity
  refine ⟨by rw [e]; exact hm, e, ?_, ?_, fun k x0 y0 hk6 hx0 hc =>
    commit_mono_tab k hk6 x0 y0 hx0 hc⟩
  · intro j hj
    obtain ⟨i, kj⟩ := cordic8.loop_prefix_inv j hI (by omega) hQ0 h
    obtain ⟨-, -, m⟩ := cordic8.body_inv i (by omega) hQ0 h
    rw [cordic8.loop_snoc j _ (by omega)]
    exact ⟨i.x0_nonneg, i.y0_nonneg, m⟩
  · exact (cordic8.loop_prefix_inv 5 hI (by omega) hQ0 h).1.y0_nonneg

/-- Claim C19 at the input `(30000, 700)`. -/
theorem radius8_lower_bound_witness :
    (30000 : Int) ^ 2 + 700 ^ 2 ≤ 32767 ^ 2 ∧
    max |(30000 : Int)| |(700 : Int)| ≤
      ((cordic8.atan2sqrt cordic8.zero 30000 700).radius : Int) :=
  ⟨by decide, (radius8_lower_bound cordic8.zero 30000 700 (by decide)).1⟩

/-- Claim C20: for every `(x, y)` with `x^2 + y^2 <= 32767^2`, `cordic8::atan2sqrt`
returns `radius = 0` or `(radius - 1)^2 < x^2 + y^2`; every pass multiplies
`x0^2 + y0^2` by at most `(cos_lut[k]^2 + sin_lut[k]^2) / 2^30` or leaves it unchanged, the
squared length at the end is at most `1073766676 * 1073773105 / 2^60` times that of the
input, and this factor is below `1 + 2^-14`. -/
theorem radius8_upper_bound (s : cordic8) (x y : Int) (h : x ^ 2 + y ^ 2 ≤ 32767 ^ 2) :
    ((cordic8.atan2sqrt s x y).radius = 0 ∨
      (((cordic8.atan2sqrt s x y).radius : Int) - 1) ^ 2 < x ^ 2 + y ^ 2) ∧
    (∀ j : Nat, j ≤ 4 →
      cordic8.normSq (cordic8.loop (j + 1) (cordic8.init (cordic8.fold s x y))) * 2 ^ 30 ≤
        cordic8.normSq (cordic8.loop j (cordic8.init (cordic8.fold s x y))) *
          (cos_lut.getD j 0 ^ 2 + sin_lut.getD j 0 ^ 2) ∨
      cordic8.normSq (cordic8.loop (j + 1) (cordic8.init (cordic8.fold s x y))) =
        cordic8.normSq (cordic8.loop j (cordic8.init (cordic8.fold s x y)))) ∧
    cordic8.normSq (cordic8.loop 5 (cordic8.init (cordic8.fold s x y))) * 2 ^ 60 ≤
      (x ^ 2 + y ^ 2) * (1073766676 * 1073773105) ∧
    (1073766676 * 1073773105 : Int) * 2 ^ 14 < 2 ^ 60 * (2 ^ 14 + 1) := by
  obtain ⟨e, hm, hr, hb⟩ := cordic8.atan2sqrt_radius s x y h
  obtain ⟨-, -, -, -, hI, hk, -, -⟩ := cordic8.init_inv s x y h
  have hQ0 : 0 ≤ x ^ 2 + y ^ 2 := by positivity
  refine ⟨?_, ?_, ?_, by norm_num⟩
  · generalize (cordic8.loop 5 (cordic8.init (cordic8.fold s x y))).x0 = r at *
    generalize (cordic8.atan2sqrt s x y).radius = R at *
    rcases Nat.eq_zero_or_pos R with h0 | h0
    · exact Or.inl h0
    · right
      rw [e]
      have h1 : 1 ≤ r := by omega
      by_contra hc
      have h2 : x ^ 2 + y ^ 2 ≤ (r - 1) ^ 2 := by omega
      nlinarith [mul_nonneg (show (0 : Int) ≤ r - 1 by omega) (show (0 : Int) ≤ 32767 - r by omega)]
  · intro j hj
    obtain ⟨i, kj⟩ := cordic8.loop_prefix_inv j hI (by omega) hQ0 h
    have hb' := cordic8.body_normSq i (by omega) hQ0 h
    rw [cordic8.loop_snoc j _ (by omega)]
    have ek : (cordic8.loop j (cordic8.init (cordic8.fold s x y))).k = j := by omega
    rw [ek] at hb'
    exact hb'
  · obtain ⟨i, kj⟩ := cordic8.loop_prefix_inv 5 hI (by omega) hQ0 h
    have hb5 := i.bound
    have ek : (cordic8.loop 5 (cordic8.init (cordic8.fold s x y))).k = 5 := by omega
    rw [ek] at hb5
    simpa [cordic8.gainBound] using hb5

/-- Claim C20 at the input `(23169, 23169)`. -/
theorem radius8_upper_bound_witness :
    (23169 : Int) ^ 2 + 23169 ^ 2 ≤ 32767 ^ 2 ∧
    ((cordic8.atan2sqrt cordic8.zero 23169 23169).radius = 0 ∨
      (((cordic8.atan2sqrt cordic8.zero 23169 23169).radius : Int) - 1) ^ 2
        < 23169 ^ 2 + 23169 ^ 2) :=
  ⟨by decide, (radius8_upper_bound cordic8.zero 23169 23169 (by decide)).1⟩

end FastCordic
